import Mathlib

/-!
# Incremental escape-time fractal solver: work queue, grid container, solver

A shallow embedding of `workqueue.cpp`, `grid2d.hpp`, `complex.cpp` and `solver.cpp`.

* `unsigned int` values are natural numbers below `2 ^ 32`, `std::size_t` values are natural
  numbers below `2 ^ 64`; conversions and wrap-around are written out.
* `int` counters (iteration counts, escape count, histogram buckets) are integers; adding one
  to them is not wrapped.
* `double` values are elements of an arbitrary linearly ordered field `K` (exact arithmetic).
* Operations that can hit an assertion or an out-of-range access return `Option`, and so do
  loops that cannot end.
* `iterateGrid` runs the workers of a pass one after the other. `iterateGridScheduled` runs
  them at once: their steps are interleaved as a schedule lists them, and the increment of a
  histogram bucket, which is not atomic, is a read followed by a write.
* The calls on `calculationMutex` and on the aborted state of the work queue are modelled on
  their own, as the sequence of these calls that each member function makes (`Sync`).
-/

namespace Mandelbrot

/-! ## Machine integers -/

/-- Number of values of an `unsigned int`. -/
def UINT_MOD : Nat := 2 ^ 32

/-- Number of values of a `std::size_t`. -/
def SIZE_MOD : Nat := 2 ^ 64

/-- Conversion of an `unsigned int` value to `int` (modular). -/
def toInt32 (u : Nat) : Int :=
  if u % UINT_MOD < 2 ^ 31 then ((u % UINT_MOD : Nat) : Int)
  else ((u % UINT_MOD : Nat) : Int) - (UINT_MOD : Int)

/-- Conversion of an `int` value to `unsigned int` (modular). -/
def toUInt32 (i : Int) : Nat := (i % (UINT_MOD : Int)).toNat

/-- Conversion of an `int` value to `std::size_t` (modular). -/
def toSizeT (i : Int) : Nat := (i % (SIZE_MOD : Int)).toNat

/-! ## Work queue (`workqueue.cpp`) -/

/-- State of a `WorkQueue`: the data members that `workqueue.cpp` reads and writes. -/
structure WorkQueue where
  taskCount : Nat
  taskLength : Nat
  nextTask : Nat
  deriving DecidableEq

namespace WorkQueue

/-- The value `getTask` hands out when no row is left: `task = -1` stored in an `unsigned int`. -/
def NONE_TASK : Nat := UINT_MOD - 1

/-- `WorkQueue::setTaskCount`. -/
def setTaskCount (q : WorkQueue) (count : Nat) : WorkQueue :=
  { q with taskCount := count, nextTask := 0 }

/-- `WorkQueue::setTaskLength`. -/
def setTaskLength (q : WorkQueue) (length : Nat) : WorkQueue :=
  { q with taskLength := length }

/-- `WorkQueue::getTask`: the returned pair `(task, taskLength)` and the queue afterwards.
The local `task` is an `unsigned int`; the returned tuple holds it as an `int`. -/
def getTask (q : WorkQueue) : (Int × Nat) × WorkQueue :=
  if q.nextTask ≥ q.taskCount then
    ((toInt32 NONE_TASK, q.taskLength), q)
  else
    ((toInt32 q.nextTask, q.taskLength), { q with nextTask := (q.nextTask + 1) % UINT_MOD })

/-- Modelled from the spec: `WorkQueue::abortIteration` is declared in `workqueue.hpp`, which is
not part of the sources at hand. The spec has it set the aborted state, in which `getTask`
returns the sentinel to every caller and which the next `setTaskCount` clears. `getTask` and
`setTaskCount` in `workqueue.cpp` read and write `taskCount` and `nextTask` only, so the
aborted state is kept in these two members: no task is left and the cursor stands past the
task count, where `getTask` never moves it. -/
def abortIteration (q : WorkQueue) : WorkQueue :=
  { q with taskCount := 0, nextTask := 1 }

/-- Modelled from the spec: `WorkQueue::isAborted` is declared in `workqueue.hpp`, which is not
part of the sources at hand; it reports the aborted state set by `abortIteration`: the cursor
stands past the task count. -/
def isAborted (q : WorkQueue) : Bool := decide (q.taskCount < q.nextTask)

/-- The queue after `k` successive calls of `getTask`. -/
def afterTasks (q : WorkQueue) : Nat → WorkQueue
  | 0 => q
  | k + 1 => (afterTasks q k).getTask.2

/-- The result of call number `k` (counted from `0`) in a run of successive `getTask` calls. -/
def nthTask (q : WorkQueue) (k : Nat) : Int × Nat :=
  (afterTasks q k).getTask.1

end WorkQueue

/-! ## Loops -/

/-- The loop `for (i = start; i < start + count; i++) body(i)`, whose body may fail. -/
def forLoop {σ : Type} (body : Nat → σ → Option σ) : Nat → Nat → σ → Option σ
  | 0, _, s => some s
  | count + 1, i, s =>
    match body i s with
    | none => none
    | some s1 => forLoop body count (i + 1) s1

/-- The same loop with a `break` taken as soon as `stop` holds at the top of an iteration. -/
def forLoopBreak {σ : Type} (stop : σ → Bool) (body : Nat → σ → Option σ) :
    Nat → Nat → σ → Option σ
  | 0, _, s => some s
  | count + 1, i, s =>
    if stop s then some s
    else
      match body i s with
      | none => none
      | some s1 => forLoopBreak stop body count (i + 1) s1

/-! ## Complex numbers (`complex.cpp`, `complex.hpp`) -/

/-- The struct `Complex`: a pair of scalars. -/
structure Complex (K : Type) where
  real : K
  imag : K
  deriving DecidableEq

namespace Complex

variable {K : Type} [Field K]

/-- The default constructor `Complex()`. -/
instance : Zero (Complex K) := ⟨⟨0, 0⟩⟩

/-- `Complex::operator+=`, returning the updated left operand. -/
def addAssign (lhs rhs : Complex K) : Complex K :=
  ⟨lhs.real + rhs.real, lhs.imag + rhs.imag⟩

/-- `Complex::squareAdd`, returning the updated object. -/
def squareAdd (z other : Complex K) : Complex K :=
  let realSquared := z.real * z.real
  let imagSquared := z.imag * z.imag
  let imag := (z.real + z.real) * z.imag + other.imag
  let real := realSquared - imagSquared + other.real
  ⟨real, imag⟩

/-- `Complex::magnitudeSquared`. -/
def magnitudeSquared (z : Complex K) : K :=
  z.real * z.real + z.imag * z.imag

/-- `Complex::operator-=`, returning the updated left operand. -/
def subAssign (lhs rhs : Complex K) : Complex K :=
  ⟨lhs.real - rhs.real, lhs.imag - rhs.imag⟩

/-- `Complex::operator*=`, returning the updated left operand. -/
def mulAssign (lhs rhs : Complex K) : Complex K :=
  ⟨lhs.real * rhs.real - lhs.imag * rhs.imag, lhs.real * rhs.imag + lhs.imag * rhs.real⟩

/-- `Complex::operator/=`, returning the updated left operand. -/
def divAssign (lhs rhs : Complex K) : Complex K :=
  let denominator := lhs.real * lhs.real + rhs.real * rhs.real
  ⟨(lhs.real * rhs.real + lhs.imag * rhs.imag) / denominator,
    (lhs.imag * rhs.real - lhs.real * rhs.imag) / denominator⟩

/-- The friend `operator+`: `lhs += rhs; return lhs;`. -/
def add (lhs rhs : Complex K) : Complex K :=
  let lhs1 := lhs.addAssign rhs
  lhs1

/-- The friend `operator-`: `lhs -= rhs; return lhs;`. -/
def sub (lhs rhs : Complex K) : Complex K :=
  let lhs1 := lhs.subAssign rhs
  lhs1

/-- The friend `operator*`: `lhs *= rhs; return lhs;`. -/
def mul (lhs rhs : Complex K) : Complex K :=
  let lhs1 := lhs.mulAssign rhs
  lhs1

/-- The friend `operator/`: `lhs /= rhs; return rhs;`. -/
def div (lhs rhs : Complex K) : Complex K :=
  let _lhs1 := lhs.divAssign rhs
  rhs

/-- The quotient of standard complex algebra, `a · conj(b) / (b.real² + b.imag²)`, written
from the words of the specification to compare the division operators with. -/
def standardQuotient (a b : Complex K) : Complex K :=
  ⟨(a.real * b.real + a.imag * b.imag) / (b.real * b.real + b.imag * b.imag),
    (a.imag * b.real - a.real * b.imag) / (b.real * b.real + b.imag * b.imag)⟩

end Complex

/-! ## Grid container (`grid2d.hpp`) -/

/-- The class template `Grid2d<T>`: `m_width`, `m_height` (both `std::size_t`) and the backing
`std::vector<T>`. -/
structure Grid2d (T : Type) where
  m_width : Nat
  m_height : Nat
  data : List T
  deriving DecidableEq

/-- `std::vector<T>::resize(n)`: keeps the first `n` elements, value-initialises new ones. -/
def vectorResize {T : Type} [Zero T] (v : List T) (n : Nat) : List T :=
  v.take n ++ List.replicate (n - v.length) 0

namespace Grid2d

variable {T : Type}

/-- The default constructor `Grid2d()`. -/
def empty : Grid2d T := ⟨0, 0, []⟩

/-- `Grid2d::width`. -/
def width (g : Grid2d T) : Nat := g.m_width

/-- `Grid2d::height`. -/
def height (g : Grid2d T) : Nat := g.m_height

/-- `Grid2d::size`: the product is taken in `std::size_t`. -/
def size (g : Grid2d T) : Nat := (g.m_width * g.m_height) % SIZE_MOD

/-- `Grid2d::resize`. -/
def resize [Zero T] (g : Grid2d T) (width height : Nat) : Grid2d T :=
  { m_width := width, m_height := height,
    data := vectorResize g.data ((width * height) % SIZE_MOD) }

/-- The row-major offset `y * m_width + x` of `operator[]`, computed in `std::size_t`. -/
def offset (g : Grid2d T) (x y : Nat) : Nat := (y * g.m_width + x) % SIZE_MOD

/-- Reading through `Grid2d::operator[]`: fails when the assertion fails or the offset lies
outside the backing array. -/
def get (g : Grid2d T) (x y : Nat) : Option T :=
  if x < g.m_width ∧ y < g.m_height then g.data[g.offset x y]? else none

/-- Writing through `Grid2d::operator[]`: fails when the assertion fails or the offset lies
outside the backing array. -/
def set (g : Grid2d T) (x y : Nat) (v : T) : Option (Grid2d T) :=
  if x < g.m_width ∧ y < g.m_height ∧ g.offset x y < g.data.length then
    some { g with data := g.data.set (g.offset x y) v }
  else none

/-- `Grid2d::assign`. The loop counters are `unsigned int` while the bounds are `std::size_t`:
a bound the counter cannot reach makes the loop run forever, which is reported as failure,
like a failed assertion. -/
def assign (g : Grid2d T) (width height : Nat) (value : T) : Option (Grid2d T) :=
  if width ≤ g.m_width ∧ height ≤ g.m_height then
    if height < UINT_MOD ∧ (height = 0 ∨ width < UINT_MOD) then
      forLoop (fun y g1 => forLoop (fun x g2 => g2.set x y value) width 0 g1) height 0 g
    else none
  else none

/-- Copy assignment `self = other`, returning the new value of `self`; `sameObject` tells
whether `this == &other`. -/
def copyAssign (self other : Grid2d T) (sameObject : Bool) : Grid2d T :=
  if sameObject then self
  else { m_width := other.m_width, m_height := other.m_height, data := other.data }

/-- Move assignment `self = std::move(other)`, returning the new values of `self` and of
`other`; `sameObject` tells whether `this == &other`. The vector moved from is left empty. -/
def moveAssign (self other : Grid2d T) (sameObject : Bool) : Grid2d T × Grid2d T :=
  if sameObject then (self, self)
  else ({ m_width := other.m_width, m_height := other.m_height, data := other.data },
        { m_width := 0, m_height := 0, data := [] })

/-- The grid has the dimensions `w` by `h`, one element of the backing array for every cell, and
fewer than `2 ^ 64` cells. -/
def Shaped (g : Grid2d T) (w h : Nat) : Prop :=
  g.m_width = w ∧ g.m_height = h ∧ g.data.length = w * h ∧ w * h < SIZE_MOD

/-- The backing array has exactly `width() * height()` elements, the product being below
`2 ^ 64`. -/
def WellSized (g : Grid2d T) : Prop :=
  g.data.length = g.m_width * g.m_height ∧ g.m_width * g.m_height < SIZE_MOD

end Grid2d

/-! ## Solver (`solver.cpp`) -/

/-- The data members of `Solver` that `solver.cpp` uses. `int` counters are integers. -/
structure Solver (K : Type) where
  m_grid : Grid2d (Complex K)
  m_iterationGrid : Grid2d Int
  m_magnitudeSquaredGrid : Grid2d K
  escapeIterationCounter : List Int
  m_escapeCount : Int
  m_iterationCount : Int
  m_iterationMaximum : Int
  m_escapeRadius : K
  m_width : Int
  m_height : Int
  aspectRatio : K
  m_viewCenter : Complex K
  m_viewScale : K
  m_currentFractal : Bool
  m_juliaConstant : Complex K
  workQueue : WorkQueue
  deriving DecidableEq

namespace Solver

variable {K : Type} [LinearOrderedField K]

/-- The constructor `Solver::Solver`. The members it leaves untouched start out with values the
constructor does not determine: the escape count and the work queue. -/
def init (escapeCount0 : Int) (queue0 : WorkQueue) : Solver K :=
  { m_grid := Grid2d.empty
    m_iterationGrid := Grid2d.empty
    m_magnitudeSquaredGrid := Grid2d.empty
    escapeIterationCounter := []
    m_escapeCount := escapeCount0
    m_iterationCount := 0
    m_iterationMaximum := 8192
    m_escapeRadius := 2
    m_width := 1
    m_height := 1
    aspectRatio := ((1 : Int) : K) / ((1 : Int) : K)
    m_viewCenter := ⟨-(1 / 2), 0⟩
    m_viewScale := 1
    m_currentFractal := true
    m_juliaConstant := ⟨-(1 / 2), 0⟩
    workQueue := queue0 }

/-- `Solver::mapToComplex`. -/
def mapToComplex (s : Solver K) (x y : K) : Complex K :=
  let x1 := x + 1 / 2
  let y1 := y + 1 / 2
  let realRange := (2 * s.m_escapeRadius) / s.m_viewScale
  let imaginaryRange := realRange * ((s.m_height : K) / (s.m_width : K))
  let x2 := x1 * (realRange / (s.m_width : K))
  let y2 := y1 * (imaginaryRange / (s.m_height : K))
  let x3 := x2 + (s.m_viewCenter.real - s.m_escapeRadius / s.m_viewScale)
  let y3 := y2 + (s.m_viewCenter.imag - s.m_escapeRadius / (s.m_viewScale * s.aspectRatio))
  let y4 := 2 * s.m_viewCenter.imag - y3
  ⟨x3, y4⟩

/-- The seeding loop of `resetGrid` in Julia mode: `m_grid[x, y] = mapToComplex(x, y)`. -/
def seedJulia (s : Solver K) (g : Grid2d (Complex K)) : Option (Grid2d (Complex K)) :=
  forLoop (fun y g1 =>
    forLoop (fun x g2 => g2.set x y (mapToComplex s ((x : Int) : K) ((y : Int) : K)))
      s.m_width.toNat 0 g1) s.m_height.toNat 0 g

/-- `Solver::resetGrid`. -/
def resetGrid (s : Solver K) : Option (Solver K) :=
  let queue := s.workQueue.abortIteration
  let w := toSizeT s.m_width
  let h := toSizeT s.m_height
  let grid0 := s.m_grid.resize w h
  (if s.m_currentFractal then grid0.assign w h ⟨0, 0⟩ else seedJulia s grid0).bind fun grid =>
  ((s.m_iterationGrid.resize w h).assign w h 0).bind fun iterationGrid =>
  ((s.m_magnitudeSquaredGrid.resize w h).assign w h 0).bind fun magnitudeSquaredGrid =>
  some { s with
    workQueue := queue
    m_grid := grid
    m_iterationGrid := iterationGrid
    m_magnitudeSquaredGrid := magnitudeSquaredGrid
    m_escapeCount := 0
    escapeIterationCounter := List.replicate (toSizeT s.m_iterationMaximum) 0
    m_iterationCount := 0 }

/-- `Solver::resizeGrid`. -/
def resizeGrid (s : Solver K) (width height : Int) : Option (Solver K) :=
  resetGrid { s with
    m_width := width
    m_height := height
    aspectRatio := (width : K) / (height : K) }

/-- `Solver::initializeGrid`. -/
def initializeGrid (s : Solver K) (width height : Int) (viewCenterReal viewCenterImag viewScale : K) :
    Option (Solver K) :=
  resizeGrid { s with
    m_viewCenter := ⟨viewCenterReal, viewCenterImag⟩
    m_viewScale := viewScale } width height

/-- `Solver::toggleJulia`. -/
def toggleJulia (s : Solver K) : Option (Solver K) :=
  let s1 : Solver K :=
    if s.m_currentFractal then { s with m_juliaConstant := s.m_viewCenter }
    else { s with m_viewCenter := s.m_juliaConstant }
  resetGrid { s1 with m_currentFractal := !s1.m_currentFractal }

/-- `Solver::zoomIn`. -/
def zoomIn (s : Solver K) (factor : K) : Option (Solver K) :=
  resetGrid { s with m_viewScale := s.m_viewScale * factor }

/-- `Solver::zoomOut`. -/
def zoomOut (s : Solver K) (factor : K) : Option (Solver K) :=
  resetGrid { s with m_viewScale := s.m_viewScale / factor }

/-- `Solver::zoomOnPixel`. -/
def zoomOnPixel (s : Solver K) (x y : Int) (factor : K) : Option (Solver K) :=
  let s1 : Solver K := { s with m_viewCenter := mapToComplex s (x : K) (y : K) }
  resetGrid { s1 with m_viewScale := s1.m_viewScale * factor }

/-- `Solver::move`. -/
def move (s : Solver K) (real imag : K) : Option (Solver K) :=
  resetGrid { s with
    m_viewCenter := s.m_viewCenter.addAssign ⟨real / s.m_viewScale, imag / s.m_viewScale⟩ }

/-- The body of the column loop of `rowIterator` below the abort check: one step of the
recurrence for the pixel in column `x` of the row `y` handed out by the work queue. -/
def pixelStep (s : Solver K) (x : Nat) (y : Int) : Option (Solver K) :=
  (s.m_magnitudeSquaredGrid.get x (toSizeT y)).bind fun m =>
  if m ≤ s.m_escapeRadius * s.m_escapeRadius then
    (s.m_grid.get x (toSizeT y)).bind fun z =>
    let c := if s.m_currentFractal then mapToComplex s ((x : Int) : K) (y : K)
      else s.m_juliaConstant
    let z1 := z.squareAdd c
    (s.m_grid.set x (toSizeT y) z1).bind fun grid =>
    (s.m_magnitudeSquaredGrid.set x (toSizeT y) z1.magnitudeSquared).bind
      fun magnitudeSquaredGrid =>
    (s.m_iterationGrid.get x (toSizeT y)).bind fun n =>
    (s.m_iterationGrid.set x (toSizeT y) (n + 1)).bind fun iterationGrid =>
    let s1 : Solver K := { s with
      m_grid := grid
      m_magnitudeSquaredGrid := magnitudeSquaredGrid
      m_iterationGrid := iterationGrid }
    if z1.magnitudeSquared > s.m_escapeRadius * s.m_escapeRadius then
      (s.escapeIterationCounter[toSizeT (n + 1 - 1)]?).bind fun bucket =>
      some { s1 with
        m_escapeCount := s.m_escapeCount + 1
        escapeIterationCounter :=
          s.escapeIterationCounter.set (toSizeT (n + 1 - 1)) (bucket + 1) }
    else some s1
  else some s

/-- The column loop of `rowIterator` for the row `y`, with its abort check. -/
def rowLoop (s : Solver K) (y : Int) : Option (Solver K) :=
  forLoopBreak (fun s1 => s1.workQueue.isAborted) (fun x s1 => pixelStep s1 x y)
    s.m_width.toNat 0 s

/-- The `while (y != -1)` loop of `rowIterator`, entered with the task just taken from the
queue; `fuel` bounds the number of tasks still taken. -/
def rowIteratorLoop : Nat → Solver K → Option (Solver K)
  | 0, _ => none
  | fuel + 1, s =>
    let task := s.workQueue.getTask
    let s1 : Solver K := { s with workQueue := task.2 }
    if task.1.1 = -1 then some s1
    else
      match rowLoop s1 task.1.1 with
      | none => none
      | some s2 => rowIteratorLoop fuel s2

/-- `Solver::rowIterator`, run by one worker on its own: the queue hands out at most
`taskCount` rows before the sentinel, so `taskCount + 1` calls of `getTask` suffice. -/
def rowIterator (s : Solver K) : Option (Solver K) :=
  rowIteratorLoop (s.workQueue.taskCount + 1) s

/-- The workers of one pass, run one after the other. -/
def workers : Nat → Solver K → Option (Solver K)
  | 0, s => some s
  | threadCount + 1, s =>
    match rowIterator s with
    | none => none
    | some s1 => workers threadCount s1

/-- The queue set-up at the start of a pass in `iterateGrid`. -/
def startPass (s : Solver K) : Solver K :=
  { s with workQueue :=
      (s.workQueue.setTaskCount (toUInt32 s.m_height)).setTaskLength (toUInt32 s.m_width) }

/-- `Solver::iterateGrid`, with `threadCount` the value of
`std::thread::hardware_concurrency()`. -/
def iterateGrid (threadCount : Nat) (s : Solver K) : Option (Solver K) :=
  if s.m_iterationCount < s.m_iterationMaximum then
    match workers threadCount (startPass s) with
    | none => none
    | some s1 =>
      if !s1.workQueue.isAborted then
        some { s1 with m_iterationCount := s1.m_iterationCount + 1 }
      else some s1
  else some s

/-- The column-loop body of `rowIterator` up to the read of the histogram bucket: as
`pixelStep`, except that an escaping step ends after `m_escapeCount++` (an atomic increment)
and the read of `escapeIterationCounter[m_iterationGrid[x, y] - 1]`, and hands on the index and
the value read. The increment of the bucket is an increment of a plain `int` in a
`std::vector<int>`: a read followed by the write of `storeBucket`. -/
def pixelStepUntilStore (s : Solver K) (x : Nat) (y : Int) :
    Option (Solver K × Option (Nat × Int)) :=
  (s.m_magnitudeSquaredGrid.get x (toSizeT y)).bind fun m =>
  if m ≤ s.m_escapeRadius * s.m_escapeRadius then
    (s.m_grid.get x (toSizeT y)).bind fun z =>
    let c := if s.m_currentFractal then mapToComplex s ((x : Int) : K) (y : K)
      else s.m_juliaConstant
    let z1 := z.squareAdd c
    (s.m_grid.set x (toSizeT y) z1).bind fun grid =>
    (s.m_magnitudeSquaredGrid.set x (toSizeT y) z1.magnitudeSquared).bind
      fun magnitudeSquaredGrid =>
    (s.m_iterationGrid.get x (toSizeT y)).bind fun n =>
    (s.m_iterationGrid.set x (toSizeT y) (n + 1)).bind fun iterationGrid =>
    let s1 : Solver K := { s with
      m_grid := grid
      m_magnitudeSquaredGrid := magnitudeSquaredGrid
      m_iterationGrid := iterationGrid }
    if z1.magnitudeSquared > s.m_escapeRadius * s.m_escapeRadius then
      (s.escapeIterationCounter[toSizeT (n + 1 - 1)]?).bind fun bucket =>
      some ({ s1 with m_escapeCount := s.m_escapeCount + 1 },
        some (toSizeT (n + 1 - 1), bucket))
    else some (s1, none)
  else some (s, none)

/-- The write that ends `escapeIterationCounter[...]++`: the value read before, plus one. -/
def storeBucket (s : Solver K) (index : Nat) (bucket : Int) : Solver K :=
  { s with escapeIterationCounter := s.escapeIterationCounter.set index (bucket + 1) }

/-- Where a worker thread stands in `rowIterator`: about to call `getTask`; about to test
`x < m_width` for the row `y`; between the read and the write of a histogram bucket; or
returned. -/
inductive WorkerState where
  | claiming
  | atColumn (y : Int) (x : Nat)
  | storing (y : Int) (x : Nat) (index : Nat) (bucket : Int)
  | returned
  deriving DecidableEq

/-- One step of one worker thread in `rowIterator`, taken while the other workers wait. A
worker that has returned takes no step. -/
def workerStep (s : Solver K) : WorkerState → Option (Solver K × WorkerState)
  | .claiming =>
    let task := s.workQueue.getTask
    let s1 : Solver K := { s with workQueue := task.2 }
    if task.1.1 = -1 then some (s1, .returned) else some (s1, .atColumn task.1.1 0)
  | .atColumn y x =>
    if (x : Int) < s.m_width then
      if s.workQueue.isAborted then some (s, .claiming)
      else
        match pixelStepUntilStore s x y with
        | none => none
        | some (s1, none) => some (s1, .atColumn y (x + 1))
        | some (s1, some (index, bucket)) => some (s1, .storing y x index bucket)
    else some (s, .claiming)
  | .storing y x index bucket => some (storeBucket s index bucket, .atColumn y (x + 1))
  | .returned => none

/-- A pass in progress: the solver's members and the worker threads of `iterateGrid`. -/
structure Pass (K : Type) where
  solver : Solver K
  threads : List WorkerState

/-- The worker thread number `t` takes its next step. -/
def Pass.step (p : Pass K) (t : Nat) : Option (Pass K) :=
  match p.threads[t]? with
  | none => none
  | some w =>
    match workerStep p.solver w with
    | none => none
    | some (s1, w1) => some { solver := s1, threads := p.threads.set t w1 }

/-- The worker threads take their steps in the order listed in `schedule`. -/
def Pass.run : List Nat → Pass K → Option (Pass K)
  | [], p => some p
  | t :: ts, p =>
    match p.step t with
    | none => none
    | some p1 => Pass.run ts p1

/-- `Solver::iterateGrid` with its `threadCount` workers running at once, their steps
interleaved as `schedule` lists them. The call goes on when all workers have returned (the
`jthread`s are joined at the end of their block); a schedule that leaves a worker unfinished
is not a run of the call. -/
def iterateGridScheduled (threadCount : Nat) (schedule : List Nat) (s : Solver K) :
    Option (Solver K) :=
  if s.m_iterationCount < s.m_iterationMaximum then
    match Pass.run schedule
      { solver := startPass s, threads := List.replicate threadCount .claiming } with
    | none => none
    | some p =>
      if p.threads.all (fun w => decide (w = .returned)) then
        if !p.solver.workQueue.isAborted then
          some { p.solver with m_iterationCount := p.solver.m_iterationCount + 1 }
        else some p.solver
      else none
  else some s

/-- The histogram buckets written while the worker threads take their steps in the order
listed in `schedule`, in the order of the writes. -/
def Pass.storeIndices : List Nat → Pass K → List Nat
  | [], _ => []
  | t :: ts, p =>
    match p.step t with
    | none => []
    | some p1 =>
      match p.threads[t]? with
      | some (.storing _ _ index _) => index :: Pass.storeIndices ts p1
      | _ => Pass.storeIndices ts p1

/-- The prefix-sum loop of `getFrameData`: `sums[i] = sums[i - 1] + escapeIterationCounter[i]`. -/
def prefixSumStep (counter : List Int) (i : Nat) (sums : List Int) : Option (List Int) :=
  (sums[i - 1]?).bind fun previous =>
  (counter[i]?).bind fun bucket =>
  if i < sums.length then some (sums.set i (previous + bucket)) else none

/-- The frame handed out by `getFrameData`. -/
structure FrameData (K : Type) where
  iterationCount : Int
  escapeCount : Int
  magnitudeSquaredGrid : Grid2d K
  iterationGrid : Grid2d Int
  escapeIterationCounterSums : List Int

/-- `Solver::getFrameData` called with nothing else running; `sums0` is the previous content of
the caller's vector. With `m_iterationCount == 0` the first loop never ends, and with the queue
aborted the second loop never ends: both are reported as failure. -/
def getFrameData (s : Solver K) (sums0 : List Int) : Option (FrameData K) :=
  if s.m_iterationCount = 0 then none
  else if s.workQueue.isAborted then none
  else
    let sums1 := vectorResize sums0 (toSizeT s.m_iterationMaximum)
    (s.escapeIterationCounter[0]?).bind fun first =>
    if 0 < sums1.length then
      (forLoop (prefixSumStep s.escapeIterationCounter) (s.m_iterationMaximum - 1).toNat 1
        (sums1.set 0 first)).bind fun sums =>
      some { iterationCount := s.m_iterationCount
             escapeCount := s.m_escapeCount
             magnitudeSquaredGrid := s.m_magnitudeSquaredGrid
             iterationGrid := s.m_iterationGrid
             escapeIterationCounterSums := sums }
    else none

/-- The view-changing commands of the control thread other than `toggleJulia`. -/
inductive Command (K : Type) where
  | move (real imag : K)
  | zoomIn (factor : K)
  | zoomOut (factor : K)
  | zoomOnPixel (x y : Int) (factor : K)
  | resizeGrid (width height : Int)

/-- Running one command. -/
def Command.run : Command K → Solver K → Option (Solver K)
  | .move real imag, s => s.move real imag
  | .zoomIn factor, s => s.zoomIn factor
  | .zoomOut factor, s => s.zoomOut factor
  | .zoomOnPixel x y factor, s => s.zoomOnPixel x y factor
  | .resizeGrid width height, s => s.resizeGrid width height

/-- A command that does not ask for a negative grid dimension. -/
def Command.DimsOk : Command K → Prop
  | .resizeGrid width height => 0 ≤ width ∧ width < 2 ^ 31 ∧ 0 ≤ height ∧ height < 2 ^ 31
  | _ => True

/-- Running a sequence of commands, first to last. -/
def runCommands : List (Command K) → Solver K → Option (Solver K)
  | [], s => some s
  | c :: cs, s => (c.run s).bind (runCommands cs)

/-- States reached from `resetGrid` (applied to `s0`) by completed passes: calls of
`iterateGrid` that return with the queue not aborted. A pass may find the work queue in any
state, since what happens to the queue between two passes is decided in `workqueue.hpp`. -/
inductive ReachedByPasses (s0 : Solver K) : Solver K → Prop where
  | reset {s : Solver K} : s0.resetGrid = some s → ReachedByPasses s0 s
  | pass {s s' : Solver K} (threadCount : Nat) (queue : WorkQueue) :
      ReachedByPasses s0 s → iterateGrid threadCount { s with workQueue := queue } = some s' →
      s'.workQueue.isAborted = false → ReachedByPasses s0 s'

/-- A state on which the row step is defined: the dimensions are non-negative `int` values, the
three grids have these dimensions, and the iteration count of every pixel that is still
iterated is the index of a histogram bucket. -/
def PassReady (s : Solver K) : Prop :=
  0 ≤ s.m_width ∧ s.m_width < 2 ^ 31 ∧ 0 ≤ s.m_height ∧ s.m_height < 2 ^ 31 ∧
  s.m_grid.Shaped s.m_width.toNat s.m_height.toNat ∧
  s.m_iterationGrid.Shaped s.m_width.toNat s.m_height.toNat ∧
  s.m_magnitudeSquaredGrid.Shaped s.m_width.toNat s.m_height.toNat ∧
  ∀ (x y : Nat) (m : K) (n : Int), s.m_magnitudeSquaredGrid.get x y = some m →
    s.m_iterationGrid.get x y = some n → m ≤ s.m_escapeRadius * s.m_escapeRadius →
    0 ≤ n ∧ n < (s.escapeIterationCounter.length : Int)

/-- The constant added by the row step to the cell with row-major offset `i`. -/
def stepConstant (s : Solver K) (i : Nat) : Complex K :=
  if s.m_currentFractal then
    mapToComplex s (((i % s.m_width.toNat : Nat) : Int) : K) (((i / s.m_width.toNat : Nat) : Int) : K)
  else s.m_juliaConstant

/-- The state `s` of a pass that started in `s0`, after the first `n` cells in row-major order
have been visited: those among them that had not escaped have been stepped, every other cell
is as in `s0`. -/
structure PassInv (s0 : Solver K) (n : Nat) (s : Solver K) : Prop where
  width_eq : s.m_width = s0.m_width
  height_eq : s.m_height = s0.m_height
  aspect_eq : s.aspectRatio = s0.aspectRatio
  center_eq : s.m_viewCenter = s0.m_viewCenter
  scale_eq : s.m_viewScale = s0.m_viewScale
  radius_eq : s.m_escapeRadius = s0.m_escapeRadius
  fractal_eq : s.m_currentFractal = s0.m_currentFractal
  julia_eq : s.m_juliaConstant = s0.m_juliaConstant
  counter_length : s.escapeIterationCounter.length = s0.escapeIterationCounter.length
  grid_shaped : s.m_grid.Shaped s0.m_width.toNat s0.m_height.toNat
  iteration_shaped : s.m_iterationGrid.Shaped s0.m_width.toNat s0.m_height.toNat
  magnitude_shaped : s.m_magnitudeSquaredGrid.Shaped s0.m_width.toNat s0.m_height.toNat
  not_aborted : s.workQueue.isAborted = false
  cells : ∀ (i : Nat) (z : Complex K) (m : K) (k : Int),
    s0.m_grid.data[i]? = some z → s0.m_magnitudeSquaredGrid.data[i]? = some m →
    s0.m_iterationGrid.data[i]? = some k →
    s.m_grid.data[i]? = some
      (if i < n ∧ m ≤ s0.m_escapeRadius * s0.m_escapeRadius
        then z.squareAdd (stepConstant s0 i) else z) ∧
    s.m_magnitudeSquaredGrid.data[i]? = some
      (if i < n ∧ m ≤ s0.m_escapeRadius * s0.m_escapeRadius
        then (z.squareAdd (stepConstant s0 i)).magnitudeSquared else m) ∧
    s.m_iterationGrid.data[i]? = some
      (if i < n ∧ m ≤ s0.m_escapeRadius * s0.m_escapeRadius then k + 1 else k)

/-- Whether the row step steps the cell with row-major offset `i`: its stored squared magnitude
does not exceed `escapeRadius²`. -/
def activeAt (s : Solver K) (i : Nat) : Bool :=
  match s.m_magnitudeSquaredGrid.data[i]? with
  | some m => decide (m ≤ s.m_escapeRadius * s.m_escapeRadius)
  | none => false

/-- The complex value the row step leaves in the cell with offset `i` when it steps it. -/
def steppedAt (s : Solver K) (i : Nat) : Complex K :=
  match s.m_grid.data[i]? with
  | some z => z.squareAdd (stepConstant s i)
  | none => 0

/-- Whether the cell with offset `i` escapes when the row step visits it. -/
def escapesAt (s : Solver K) (i : Nat) : Bool :=
  activeAt s i &&
    decide (s.m_escapeRadius * s.m_escapeRadius < (steppedAt s i).magnitudeSquared)

/-- The histogram index `m_iterationGrid[x, y] - 1` that the row step uses when the cell with
offset `i` escapes (the iteration count has been incremented before). -/
def bucketAt (s : Solver K) (i : Nat) : Nat :=
  match s.m_iterationGrid.data[i]? with
  | some k => toSizeT (k + 1 - 1)
  | none => 0

/-- The state `s` of a pass that started in `s0`, after exactly the cells with offsets in `V`
have been visited, in whatever order: the cells describe as in `PassInv`, the escape count has
grown by the number of visited cells that escaped, and every bucket by the number of those
among them that used it. -/
structure Visited (s0 : Solver K) (V : Finset Nat) (s : Solver K) : Prop where
  width_eq : s.m_width = s0.m_width
  height_eq : s.m_height = s0.m_height
  aspect_eq : s.aspectRatio = s0.aspectRatio
  center_eq : s.m_viewCenter = s0.m_viewCenter
  scale_eq : s.m_viewScale = s0.m_viewScale
  radius_eq : s.m_escapeRadius = s0.m_escapeRadius
  fractal_eq : s.m_currentFractal = s0.m_currentFractal
  julia_eq : s.m_juliaConstant = s0.m_juliaConstant
  counter_length : s.escapeIterationCounter.length = s0.escapeIterationCounter.length
  grid_shaped : s.m_grid.Shaped s0.m_width.toNat s0.m_height.toNat
  iteration_shaped : s.m_iterationGrid.Shaped s0.m_width.toNat s0.m_height.toNat
  magnitude_shaped : s.m_magnitudeSquaredGrid.Shaped s0.m_width.toNat s0.m_height.toNat
  not_aborted : s.workQueue.isAborted = false
  cells : ∀ (i : Nat) (z : Complex K) (m : K) (k : Int),
    s0.m_grid.data[i]? = some z → s0.m_magnitudeSquaredGrid.data[i]? = some m →
    s0.m_iterationGrid.data[i]? = some k →
    s.m_grid.data[i]? = some
      (if i ∈ V ∧ m ≤ s0.m_escapeRadius * s0.m_escapeRadius
        then z.squareAdd (stepConstant s0 i) else z) ∧
    s.m_magnitudeSquaredGrid.data[i]? = some
      (if i ∈ V ∧ m ≤ s0.m_escapeRadius * s0.m_escapeRadius
        then (z.squareAdd (stepConstant s0 i)).magnitudeSquared else m) ∧
    s.m_iterationGrid.data[i]? = some
      (if i ∈ V ∧ m ≤ s0.m_escapeRadius * s0.m_escapeRadius then k + 1 else k)
  escapeCount_eq : s.m_escapeCount
    = s0.m_escapeCount + ((V.filter fun i => escapesAt s0 i = true).card : Int)
  buckets : ∀ (j : Nat) (b : Int), s0.escapeIterationCounter[j]? = some b →
    s.escapeIterationCounter[j]?
      = some (b + ((V.filter fun i => escapesAt s0 i = true ∧ bucketAt s0 i = j).card : Int))

/-- A state in which passes can run: the dimensions and the iteration maximum are non-negative
`int` values, the three grids have the solver's dimensions, the histogram has one bucket for
every iteration up to the maximum, and no pixel has been iterated more often than passes have
been completed. -/
structure Sound (s : Solver K) : Prop where
  width_nonneg : 0 ≤ s.m_width
  width_lt : s.m_width < 2 ^ 31
  height_nonneg : 0 ≤ s.m_height
  height_lt : s.m_height < 2 ^ 31
  maximum_nonneg : 0 ≤ s.m_iterationMaximum
  maximum_lt : s.m_iterationMaximum < 2 ^ 31
  grid_shaped : s.m_grid.Shaped s.m_width.toNat s.m_height.toNat
  iteration_shaped : s.m_iterationGrid.Shaped s.m_width.toNat s.m_height.toNat
  magnitude_shaped : s.m_magnitudeSquaredGrid.Shaped s.m_width.toNat s.m_height.toNat
  counter_length : (s.escapeIterationCounter.length : Int) = s.m_iterationMaximum
  count_nonneg : 0 ≤ s.m_iterationCount
  count_le : s.m_iterationCount ≤ s.m_iterationMaximum
  iterations : ∀ (i : Nat) (k : Int), s.m_iterationGrid.data[i]? = some k →
    0 ≤ k ∧ k ≤ s.m_iterationCount

/-- One mutating operation of the control thread that returns; the dimensions asked for are
non-negative `int` values. -/
inductive Mutation (s s' : Solver K) : Prop where
  | initializeGrid (width height : Int) (viewCenterReal viewCenterImag viewScale : K) :
      0 ≤ width → width < 2 ^ 31 → 0 ≤ height → height < 2 ^ 31 →
      s.initializeGrid width height viewCenterReal viewCenterImag viewScale = some s' →
      Mutation s s'
  | toggleJulia : s.toggleJulia = some s' → Mutation s s'
  | command (c : Command K) : c.DimsOk → c.run s = some s' → Mutation s s'

/-- States of the program reached from the constructor's state by mutating operations and
calls of `iterateGrid` that return; the flag tells whether a mutating operation has run. A
call of `iterateGrid` may find the work queue in any state. -/
inductive Operated : Bool → Solver K → Prop where
  | init (escapeCount0 : Int) (queue0 : WorkQueue) :
      Operated false (Solver.init escapeCount0 queue0)
  | mutation {b : Bool} {s s' : Solver K} : Operated b s → Mutation s s' → Operated true s'
  | iterateGrid {b : Bool} {s s' : Solver K} (threadCount : Nat) (queue : WorkQueue) :
      Operated b s → iterateGrid threadCount { s with workQueue := queue } = some s' →
      Operated b s'

/-- States reached from `resetGrid` (applied to `s0`) by calls of `iterateGrid` that return,
completed or not. A call may find the work queue in any state. -/
inductive ReachedByIterations (s0 : Solver K) : Solver K → Prop where
  | reset {s : Solver K} : s0.resetGrid = some s → ReachedByIterations s0 s
  | iterate {s s' : Solver K} (threadCount : Nat) (queue : WorkQueue) :
      ReachedByIterations s0 s →
      iterateGrid threadCount { s with workQueue := queue } = some s' →
      ReachedByIterations s0 s'

/-- Whether the cell with row-major offset `i` has escaped: its stored squared magnitude
exceeds `escapeRadius²`. -/
def escapedAt (s : Solver K) (i : Nat) : Bool :=
  match s.m_magnitudeSquaredGrid.data[i]? with
  | some m => decide (s.m_escapeRadius * s.m_escapeRadius < m)
  | none => false

/-- The iteration count stored for the cell with row-major offset `i`. -/
def iterationAt (s : Solver K) (i : Nat) : Int :=
  match s.m_iterationGrid.data[i]? with
  | some k => k
  | none => 0

/-- The escape count is the number of escaped pixels, and the bucket `j` of the histogram is
the number of escaped pixels whose iteration count is `j + 1`. -/
def Counted (s : Solver K) : Prop :=
  s.m_escapeCount = (((Finset.range (s.m_width.toNat * s.m_height.toNat)).filter
    fun i => escapedAt s i = true).card : Int) ∧
  ∀ (j : Nat) (b : Int), s.escapeIterationCounter[j]? = some b →
    b = (((Finset.range (s.m_width.toNat * s.m_height.toNat)).filter
      fun i => escapedAt s i = true ∧ iterationAt s i = (j : Int) + 1).card : Int)

/-- The recurrence `z ← z² + c` of the row step for the cell with row-major offset `i`: the
value `n` steps after the state `s`. -/
def orbitAt (s : Solver K) (i : Nat) : Nat → Complex K
  | 0 =>
    match s.m_grid.data[i]? with
    | some z => z
    | none => 0
  | n + 1 => (orbitAt s i n).squareAdd (stepConstant s i)

/-- States reached from `resetGrid` (applied to `s0`) by `k` completed passes: calls of
`iterateGrid` below the iteration maximum, with at least one worker, that find the queue not
aborted. -/
inductive AfterPasses (s0 : Solver K) : Nat → Solver K → Prop where
  | reset {s : Solver K} : s0.resetGrid = some s → AfterPasses s0 0 s
  | pass {k : Nat} {s s' : Solver K} (threadCount : Nat) (queue : WorkQueue) :
      AfterPasses s0 k s → 0 < threadCount → queue.isAborted = false →
      s.m_iterationCount < s.m_iterationMaximum →
      iterateGrid threadCount { s with workQueue := queue } = some s' →
      AfterPasses s0 (k + 1) s'

/-- The state `s` after `k` completed passes from the state `sr` left by `resetGrid`: every
cell holds the value of the recurrence after `n ≤ k` steps, `n` being its iteration count;
the magnitudes of the steps before `n` did not exceed `escapeRadius²`, and `n < k` only if
the magnitude of step `n` did. -/
structure FirstEscapes (sr : Solver K) (k : Nat) (s : Solver K) : Prop where
  width_eq : s.m_width = sr.m_width
  height_eq : s.m_height = sr.m_height
  aspect_eq : s.aspectRatio = sr.aspectRatio
  center_eq : s.m_viewCenter = sr.m_viewCenter
  scale_eq : s.m_viewScale = sr.m_viewScale
  radius_eq : s.m_escapeRadius = sr.m_escapeRadius
  fractal_eq : s.m_currentFractal = sr.m_currentFractal
  julia_eq : s.m_juliaConstant = sr.m_juliaConstant
  count_eq : s.m_iterationCount = (k : Int)
  cells : ∀ i : Nat, i < sr.m_width.toNat * sr.m_height.toNat →
    ∃ n : Nat, n ≤ k ∧ s.m_grid.data[i]? = some (orbitAt sr i n) ∧
      s.m_iterationGrid.data[i]? = some (n : Int) ∧
      s.m_magnitudeSquaredGrid.data[i]?
        = some (if n = 0 then 0 else (orbitAt sr i n).magnitudeSquared) ∧
      (∀ j : Nat, 1 ≤ j → j < n →
        (orbitAt sr i j).magnitudeSquared ≤ sr.m_escapeRadius * sr.m_escapeRadius) ∧
      (n = k ∨ sr.m_escapeRadius * sr.m_escapeRadius
        < (if n = 0 then 0 else (orbitAt sr i n).magnitudeSquared))

/-- The row-major offsets of the cells of row `y`. -/
def rowCells (s : Solver K) (y : Nat) : Finset Nat :=
  (Finset.range s.m_width.toNat).image fun x => y * s.m_width.toNat + x

/-- The row-major offsets of all cells of the grid, row by row. -/
def allCells (s : Solver K) : Finset Nat :=
  (Finset.range s.m_height.toNat).biUnion (rowCells s)

/-- The row step applied to the rows listed in `order`, one after the other. -/
def rowsInOrder : List Nat → Solver K → Option (Solver K)
  | [], s => some s
  | y :: ys, s =>
    match rowLoop s (y : Int) with
    | none => none
    | some s1 => rowsInOrder ys s1

/-- The escape count equals the sum of all histogram buckets. -/
def Conserved (s : Solver K) : Prop :=
  s.m_escapeCount = s.escapeIterationCounter.sum

/-- A solver over the rationals in Mandelbrot mode: a `3 × 2` grid, at most `4` iterations,
view centre `(0.3, 0.5)`, scale `1`. -/
def sample : Solver ℚ :=
  { m_grid := Grid2d.empty
    m_iterationGrid := Grid2d.empty
    m_magnitudeSquaredGrid := Grid2d.empty
    escapeIterationCounter := []
    m_escapeCount := 0
    m_iterationCount := 0
    m_iterationMaximum := 4
    m_escapeRadius := 2
    m_width := 3
    m_height := 2
    aspectRatio := 3 / 2
    m_viewCenter := ⟨3 / 10, 1 / 2⟩
    m_viewScale := 1
    m_currentFractal := true
    m_juliaConstant := ⟨-(1 / 2), 0⟩
    workQueue := ⟨0, 0, 0⟩ }

/-- The sample solver as `resetGrid` leaves it, with a work queue that is not aborted. -/
def sampleReady : Solver ℚ :=
  { sample with
    m_grid := ⟨3, 2, List.replicate 6 ⟨0, 0⟩⟩
    m_iterationGrid := ⟨3, 2, List.replicate 6 0⟩
    m_magnitudeSquaredGrid := ⟨3, 2, List.replicate 6 0⟩
    escapeIterationCounter := List.replicate 4 0 }

end Solver

/-! ## Locking and cancellation (`solver.cpp`) -/

/-- The calls by which the member functions of `Solver` synchronise with each other: the
construction and the end of scope of a `std::lock_guard` on `calculationMutex`, and the calls on
the work queue that write or read the members in which its aborted state is kept. -/
inductive SyncCall where
  | lock
  | unlock
  | abortIteration
  | setTaskCount (count : Nat)
  | getTask
  | isAborted
  deriving DecidableEq

/-- The member functions of `Solver` that change the view or the grid and end in `resetGrid()`. -/
inductive Mutator where
  | resizeGrid
  | toggleJulia
  | zoomIn
  | zoomOut
  | zoomOnPixel
  | move
  deriving DecidableEq

namespace Sync

/-- `Solver::resetGrid`: `workQueue.abortIteration()` is its first statement; the function takes
no lock of its own and makes no other call on the queue. -/
def resetGrid : List SyncCall := [.abortIteration]

/-- `Solver::resizeGrid`: the `lock_guard` is the first statement, `resetGrid()` the last. -/
def resizeGrid : List SyncCall := [.lock] ++ resetGrid ++ [.unlock]

/-- `Solver::toggleJulia`: the `lock_guard` is the first statement, `resetGrid()` the last. -/
def toggleJulia : List SyncCall := [.lock] ++ resetGrid ++ [.unlock]

/-- `Solver::zoomIn`: the `lock_guard` is the first statement, `resetGrid()` the last. -/
def zoomIn : List SyncCall := [.lock] ++ resetGrid ++ [.unlock]

/-- `Solver::zoomOut`: the `lock_guard` is the first statement, `resetGrid()` the last. -/
def zoomOut : List SyncCall := [.lock] ++ resetGrid ++ [.unlock]

/-- `Solver::zoomOnPixel`: the `lock_guard` is the first statement, `resetGrid()` the last. -/
def zoomOnPixel : List SyncCall := [.lock] ++ resetGrid ++ [.unlock]

/-- `Solver::move`: the `lock_guard` is the first statement, `resetGrid()` the last. -/
def move : List SyncCall := [.lock] ++ resetGrid ++ [.unlock]

/-- The synchronising calls of a mutator, in program order. -/
def mutatorCalls : Mutator → List SyncCall
  | .resizeGrid => resizeGrid
  | .toggleJulia => toggleJulia
  | .zoomIn => zoomIn
  | .zoomOut => zoomOut
  | .zoomOnPixel => zoomOnPixel
  | .move => move

/-- A call of a worker on the work queue in `rowIterator`: `true` for a poll of
`workQueue.isAborted()`, `false` for a call of `workQueue.getTask()`. -/
def workerCall (poll : Bool) : SyncCall := if poll then .isAborted else .getTask

/-- `Solver::iterateGrid` below the iteration maximum, in program order: the `lock_guard`;
`workQueue.setTaskCount(m_height)` (`setTaskLength` writes `taskLength` only and is left out);
the calls of the workers on the queue, those of all workers in the order in which they are
made, listed in `work` (the workers are joined before the next statement); the test
`if (!workQueue.isAborted())` that guards `m_iterationCount++`; and the end of the function,
where the lock is released. -/
def iterateGrid (height : Nat) (work : List Bool) : List SyncCall :=
  [.lock, .setTaskCount height] ++ work.map workerCall ++ [.isAborted, .unlock]

/-- Threads calling member functions of one `Solver`: the thread that holds `calculationMutex`,
if any; the work queue; the calls each thread has still to make; and the values that
`isAborted()` has returned so far, oldest first. -/
structure State where
  owner : Option Nat
  queue : WorkQueue
  calls : List (List SyncCall)
  polled : List Bool
  deriving DecidableEq

/-- The thread number `t` makes its next call. A thread with no call left takes no step, and
neither does a thread whose next call is `lock` while `calculationMutex` is held: it waits. -/
def State.step (st : State) (t : Nat) : Option State :=
  match st.calls[t]? with
  | some (c :: rest) =>
    let st1 : State := { st with calls := st.calls.set t rest }
    match c with
    | .lock => if st.owner = none then some { st1 with owner := some t } else none
    | .unlock => some { st1 with owner := none }
    | .abortIteration => some { st1 with queue := st.queue.abortIteration }
    | .setTaskCount count => some { st1 with queue := st.queue.setTaskCount count }
    | .getTask => some { st1 with queue := st.queue.getTask.2 }
    | .isAborted => some { st1 with polled := st.polled ++ [st.queue.isAborted] }
  | _ => none

/-- The threads make their calls in the order listed in `schedule`. -/
def State.run : List Nat → State → Option State
  | [], st => some st
  | t :: ts, st =>
    match st.step t with
    | none => none
    | some st1 => State.run ts st1

/-- The calculation thread (number `0`) about to call `iterateGrid` and the control thread
(number `1`) about to call the mutator `m`, with the mutex free. -/
def start (queue : WorkQueue) (height : Nat) (work : List Bool) (m : Mutator) : State :=
  { owner := none, queue := queue, calls := [iterateGrid height work, mutatorCalls m],
    polled := [] }

/-- What holds of the two threads of `start` at every moment: every value polled so far is
`false`; the calculation thread is before `iterateGrid`, or holds the mutex before
`setTaskCount`, or holds it after `setTaskCount` with the queue not aborted, or holds it after
its last poll, or is done; the control thread is before its mutator, or holds the mutex before
`abortIteration`, or holds it after `abortIteration`, or is done. -/
def Quiet (height : Nat) (work : List Bool) (m : Mutator) (st : State) : Prop :=
  (∀ b ∈ st.polled, b = false) ∧ ∃ a b, st.calls = [a, b] ∧
    ((a = iterateGrid height work) ∨
     (a = (iterateGrid height work).drop 1 ∧ st.owner = some 0) ∨
     (∃ w : List Bool, a = w.map workerCall ++ [.isAborted, .unlock] ∧ st.owner = some 0 ∧
        st.queue.isAborted = false) ∨
     (a = [.unlock] ∧ st.owner = some 0) ∨
     (a = [])) ∧
    ((b = mutatorCalls m) ∨ (b = [.abortIteration, .unlock] ∧ st.owner = some 1) ∨
     (b = [.unlock] ∧ st.owner = some 1) ∨ (b = []))

end Sync

/-! ## Renderer (`application.cpp`) -/

/-- `static_cast<int>` applied to a `double`: truncation towards zero. -/
def truncToInt {K : Type} [LinearOrderedField K] [FloorRing K] (e : K) : Int :=
  if 0 ≤ e then Int.floor e else Int.ceil e

/-- The `int` indices at which the lambda `smoothEscapeIterationCounterSum` of
`MandelbrotApplication::draw` reads a vector of `size` prefix sums, for the argument `e`. -/
def smoothReadIndices {K : Type} [LinearOrderedField K] [FloorRing K] (size : Nat) (e : K) :
    List Int :=
  let a : Int := max (Int.floor e) 0
  let b : Int := min (Int.ceil e) ((size : Int) - 1)
  if b ≤ a then [truncToInt e] else [a, b]

/-- The lambda `smoothEscapeIterationCounterSum` of `MandelbrotApplication::draw`; a read
outside the vector makes it fail. -/
def smoothEscapeIterationCounterSum {K : Type} [LinearOrderedField K] [FloorRing K]
    (escapeIterationCounterSums : List Int) (escapeIterationCount : K) : Option K :=
  let a : Int := max (Int.floor escapeIterationCount) 0
  let b : Int := min (Int.ceil escapeIterationCount)
    ((escapeIterationCounterSums.length : Int) - 1)
  if b ≤ a then
    (escapeIterationCounterSums[toSizeT (truncToInt escapeIterationCount)]?).map
      fun value => (value : K)
  else
    let i : K := (escapeIterationCount - (a : K)) / ((b - a : Int) : K)
    (escapeIterationCounterSums[toSizeT a]?).bind fun sumA =>
    (escapeIterationCounterSums[toSizeT b]?).bind fun sumB =>
    some ((sumA : K) + i * ((sumB - sumA : Int) : K))

/-! ## Loops: facts -/

/-- Invariant rule for `forLoop`: if every iteration succeeds and re-establishes the invariant
for the next index, the loop succeeds and the invariant holds at the end. -/
theorem forLoop_inv {σ : Type} (body : Nat → σ → Option σ) (Inv : Nat → σ → Prop) (n : Nat) :
    ∀ (i : Nat) (s : σ),
      (∀ j t, i ≤ j → j < i + n → Inv j t → ∃ t', body j t = some t' ∧ Inv (j + 1) t') →
      Inv i s → ∃ s', forLoop body n i s = some s' ∧ Inv (i + n) s' := by
  induction n with
  | zero =>
    intro i s _ hs
    exact ⟨s, rfl, by simpa using hs⟩
  | succ n ih =>
    intro i s hstep hs
    obtain ⟨t, ht, hInv⟩ := hstep i s (le_refl _) (by omega) hs
    obtain ⟨s', hs', hInv'⟩ := ih (i + 1) t
      (fun j u hj1 hj2 hu => hstep j u (by omega) (by omega) hu) hInv
    refine ⟨s', ?_, ?_⟩
    · rw [forLoop, ht]; exact hs'
    · have : i + (n + 1) = i + 1 + n := by omega
      rw [this]; exact hInv'

/-- Invariant rule for a `forLoop` that is known to return: the iterations need only keep the
invariant when they return. -/
theorem forLoop_sound {σ : Type} (body : Nat → σ → Option σ) (Inv : Nat → σ → Prop) (n : Nat) :
    ∀ (i : Nat) (s s' : σ),
      (∀ j t t', i ≤ j → j < i + n → Inv j t → body j t = some t' → Inv (j + 1) t') →
      Inv i s → forLoop body n i s = some s' → Inv (i + n) s' := by
  induction n with
  | zero =>
    intro i s s' _ hs h
    simp only [forLoop, Option.some.injEq] at h
    subst h
    simpa using hs
  | succ n ih =>
    intro i s s' hstep hs h
    rw [forLoop] at h
    cases hb : body i s with
    | none => rw [hb] at h; exact absurd h (by simp)
    | some t =>
      rw [hb] at h
      have hInv := hstep i s t (le_refl _) (by omega) hs hb
      have := ih (i + 1) t s' (fun j u u' hj1 hj2 hu hbu =>
        hstep j u u' (by omega) (by omega) hu hbu) hInv h
      have he : i + (n + 1) = i + 1 + n := by omega
      rw [he]; exact this

/-- A property kept by every successful iteration is kept by a successful `forLoop`. -/
theorem forLoop_preserves {σ : Type} (body : Nat → σ → Option σ) (P : σ → Prop)
    (hbody : ∀ j t t', body j t = some t' → P t → P t') (n : Nat) :
    ∀ (i : Nat) (s s' : σ), forLoop body n i s = some s' → P s → P s' := by
  induction n with
  | zero =>
    intro i s s' h hs
    simp only [forLoop, Option.some.injEq] at h
    exact h ▸ hs
  | succ n ih =>
    intro i s s' h hs
    rw [forLoop] at h
    cases hb : body i s with
    | none => rw [hb] at h; exact absurd h (by simp)
    | some t =>
      rw [hb] at h
      exact ih (i + 1) t s' h (hbody i s t hb hs)

/-- A property kept by every successful iteration is kept by a successful `forLoopBreak`. -/
theorem forLoopBreak_preserves {σ : Type} (stop : σ → Bool) (body : Nat → σ → Option σ)
    (P : σ → Prop) (hbody : ∀ j t t', body j t = some t' → P t → P t') (n : Nat) :
    ∀ (i : Nat) (s s' : σ), forLoopBreak stop body n i s = some s' → P s → P s' := by
  induction n with
  | zero =>
    intro i s s' h hs
    simp only [forLoopBreak, Option.some.injEq] at h
    exact h ▸ hs
  | succ n ih =>
    intro i s s' h hs
    rw [forLoopBreak] at h
    by_cases hstop : stop s = true
    · rw [if_pos hstop] at h
      simp only [Option.some.injEq] at h
      exact h ▸ hs
    · rw [if_neg hstop] at h
      cases hb : body i s with
      | none => rw [hb] at h; exact absurd h (by simp)
      | some t =>
        rw [hb] at h
        exact ih (i + 1) t s' h (hbody i s t hb hs)

/-- While `stop` stays false, `forLoopBreak` obeys the invariant rule of `forLoop`. -/
theorem forLoopBreak_inv {σ : Type} (stop : σ → Bool) (body : Nat → σ → Option σ)
    (Inv : Nat → σ → Prop) (hstop : ∀ j t, Inv j t → stop t = false) (n : Nat) :
    ∀ (i : Nat) (s : σ),
      (∀ j t, i ≤ j → j < i + n → Inv j t → ∃ t', body j t = some t' ∧ Inv (j + 1) t') →
      Inv i s → ∃ s', forLoopBreak stop body n i s = some s' ∧ Inv (i + n) s' := by
  induction n with
  | zero =>
    intro i s _ hs
    exact ⟨s, rfl, by simpa using hs⟩
  | succ n ih =>
    intro i s hstep hs
    obtain ⟨t, ht, hInv⟩ := hstep i s (le_refl _) (by omega) hs
    obtain ⟨s', hs', hInv'⟩ := ih (i + 1) t
      (fun j u hj1 hj2 hu => hstep j u (by omega) (by omega) hu) hInv
    refine ⟨s', ?_, ?_⟩
    · rw [forLoopBreak, hstop i s hs, ht]; exact hs'
    · have : i + (n + 1) = i + 1 + n := by omega
      rw [this]; exact hInv'

/-- Invariant rule for a row loop around a column loop, with the invariant indexed by the
number `y * w + x` of cells already visited. -/
theorem nestedLoop_inv {σ : Type} (body : Nat → Nat → σ → Option σ) (J : Nat → σ → Prop)
    (w h : Nat)
    (hstep : ∀ x y t, x < w → y < h → J (y * w + x) t →
      ∃ t', body x y t = some t' ∧ J (y * w + x + 1) t')
    (s : σ) (hs : J 0 s) :
    ∃ s', forLoop (fun y s1 => forLoop (fun x s2 => body x y s2) w 0 s1) h 0 s = some s'
      ∧ J (h * w) s' := by
  have houter := forLoop_inv (fun y s1 => forLoop (fun x s2 => body x y s2) w 0 s1)
    (fun y t => J (y * w) t) h 0 s
    (by
      intro y t _ hy ht
      have hinner := forLoop_inv (fun x s2 => body x y s2) (fun x u => J (y * w + x) u) w 0 t
        (by
          intro x u _ hx hu
          exact hstep x y u (by omega) (by omega) hu)
        (by simpa using ht)
      obtain ⟨t', ht', hJ⟩ := hinner
      refine ⟨t', ht', ?_⟩
      have : (y + 1) * w = y * w + (0 + w) := by rw [Nat.succ_mul]; omega
      show J ((y + 1) * w) t'
      rw [this]; exact hJ)
    (by simpa using hs)
  obtain ⟨s', hs', hJ⟩ := houter
  exact ⟨s', hs', by simpa using hJ⟩

/-! ## Grid container: facts -/

namespace Grid2d

variable {T : Type}

theorem flat_lt {w h x y : Nat} (hx : x < w) (hy : y < h) : y * w + x < w * h := by
  have h1 : (y + 1) * w ≤ h * w := Nat.mul_le_mul_right w hy
  rw [Nat.succ_mul] at h1
  rw [Nat.mul_comm w h]
  omega

/-- Different cells of a row-major grid have different offsets. -/
theorem flat_inj {w x y x' y' : Nat} (hx : x < w) (hx' : x' < w)
    (h : y * w + x = y' * w + x') : x = x' ∧ y = y' := by
  have h1 : (y * w + x) % w = x := by
    rw [Nat.add_comm, Nat.add_mul_mod_self_right, Nat.mod_eq_of_lt hx]
  have h2 : (y' * w + x') % w = x' := by
    rw [Nat.add_comm, Nat.add_mul_mod_self_right, Nat.mod_eq_of_lt hx']
  have hxx : x = x' := by rw [← h1, ← h2, h]
  subst hxx
  have hw : 0 < w := by omega
  have h3 : y * w = y' * w := by omega
  exact ⟨rfl, Nat.eq_of_mul_eq_mul_right hw h3⟩

theorem flat_mod {w x y : Nat} (hx : x < w) : (y * w + x) % w = x := by
  rw [Nat.add_comm, Nat.add_mul_mod_self_right, Nat.mod_eq_of_lt hx]

theorem flat_div {w x y : Nat} (hx : x < w) : (y * w + x) / w = y := by
  have hw : 0 < w := by omega
  rw [Nat.add_comm, Nat.add_mul_div_right _ _ hw, Nat.div_eq_of_lt hx, Nat.zero_add]

theorem Shaped.offset_eq {g : Grid2d T} {w h x y : Nat} (hg : g.Shaped w h)
    (hx : x < w) (hy : y < h) : g.offset x y = y * w + x := by
  obtain ⟨hw, _, _, hlt⟩ := hg
  unfold offset
  rw [hw]
  exact Nat.mod_eq_of_lt (lt_trans (flat_lt hx hy) hlt)

theorem Shaped.get_eq {g : Grid2d T} {w h x y : Nat} (hg : g.Shaped w h)
    (hx : x < w) (hy : y < h) : g.get x y = g.data[y * w + x]? := by
  unfold get
  rw [hg.offset_eq hx hy, if_pos ⟨by rw [hg.1]; exact hx, by rw [hg.2.1]; exact hy⟩]

theorem Shaped.set_eq {g : Grid2d T} {w h x y : Nat} (hg : g.Shaped w h)
    (hx : x < w) (hy : y < h) (v : T) :
    g.set x y v = some { g with data := g.data.set (y * w + x) v } := by
  unfold set
  rw [hg.offset_eq hx hy,
    if_pos ⟨by rw [hg.1]; exact hx, by rw [hg.2.1]; exact hy,
      by rw [hg.2.2.1]; exact flat_lt hx hy⟩]

theorem Shaped.set_data {g : Grid2d T} {w h : Nat} (hg : g.Shaped w h) (i : Nat) (v : T) :
    Shaped { g with data := g.data.set i v } w h :=
  ⟨hg.1, hg.2.1, by simp [hg.2.2.1], hg.2.2.2⟩

theorem length_vectorResize [Zero T] (v : List T) (n : Nat) :
    (vectorResize v n).length = n := by
  unfold vectorResize
  simp only [List.length_append, List.length_take, List.length_replicate]
  omega

theorem resize_shaped [Zero T] (g : Grid2d T) {w h : Nat} (hwh : w * h < SIZE_MOD) :
    (g.resize w h).Shaped w h := by
  refine ⟨rfl, rfl, ?_, hwh⟩
  simp only [resize, length_vectorResize]
  exact Nat.mod_eq_of_lt hwh

/-- Filling a whole grid: `assign` with the grid's own dimensions succeeds and leaves `value`
in every element of the backing array. -/
theorem Shaped.assign_full {g : Grid2d T} {w h : Nat} (hg : g.Shaped w h)
    (hw : w < UINT_MOD) (hh : h < UINT_MOD) (value : T) :
    g.assign w h value = some ⟨w, h, List.replicate (w * h) value⟩ := by
  unfold assign
  rw [if_pos ⟨by rw [hg.1], by rw [hg.2.1]⟩, if_pos ⟨hh, Or.inr hw⟩]
  obtain ⟨g', hg', hshape, hdata⟩ := nestedLoop_inv (fun x y (g2 : Grid2d T) => g2.set x y value)
    (fun n g1 => g1.Shaped w h ∧ ∀ i, i < n → g1.data[i]? = some value) w h
    (by
      intro x y t hx hy ht
      refine ⟨_, ht.1.set_eq hx hy value, ht.1.set_data _ _, ?_⟩
      intro i hi
      simp only [List.getElem?_set]
      by_cases hin : y * w + x = i
      · rw [if_pos hin, if_pos (by rw [ht.1.2.2.1]; exact flat_lt hx hy)]
      · rw [if_neg hin]
        exact ht.2 i (by omega))
    g ⟨hg, by intro i hi; omega⟩
  rw [hg']
  congr 1
  obtain ⟨h1, h2, h3, _⟩ := hshape
  have hd : g'.data = List.replicate (w * h) value := by
    apply List.ext_getElem?
    intro i
    rw [List.getElem?_replicate]
    by_cases hi : i < w * h
    · rw [if_pos hi]; exact hdata i (by rw [Nat.mul_comm]; exact hi)
    · rw [if_neg hi]; exact List.getElem?_eq_none (by omega)
  cases g'
  simp only at h1 h2 hd
  subst h1 h2 hd
  rfl

theorem Shaped.set_some {g g' : Grid2d T} {w h x y : Nat} {v : T} (hg : g.Shaped w h)
    (hset : g.set x y v = some g') : g'.Shaped w h := by
  unfold set at hset
  split at hset
  · simp only [Option.some.injEq] at hset
    subst hset
    exact hg.set_data _ _
  · exact absurd hset (by simp)

/-- Whenever `assign` returns, the grid keeps its dimensions and the size of its backing
array. -/
theorem Shaped.assign_some {g g' : Grid2d T} {W H w h : Nat} {v : T} (hg : g.Shaped W H)
    (hrun : g.assign w h v = some g') : g'.Shaped W H := by
  unfold assign at hrun
  split at hrun
  · split at hrun
    · exact forLoop_preserves _ (fun t => t.Shaped W H)
        (fun y t t' ht hP => forLoop_preserves _ (fun u => u.Shaped W H)
          (fun x u u' hu hQ => hQ.set_some hu) _ _ _ _ ht hP) _ _ _ _ hrun hg
    · exact absurd hrun (by simp)
  · exact absurd hrun (by simp)

/-- On a grid with one element per cell, reading succeeds exactly inside the dimensions. -/
theorem Shaped.get_isSome_iff {g : Grid2d T} {w h : Nat} (hg : g.Shaped w h) (x y : Nat) :
    (g.get x y).isSome = true ↔ x < w ∧ y < h := by
  constructor
  · intro hsome
    unfold get at hsome
    split at hsome
    · rename_i hxy
      rw [hg.1, hg.2.1] at hxy
      exact hxy
    · simp at hsome
  · intro hxy
    rw [hg.get_eq hxy.1 hxy.2,
      List.getElem?_eq_getElem (by rw [hg.2.2.1]; exact flat_lt hxy.1 hxy.2)]
    rfl

/-- On a grid with one element per cell, writing succeeds exactly inside the dimensions. -/
theorem Shaped.set_isSome_iff {g : Grid2d T} {w h : Nat} (hg : g.Shaped w h) (x y : Nat)
    (v : T) : (g.set x y v).isSome = true ↔ x < w ∧ y < h := by
  constructor
  · intro hsome
    unfold set at hsome
    split at hsome
    · rename_i hxy
      rw [hg.1, hg.2.1] at hxy
      exact ⟨hxy.1, hxy.2.1⟩
    · simp at hsome
  · intro hxy
    rw [hg.set_eq hxy.1 hxy.2]
    rfl

/-- Filling the top-left `w × h` sub-region of a grid with one element per cell. -/
theorem Shaped.assign_spec {g : Grid2d T} {W H : Nat} (hg : g.Shaped W H) (w h : Nat) (v : T)
    (hw : w ≤ W) (hh : h ≤ H) (hcount : h < UINT_MOD ∧ (h = 0 ∨ w < UINT_MOD)) :
    ∃ g', g.assign w h v = some g' ∧ g'.Shaped W H ∧
      ∀ x y, x < W → y < H →
        g'.get x y = if x < w ∧ y < h then some v else g.get x y := by
  obtain ⟨g', hrun, hshape, hdata⟩ := nestedLoop_inv (fun x y (g2 : Grid2d T) => g2.set x y v)
    (fun n g1 => g1.Shaped W H ∧ ∀ x y, x < W → y < H →
      g1.data[y * W + x]? = if x < w ∧ y * w + x < n then some v else g.data[y * W + x]?) w h
    (by
      intro x y t hx hy ht
      have hxW : x < W := lt_of_lt_of_le hx hw
      have hyH : y < H := lt_of_lt_of_le hy hh
      refine ⟨_, ht.1.set_eq hxW hyH v, ht.1.set_data _ _, ?_⟩
      intro x' y' hx' hy'
      simp only [List.getElem?_set]
      by_cases hin : y * W + x = y' * W + x'
      · obtain ⟨hxx, hyy⟩ := flat_inj hxW hx' hin
        subst hxx hyy
        rw [if_pos rfl, if_pos (by rw [ht.1.2.2.1]; exact flat_lt hxW hyH),
          if_pos ⟨hx, Nat.lt_succ_self _⟩]
      · rw [if_neg hin, ht.2 x' y' hx' hy']
        by_cases hxw : x' < w
        · have hne : y' * w + x' ≠ y * w + x := by
            intro heq
            obtain ⟨hxx, hyy⟩ := flat_inj hxw hx heq
            subst hxx hyy
            exact hin rfl
          have hiff : (x' < w ∧ y' * w + x' < y * w + x + 1) ↔
              (x' < w ∧ y' * w + x' < y * w + x) := by
            constructor
            · intro hc; exact ⟨hc.1, by omega⟩
            · intro hc; exact ⟨hc.1, by omega⟩
          simp only [hiff]
        · rw [if_neg (fun hc => hxw hc.1), if_neg (fun hc => hxw hc.1)])
    g ⟨hg, by
      intro x y _ _
      rw [if_neg (fun hc => absurd hc.2 (Nat.not_lt_zero _))]⟩
  refine ⟨g', ?_, hshape, ?_⟩
  · unfold assign
    rw [if_pos ⟨by rw [hg.1]; exact hw, by rw [hg.2.1]; exact hh⟩, if_pos hcount]
    exact hrun
  · intro x y hx hy
    rw [hshape.get_eq hx hy, hg.get_eq hx hy, hdata x y hx hy]
    by_cases hxw : x < w
    · have hiff : (x < w ∧ y * w + x < h * w) ↔ (x < w ∧ y < h) := by
        constructor
        · intro hc
          refine ⟨hc.1, ?_⟩
          by_contra hge
          have h1 : h * w ≤ y * w := Nat.mul_le_mul_right w (not_lt.mp hge)
          omega
        · intro hc
          refine ⟨hc.1, ?_⟩
          have := flat_lt hc.1 hc.2
          rw [Nat.mul_comm w h] at this
          exact this
      simp only [hiff]
    · rw [if_neg (fun hc => hxw hc.1), if_neg (fun hc => hxw hc.1)]

theorem WellSized.shaped {g : Grid2d T} (hg : g.WellSized) : g.Shaped g.m_width g.m_height :=
  ⟨rfl, rfl, hg.1, hg.2⟩

theorem Shaped.wellSized {g : Grid2d T} {w h : Nat} (hg : g.Shaped w h) : g.WellSized := by
  obtain ⟨h1, h2, h3, h4⟩ := hg
  unfold WellSized
  rw [h1, h2]
  exact ⟨h3, h4⟩

end Grid2d

/-! ## Machine integers: facts -/

theorem toSizeT_of_nonneg {i : Int} (h0 : 0 ≤ i) (h1 : i < 2 ^ 31) : toSizeT i = i.toNat := by
  unfold toSizeT
  rw [Int.emod_eq_of_lt h0 (by unfold SIZE_MOD; norm_num; omega)]

theorem toSizeT_natCast {n : Nat} (h : n < 2 ^ 31) : toSizeT (n : Int) = n := by
  rw [toSizeT_of_nonneg (by omega) (by omega)]
  simp

theorem toNat_lt_of_lt {i : Int} (h1 : i < 2 ^ 31) : i.toNat < 2 ^ 31 := by
  omega

theorem cells_lt_SIZE_MOD {w h : Nat} (hw : w < 2 ^ 31) (hh : h < 2 ^ 31) : w * h < SIZE_MOD := by
  have h1 : w * h ≤ 2 ^ 31 * 2 ^ 31 := Nat.mul_le_mul (le_of_lt hw) (le_of_lt hh)
  unfold SIZE_MOD
  norm_num at h1 ⊢
  omega

theorem toUInt32_of_nonneg {i : Int} (h0 : 0 ≤ i) (h1 : i < 2 ^ 31) : toUInt32 i = i.toNat := by
  unfold toUInt32
  rw [Int.emod_eq_of_lt h0 (by unfold UINT_MOD; norm_num; omega)]

/-! ## Work queue: facts -/

namespace WorkQueue

theorem toInt32_none : toInt32 NONE_TASK = -1 := by
  decide

theorem toInt32_of_lt {u : Nat} (h : u < 2 ^ 31) : toInt32 u = (u : Int) := by
  have h1 : u % UINT_MOD = u := Nat.mod_eq_of_lt (by unfold UINT_MOD; omega)
  unfold toInt32
  rw [h1, if_pos h]

theorem toInt32_of_ge {u : Nat} (h : 2 ^ 31 ≤ u) (h2 : u < 2 ^ 32) :
    toInt32 u = (u : Int) - 2 ^ 32 := by
  have h1 : u % UINT_MOD = u := Nat.mod_eq_of_lt (by unfold UINT_MOD; omega)
  unfold toInt32
  rw [h1, if_neg (by omega)]
  simp [UINT_MOD]

/-- After `k` calls the cursor has advanced by `k`, but never past `taskCount`. -/
theorem afterTasks_eq (q : WorkQueue) (hc : q.taskCount < 2 ^ 32) (hn : q.nextTask ≤ q.taskCount)
    (k : Nat) :
    afterTasks q k = { q with nextTask := min (q.nextTask + k) q.taskCount } := by
  induction k with
  | zero =>
    simp [afterTasks, Nat.min_eq_left hn]
  | succ k ih =>
    rw [afterTasks, ih]
    unfold getTask
    by_cases hlt : q.nextTask + k < q.taskCount
    · have h1 : min (q.nextTask + k) q.taskCount = q.nextTask + k := Nat.min_eq_left (by omega)
      have h2 : min (q.nextTask + (k + 1)) q.taskCount = q.nextTask + k + 1 := by
        rw [Nat.min_eq_left (by omega)]; omega
      have h3 : (q.nextTask + k + 1) % UINT_MOD = q.nextTask + k + 1 :=
        Nat.mod_eq_of_lt (by unfold UINT_MOD; omega)
      simp only [h1, h2, ge_iff_le]
      rw [if_neg (by omega)]
      simp [h3]
    · have h1 : min (q.nextTask + k) q.taskCount = q.taskCount := Nat.min_eq_right (by omega)
      have h2 : min (q.nextTask + (k + 1)) q.taskCount = q.taskCount :=
        Nat.min_eq_right (by omega)
      simp only [h1, h2, ge_iff_le]
      rw [if_pos (le_refl _)]

/-- What call number `k` returns on a queue whose cursor is `0`, for every `unsigned int` task
count. -/
theorem nthTask_of_fresh (q : WorkQueue) (k : Nat) (hnext : q.nextTask = 0)
    (hn : q.taskCount < 2 ^ 32) :
    nthTask q k = (if k < q.taskCount then toInt32 k else -1, q.taskLength) := by
  unfold nthTask
  rw [afterTasks_eq _ hn (by omega)]
  unfold getTask
  simp only [hnext, Nat.zero_add, ge_iff_le]
  by_cases hk : k < q.taskCount
  · rw [Nat.min_eq_left (by omega), if_neg (by omega), if_pos hk]
  · rw [Nat.min_eq_right (by omega), if_pos (le_refl _), if_neg hk, toInt32_none]

/-- What call number `k` returns after `setTaskCount n` and `setTaskLength len`, for every
`unsigned int` task count `n`. -/
theorem nthTask_setTaskCount (q : WorkQueue) (n len k : Nat) (hn : n < 2 ^ 32) :
    nthTask ((q.setTaskCount n).setTaskLength len) k
      = (if k < n then toInt32 k else -1, len) :=
  nthTask_of_fresh _ k rfl hn


/-- With a row left (and the cursor in `int` range) `getTask` hands out the cursor and
advances it. -/
theorem getTask_of_lt {q : WorkQueue} (h : q.nextTask < q.taskCount)
    (h31 : q.nextTask < 2 ^ 31) :
    q.getTask = (((q.nextTask : Int), q.taskLength), { q with nextTask := q.nextTask + 1 }) := by
  unfold getTask
  rw [if_neg (by omega), toInt32_of_lt h31,
    Nat.mod_eq_of_lt (show q.nextTask + 1 < UINT_MOD by unfold UINT_MOD; omega)]

/-- With no row left `getTask` hands out the sentinel and leaves the queue alone. -/
theorem getTask_of_ge {q : WorkQueue} (h : q.taskCount ≤ q.nextTask) :
    q.getTask = ((-1, q.taskLength), q) := by
  unfold getTask
  rw [if_pos h, toInt32_none]

/-- In the aborted state `getTask` hands out the sentinel and leaves the queue alone. -/
theorem getTask_of_aborted {q : WorkQueue} (h : q.isAborted = true) :
    q.getTask = ((-1, q.taskLength), q) := by
  unfold isAborted at h
  exact getTask_of_ge (le_of_lt (of_decide_eq_true h))

/-- Successive calls of `getTask` leave an aborted queue as it is. -/
theorem afterTasks_of_aborted {q : WorkQueue} (h : q.isAborted = true) (k : Nat) :
    afterTasks q k = q := by
  induction k with
  | zero => rfl
  | succ k ih => rw [afterTasks, ih, getTask_of_aborted h]

/-- A call of `getTask` does not abort the queue. -/
theorem getTask_not_aborted {q : WorkQueue} (h : q.isAborted = false) :
    q.getTask.2.isAborted = false := by
  unfold isAborted at h ⊢
  have h1 : ¬ q.taskCount < q.nextTask := of_decide_eq_false h
  unfold getTask
  split_ifs with hge
  · exact decide_eq_false h1
  · apply decide_eq_false
    show ¬ q.taskCount < (q.nextTask + 1) % UINT_MOD
    have := Nat.mod_le (q.nextTask + 1) UINT_MOD
    omega

/-- A queue whose cursor has not passed the task count is not aborted. -/
theorem isAborted_of_le {q : WorkQueue} (h : q.nextTask ≤ q.taskCount) :
    q.isAborted = false := by
  unfold isAborted
  exact decide_eq_false (by omega)

end WorkQueue

/-! ## Solver: facts about `resetGrid` -/

namespace Solver

variable {K : Type} [LinearOrderedField K]

/-- The Julia seeding loop fills a grid of the solver's dimensions with the mapped plane
coordinates of its cells. -/
theorem seedJulia_spec (s : Solver K) (g : Grid2d (Complex K))
    (hg : g.Shaped s.m_width.toNat s.m_height.toNat) :
    ∃ grid, seedJulia s g = some grid ∧ grid.Shaped s.m_width.toNat s.m_height.toNat ∧
      ∀ x y, x < s.m_width.toNat → y < s.m_height.toNat →
        grid.data[y * s.m_width.toNat + x]? = some (mapToComplex s ((x : Int) : K) ((y : Int) : K)) := by
  obtain ⟨grid, hrun, hshape, hdata⟩ := nestedLoop_inv
    (fun x y (g2 : Grid2d (Complex K)) =>
      g2.set x y (mapToComplex s ((x : Int) : K) ((y : Int) : K)))
    (fun n g1 => g1.Shaped s.m_width.toNat s.m_height.toNat ∧
      ∀ x y, x < s.m_width.toNat → y * s.m_width.toNat + x < n →
        g1.data[y * s.m_width.toNat + x]? = some (mapToComplex s ((x : Int) : K) ((y : Int) : K)))
    s.m_width.toNat s.m_height.toNat
    (by
      intro x y t hx hy ht
      refine ⟨_, ht.1.set_eq hx hy _, ht.1.set_data _ _, ?_⟩
      intro x' y' hx' hlt
      simp only [List.getElem?_set]
      by_cases hin : y * s.m_width.toNat + x = y' * s.m_width.toNat + x'
      · obtain ⟨hxx, hyy⟩ := Grid2d.flat_inj hx hx' hin
        subst hxx hyy
        rw [if_pos rfl, if_pos (by rw [ht.1.2.2.1]; exact Grid2d.flat_lt hx hy)]
      · rw [if_neg hin]
        exact ht.2 x' y' hx' (by omega))
    g ⟨hg, by intro x y _ h; omega⟩
  refine ⟨grid, hrun, hshape, ?_⟩
  intro x y hx hy
  exact hdata x y hx (by
    have := Grid2d.flat_lt hx hy
    rw [Nat.mul_comm s.m_width.toNat s.m_height.toNat] at this
    exact this)

/-- What `resetGrid` returns when the solver's dimensions are non-negative `int` values. -/
theorem resetGrid_spec (s : Solver K) (hw0 : 0 ≤ s.m_width) (hw1 : s.m_width < 2 ^ 31)
    (hh0 : 0 ≤ s.m_height) (hh1 : s.m_height < 2 ^ 31) :
    ∃ grid : Grid2d (Complex K),
      grid.Shaped s.m_width.toNat s.m_height.toNat ∧
      (s.m_currentFractal = true →
        grid.data = List.replicate (s.m_width.toNat * s.m_height.toNat) ⟨0, 0⟩) ∧
      (s.m_currentFractal = false → ∀ x y, x < s.m_width.toNat → y < s.m_height.toNat →
        grid.data[y * s.m_width.toNat + x]?
          = some (mapToComplex s ((x : Int) : K) ((y : Int) : K))) ∧
      resetGrid s = some { s with
        workQueue := s.workQueue.abortIteration
        m_grid := grid
        m_iterationGrid :=
          ⟨s.m_width.toNat, s.m_height.toNat,
            List.replicate (s.m_width.toNat * s.m_height.toNat) 0⟩
        m_magnitudeSquaredGrid :=
          ⟨s.m_width.toNat, s.m_height.toNat,
            List.replicate (s.m_width.toNat * s.m_height.toNat) 0⟩
        m_escapeCount := 0
        escapeIterationCounter := List.replicate (toSizeT s.m_iterationMaximum) 0
        m_iterationCount := 0 } := by
  have hW : s.m_width.toNat < 2 ^ 31 := toNat_lt_of_lt hw1
  have hH : s.m_height.toNat < 2 ^ 31 := toNat_lt_of_lt hh1
  have hWu : s.m_width.toNat < UINT_MOD := by unfold UINT_MOD; omega
  have hHu : s.m_height.toNat < UINT_MOD := by unfold UINT_MOD; omega
  have hcells := cells_lt_SIZE_MOD hW hH
  unfold resetGrid
  simp only [toSizeT_of_nonneg hw0 hw1, toSizeT_of_nonneg hh0 hh1]
  rw [(Grid2d.resize_shaped s.m_iterationGrid hcells).assign_full hWu hHu 0,
    (Grid2d.resize_shaped s.m_magnitudeSquaredGrid hcells).assign_full hWu hHu 0]
  cases hf : s.m_currentFractal with
  | true =>
    refine ⟨⟨s.m_width.toNat, s.m_height.toNat,
      List.replicate (s.m_width.toNat * s.m_height.toNat) ⟨0, 0⟩⟩,
      ⟨rfl, rfl, by simp, hcells⟩, fun _ => rfl, fun h => by simp at h, ?_⟩
    rw [if_pos rfl, (Grid2d.resize_shaped s.m_grid hcells).assign_full hWu hHu ⟨0, 0⟩]
    rfl
  | false =>
    obtain ⟨grid, hrun, hshape, hdata⟩ :=
      seedJulia_spec s (s.m_grid.resize s.m_width.toNat s.m_height.toNat)
        (Grid2d.resize_shaped s.m_grid hcells)
    refine ⟨grid, hshape, fun h => by simp at h, fun _ => hdata, ?_⟩
    rw [if_neg (by simp), hrun]
    rfl

/-- What `resetGrid` leaves alone and what it zeroes, whenever it returns. -/
theorem resetGrid_frame {s s' : Solver K} (h : resetGrid s = some s') :
    s'.m_width = s.m_width ∧ s'.m_height = s.m_height ∧ s'.aspectRatio = s.aspectRatio ∧
    s'.m_viewCenter = s.m_viewCenter ∧ s'.m_viewScale = s.m_viewScale ∧
    s'.m_currentFractal = s.m_currentFractal ∧ s'.m_juliaConstant = s.m_juliaConstant ∧
    s'.m_escapeRadius = s.m_escapeRadius ∧ s'.m_iterationMaximum = s.m_iterationMaximum ∧
    s'.m_iterationCount = 0 ∧ s'.m_escapeCount = 0 ∧
    s'.escapeIterationCounter = List.replicate (toSizeT s.m_iterationMaximum) 0 ∧
    s'.workQueue = s.workQueue.abortIteration := by
  unfold resetGrid at h
  simp only [Option.bind_eq_some] at h
  obtain ⟨_, _, _, _, _, _, h⟩ := h
  simp only [Option.some.injEq] at h
  subst h
  exact ⟨rfl, rfl, rfl, rfl, rfl, rfl, rfl, rfl, rfl, rfl, rfl, rfl, rfl⟩

theorem resetGrid_isSome (s : Solver K) (hw0 : 0 ≤ s.m_width) (hw1 : s.m_width < 2 ^ 31)
    (hh0 : 0 ≤ s.m_height) (hh1 : s.m_height < 2 ^ 31) : ∃ s', resetGrid s = some s' := by
  obtain ⟨_, _, _, _, h⟩ := resetGrid_spec s hw0 hw1 hh0 hh1
  exact ⟨_, h⟩

/-- The coordinate map reads the view state only. -/
theorem mapToComplex_congr {s t : Solver K} (h1 : t.m_width = s.m_width)
    (h2 : t.m_height = s.m_height) (h3 : t.aspectRatio = s.aspectRatio)
    (h4 : t.m_viewCenter = s.m_viewCenter) (h5 : t.m_viewScale = s.m_viewScale)
    (h6 : t.m_escapeRadius = s.m_escapeRadius) (x y : K) :
    mapToComplex t x y = mapToComplex s x y := by
  unfold mapToComplex
  rw [h1, h2, h3, h4, h5, h6]

/-- Every command other than `toggleJulia` keeps the mode and the Julia constant. -/
theorem Command.run_frame {c : Command K} {s s' : Solver K} (h : c.run s = some s') :
    s'.m_currentFractal = s.m_currentFractal ∧ s'.m_juliaConstant = s.m_juliaConstant := by
  cases c with
  | move real imag =>
    obtain ⟨-, -, -, -, -, h6, h7, -⟩ := resetGrid_frame (show resetGrid _ = some s' from h)
    exact ⟨h6, h7⟩
  | zoomIn factor =>
    obtain ⟨-, -, -, -, -, h6, h7, -⟩ := resetGrid_frame (show resetGrid _ = some s' from h)
    exact ⟨h6, h7⟩
  | zoomOut factor =>
    obtain ⟨-, -, -, -, -, h6, h7, -⟩ := resetGrid_frame (show resetGrid _ = some s' from h)
    exact ⟨h6, h7⟩
  | zoomOnPixel x y factor =>
    obtain ⟨-, -, -, -, -, h6, h7, -⟩ := resetGrid_frame (show resetGrid _ = some s' from h)
    exact ⟨h6, h7⟩
  | resizeGrid width height =>
    obtain ⟨-, -, -, -, -, h6, h7, -⟩ := resetGrid_frame (show resetGrid _ = some s' from h)
    exact ⟨h6, h7⟩

/-- A command with admissible dimensions, run on a solver with admissible dimensions, returns
a solver with admissible dimensions. -/
theorem Command.run_isSome (c : Command K) (s : Solver K) (hc : c.DimsOk)
    (hw0 : 0 ≤ s.m_width) (hw1 : s.m_width < 2 ^ 31)
    (hh0 : 0 ≤ s.m_height) (hh1 : s.m_height < 2 ^ 31) :
    ∃ s', c.run s = some s' ∧ 0 ≤ s'.m_width ∧ s'.m_width < 2 ^ 31 ∧
      0 ≤ s'.m_height ∧ s'.m_height < 2 ^ 31 := by
  cases c with
  | move real imag =>
    obtain ⟨s', h⟩ := resetGrid_isSome ({ s with
      m_viewCenter := s.m_viewCenter.addAssign ⟨real / s.m_viewScale, imag / s.m_viewScale⟩ })
      hw0 hw1 hh0 hh1
    obtain ⟨h1, h2, -⟩ := resetGrid_frame h
    exact ⟨s', h, by rw [h1]; exact hw0, by rw [h1]; exact hw1, by rw [h2]; exact hh0,
      by rw [h2]; exact hh1⟩
  | zoomIn factor =>
    obtain ⟨s', h⟩ := resetGrid_isSome ({ s with m_viewScale := s.m_viewScale * factor })
      hw0 hw1 hh0 hh1
    obtain ⟨h1, h2, -⟩ := resetGrid_frame h
    exact ⟨s', h, by rw [h1]; exact hw0, by rw [h1]; exact hw1, by rw [h2]; exact hh0,
      by rw [h2]; exact hh1⟩
  | zoomOut factor =>
    obtain ⟨s', h⟩ := resetGrid_isSome ({ s with m_viewScale := s.m_viewScale / factor })
      hw0 hw1 hh0 hh1
    obtain ⟨h1, h2, -⟩ := resetGrid_frame h
    exact ⟨s', h, by rw [h1]; exact hw0, by rw [h1]; exact hw1, by rw [h2]; exact hh0,
      by rw [h2]; exact hh1⟩
  | zoomOnPixel x y factor =>
    obtain ⟨s', h⟩ := resetGrid_isSome ({ s with
      m_viewCenter := mapToComplex s (x : K) (y : K)
      m_viewScale := s.m_viewScale * factor }) hw0 hw1 hh0 hh1
    obtain ⟨h1, h2, -⟩ := resetGrid_frame h
    exact ⟨s', h, by rw [h1]; exact hw0, by rw [h1]; exact hw1, by rw [h2]; exact hh0,
      by rw [h2]; exact hh1⟩
  | resizeGrid width height =>
    obtain ⟨hc1, hc2, hc3, hc4⟩ := hc
    obtain ⟨s', h⟩ := resetGrid_isSome ({ s with
      m_width := width
      m_height := height
      aspectRatio := (width : K) / (height : K) }) hc1 hc2 hc3 hc4
    obtain ⟨h1, h2, -⟩ := resetGrid_frame h
    exact ⟨s', h, by rw [h1]; exact hc1, by rw [h1]; exact hc2, by rw [h2]; exact hc3,
      by rw [h2]; exact hc4⟩

theorem runCommands_frame (cmds : List (Command K)) :
    ∀ {s s' : Solver K}, runCommands cmds s = some s' →
      s'.m_currentFractal = s.m_currentFractal ∧ s'.m_juliaConstant = s.m_juliaConstant := by
  induction cmds with
  | nil =>
    intro s s' h
    simp only [runCommands, Option.some.injEq] at h
    subst h
    exact ⟨rfl, rfl⟩
  | cons c cs ih =>
    intro s s' h
    simp only [runCommands, Option.bind_eq_some] at h
    obtain ⟨t, ht, hrest⟩ := h
    obtain ⟨h1, h2⟩ := Command.run_frame ht
    obtain ⟨h3, h4⟩ := ih hrest
    exact ⟨h3.trans h1, h4.trans h2⟩

theorem runCommands_isSome (cmds : List (Command K)) :
    ∀ (s : Solver K), (∀ c ∈ cmds, c.DimsOk) →
      0 ≤ s.m_width → s.m_width < 2 ^ 31 → 0 ≤ s.m_height → s.m_height < 2 ^ 31 →
      ∃ s', runCommands cmds s = some s' ∧ 0 ≤ s'.m_width ∧ s'.m_width < 2 ^ 31 ∧
        0 ≤ s'.m_height ∧ s'.m_height < 2 ^ 31 := by
  induction cmds with
  | nil =>
    intro s _ hw0 hw1 hh0 hh1
    exact ⟨s, rfl, hw0, hw1, hh0, hh1⟩
  | cons c cs ih =>
    intro s hc hw0 hw1 hh0 hh1
    obtain ⟨t, ht, a1, a2, a3, a4⟩ :=
      Command.run_isSome c s (hc c (List.mem_cons_self _ _)) hw0 hw1 hh0 hh1
    obtain ⟨s', hs', b⟩ := ih t (fun d hd => hc d (List.mem_cons_of_mem _ hd)) a1 a2 a3 a4
    refine ⟨s', ?_, b⟩
    simp only [runCommands, ht, Option.some_bind]
    exact hs'

/-- Leaving Mandelbrot mode: whenever `toggleJulia` returns, the view centre has become the
Julia constant and the view itself is untouched. -/
theorem toggleJulia_of_mandelbrot {s s' : Solver K} (hmode : s.m_currentFractal = true)
    (h : toggleJulia s = some s') :
    s'.m_currentFractal = false ∧ s'.m_juliaConstant = s.m_viewCenter ∧
    s'.m_viewCenter = s.m_viewCenter ∧ s'.m_viewScale = s.m_viewScale ∧
    s'.m_width = s.m_width ∧ s'.m_height = s.m_height := by
  unfold toggleJulia at h
  simp only [hmode, if_true] at h
  obtain ⟨f1, f2, -, f4, f5, f6, f7, -⟩ := resetGrid_frame h
  exact ⟨by rw [f6]; rfl, f7, f4, f5, f1, f2⟩

/-- Leaving Julia mode: whenever `toggleJulia` returns, the Julia constant has become the view
centre. -/
theorem toggleJulia_of_julia {s s' : Solver K} (hmode : s.m_currentFractal = false)
    (h : toggleJulia s = some s') :
    s'.m_currentFractal = true ∧ s'.m_viewCenter = s.m_juliaConstant := by
  unfold toggleJulia at h
  simp only [hmode] at h
  obtain ⟨-, -, -, f4, -, f6, -⟩ := resetGrid_frame h
  exact ⟨by rw [f6]; rfl, f4⟩

theorem toggleJulia_isSome (s : Solver K) (hw0 : 0 ≤ s.m_width) (hw1 : s.m_width < 2 ^ 31)
    (hh0 : 0 ≤ s.m_height) (hh1 : s.m_height < 2 ^ 31) : ∃ s', toggleJulia s = some s' := by
  unfold toggleJulia
  cases hmode : s.m_currentFractal with
  | true => exact resetGrid_isSome _ hw0 hw1 hh0 hh1
  | false => exact resetGrid_isSome _ hw0 hw1 hh0 hh1

/-! ### The row step -/

/-- The three ways in which `pixelStep` can return: the pixel is skipped; it is stepped without
escaping; it is stepped and escapes, which adds one to the escape count and to one bucket. -/
theorem pixelStep_cases {s s' : Solver K} {x : Nat} {y : Int} (h : pixelStep s x y = some s') :
    s' = s ∨
    (∃ grid mag iter, s' = { s with
        m_grid := grid, m_magnitudeSquaredGrid := mag, m_iterationGrid := iter }) ∨
    (∃ grid mag iter idx bucket, s.escapeIterationCounter[idx]? = some bucket ∧
      s' = { s with
        m_grid := grid, m_magnitudeSquaredGrid := mag, m_iterationGrid := iter
        m_escapeCount := s.m_escapeCount + 1
        escapeIterationCounter := s.escapeIterationCounter.set idx (bucket + 1) }) := by
  unfold pixelStep at h
  simp only [Option.bind_eq_some] at h
  obtain ⟨m, -, h⟩ := h
  by_cases hm : m ≤ s.m_escapeRadius * s.m_escapeRadius
  · rw [if_pos hm] at h
    simp only [Option.bind_eq_some] at h
    obtain ⟨z, -, grid, -, mag, -, n, -, iter, -, h⟩ := h
    by_cases hesc : (z.squareAdd (if s.m_currentFractal = true
        then s.mapToComplex ((x : Int) : K) (y : K)
        else s.m_juliaConstant)).magnitudeSquared > s.m_escapeRadius * s.m_escapeRadius
    · rw [if_pos hesc] at h
      simp only [Option.bind_eq_some, Option.some.injEq] at h
      obtain ⟨bucket, hb, h⟩ := h
      exact Or.inr (Or.inr ⟨grid, mag, iter, _, bucket, hb, h.symm⟩)
    · rw [if_neg hesc] at h
      simp only [Option.some.injEq] at h
      exact Or.inr (Or.inl ⟨grid, mag, iter, h.symm⟩)
  · rw [if_neg hm] at h
    simp only [Option.some.injEq] at h
    exact Or.inl h.symm

/-- A property of the solver that every returning `pixelStep` keeps and that does not depend
on the work queue is kept by the workers of a pass. -/
theorem workers_preserves (P : Solver K → Prop)
    (hpix : ∀ (s s' : Solver K) (x : Nat) (y : Int), pixelStep s x y = some s' → P s → P s')
    (hq : ∀ (s : Solver K) (q : WorkQueue), P s → P { s with workQueue := q }) :
    ∀ (threadCount : Nat) (s s' : Solver K), workers threadCount s = some s' → P s → P s' := by
  have hrow : ∀ (s s' : Solver K) (y : Int), rowLoop s y = some s' → P s → P s' := by
    intro s s' y h hs
    exact forLoopBreak_preserves _ _ P (fun j t t' ht hP => hpix t t' j y ht hP) _ _ _ _ h hs
  have hloop : ∀ (fuel : Nat) (s s' : Solver K), rowIteratorLoop fuel s = some s' → P s → P s' := by
    intro fuel
    induction fuel with
    | zero =>
      intro s s' h _
      simp [rowIteratorLoop] at h
    | succ fuel ih =>
      intro s s' h hs
      rw [rowIteratorLoop] at h
      split at h
      · simp only [Option.some.injEq] at h
        rw [← h]
        exact hq s _ hs
      · cases hr : rowLoop { s with workQueue := s.workQueue.getTask.2 } s.workQueue.getTask.1.1 with
        | none => rw [hr] at h; exact absurd h (by simp)
        | some t =>
          rw [hr] at h
          exact ih t s' h (hrow _ _ _ hr (hq s _ hs))
  intro threadCount
  induction threadCount with
  | zero =>
    intro s s' h hs
    simp only [workers, Option.some.injEq] at h
    exact h ▸ hs
  | succ threadCount ih =>
    intro s s' h hs
    rw [workers] at h
    cases hr : rowIterator s with
    | none => rw [hr] at h; exact absurd h (by simp)
    | some t =>
      rw [hr] at h
      exact ih t s' h (hloop _ _ _ hr hs)

/-- The workers of a pass leave the iteration counter and its maximum alone. -/
theorem workers_iterationCount {threadCount : Nat} {s s' : Solver K}
    (h : workers threadCount s = some s') :
    s'.m_iterationCount = s.m_iterationCount ∧ s'.m_iterationMaximum = s.m_iterationMaximum := by
  refine workers_preserves
    (fun t => t.m_iterationCount = s.m_iterationCount ∧
      t.m_iterationMaximum = s.m_iterationMaximum) ?_ ?_ threadCount s s' h ⟨rfl, rfl⟩
  · intro t t' x y ht hP
    rcases pixelStep_cases ht with h1 | ⟨_, _, _, h1⟩ | ⟨_, _, _, _, _, _, h1⟩ <;>
      (subst h1; exact hP)
  · intro t q hP
    exact hP

/-- Adding one to a bucket adds one to the sum of the histogram. -/
theorem sum_set_succ (l : List Int) :
    ∀ (i : Nat) (b : Int), l[i]? = some b → (l.set i (b + 1)).sum = l.sum + 1 := by
  induction l with
  | nil =>
    intro i b h
    simp at h
  | cons a l ih =>
    intro i b h
    cases i with
    | zero =>
      simp only [List.getElem?_cons_zero, Option.some.injEq] at h
      subst h
      simp only [List.set_cons_zero, List.sum_cons]
      omega
    | succ i =>
      simp only [List.getElem?_cons_succ] at h
      simp only [List.set_cons_succ, List.sum_cons, ih i b h]
      omega

/-- Every returning `pixelStep` keeps the escape count equal to the sum of the buckets. -/
theorem pixelStep_conserved {s s' : Solver K} {x : Nat} {y : Int}
    (h : pixelStep s x y = some s') (hs : Conserved s) : Conserved s' := by
  unfold Conserved at hs ⊢
  rcases pixelStep_cases h with h1 | ⟨_, _, _, h1⟩ | ⟨_, _, _, idx, bucket, hb, h1⟩
  · subst h1; exact hs
  · subst h1; exact hs
  · subst h1
    show s.m_escapeCount + 1 = (s.escapeIterationCounter.set idx (bucket + 1)).sum
    rw [sum_set_succ _ _ _ hb, hs]

/-- Every returning `iterateGrid` keeps the escape count equal to the sum of the buckets. -/
theorem iterateGrid_conserved {threadCount : Nat} {s s' : Solver K}
    (h : iterateGrid threadCount s = some s') (hs : Conserved s) : Conserved s' := by
  unfold iterateGrid at h
  by_cases hlt : s.m_iterationCount < s.m_iterationMaximum
  · rw [if_pos hlt] at h
    cases hw : workers threadCount (startPass s) with
    | none => rw [hw] at h; exact absurd h (by simp)
    | some s1 =>
      rw [hw] at h
      have h1 : Conserved s1 :=
        workers_preserves Conserved (fun _ _ _ _ ht hP => pixelStep_conserved ht hP)
          (fun _ _ hP => hP) threadCount _ _ hw hs
      cases hab : s1.workQueue.isAborted with
      | true =>
        simp only [hab, Bool.not_true, Bool.false_eq_true, if_false, Option.some.injEq] at h
        subst h
        exact h1
      | false =>
        simp only [hab, Bool.not_false, if_true, Option.some.injEq] at h
        subst h
        exact h1
  · rw [if_neg hlt] at h
    simp only [Option.some.injEq] at h
    subst h
    exact hs

/-- A property of the solver that every returning `pixelStep` keeps and that depends neither
on the work queue nor on the iteration counter is kept by every returning `iterateGrid`. -/
theorem iterateGrid_preserves (P : Solver K → Prop)
    (hpix : ∀ (s s' : Solver K) (x : Nat) (y : Int), pixelStep s x y = some s' → P s → P s')
    (hq : ∀ (s : Solver K) (q : WorkQueue), P s → P { s with workQueue := q })
    (hc : ∀ (s : Solver K) (c : Int), P s → P { s with m_iterationCount := c })
    {threadCount : Nat} {s s' : Solver K}
    (h : iterateGrid threadCount s = some s') (hs : P s) : P s' := by
  unfold iterateGrid at h
  by_cases hlt : s.m_iterationCount < s.m_iterationMaximum
  · rw [if_pos hlt] at h
    cases hw : workers threadCount (startPass s) with
    | none => rw [hw] at h; exact absurd h (by simp)
    | some s1 =>
      rw [hw] at h
      have h1 : P s1 := workers_preserves P hpix hq threadCount _ _ hw (hq s _ hs)
      cases hab : s1.workQueue.isAborted with
      | true =>
        simp only [hab, Bool.not_true, Bool.false_eq_true, if_false, Option.some.injEq] at h
        subst h
        exact h1
      | false =>
        simp only [hab, Bool.not_false, if_true, Option.some.injEq] at h
        subst h
        exact hc s1 _ h1
  · rw [if_neg hlt] at h
    simp only [Option.some.injEq] at h
    subst h
    exact hs

/-- The histogram keeps its length and its buckets stay non-negative under `pixelStep`; the
iteration maximum is not touched. -/
theorem pixelStep_histogram {s s' : Solver K} {x : Nat} {y : Int} {m : Int} {len : Nat}
    (h : pixelStep s x y = some s')
    (hs : s.m_iterationMaximum = m ∧ s.escapeIterationCounter.length = len ∧
      ∀ b ∈ s.escapeIterationCounter, 0 ≤ b) :
    s'.m_iterationMaximum = m ∧ s'.escapeIterationCounter.length = len ∧
      ∀ b ∈ s'.escapeIterationCounter, 0 ≤ b := by
  rcases pixelStep_cases h with h1 | ⟨_, _, _, h1⟩ | ⟨_, _, _, idx, bucket, hb, h1⟩
  · subst h1; exact hs
  · subst h1; exact hs
  · subst h1
    refine ⟨hs.1, ?_, ?_⟩
    · show (s.escapeIterationCounter.set idx (bucket + 1)).length = len
      rw [List.length_set]; exact hs.2.1
    · intro b hmem
      have hmem' : b ∈ s.escapeIterationCounter.set idx (bucket + 1) := hmem
      rcases List.mem_or_eq_of_mem_set hmem' with h2 | h2
      · exact hs.2.2 b h2
      · have := hs.2.2 bucket (List.getElem?_mem hb)
        omega

/-- In a state reached from `resetGrid` by completed passes the histogram has one bucket for
every iteration up to the maximum, no bucket is negative, and the buckets add up to the escape
count. -/
theorem ReachedByPasses.histogram {s0 s : Solver K} (h : ReachedByPasses s0 s) :
    (s.m_iterationMaximum = s0.m_iterationMaximum ∧
      s.escapeIterationCounter.length = toSizeT s0.m_iterationMaximum ∧
      ∀ b ∈ s.escapeIterationCounter, 0 ≤ b) ∧ Conserved s := by
  induction h with
  | reset h =>
    obtain ⟨-, -, -, -, -, -, -, -, f9, -, f11, f12, -⟩ := resetGrid_frame h
    refine ⟨⟨f9, by rw [f12, List.length_replicate], ?_⟩, ?_⟩
    · intro b hb
      rw [f12] at hb
      rw [List.eq_of_mem_replicate hb]
    · unfold Conserved
      rw [f11, f12]
      simp
  | pass threadCount queue _ hrun _ ih =>
    refine ⟨?_, iterateGrid_conserved hrun ih.2⟩
    exact iterateGrid_preserves
      (fun t => t.m_iterationMaximum = s0.m_iterationMaximum ∧
        t.escapeIterationCounter.length = toSizeT s0.m_iterationMaximum ∧
        ∀ b ∈ t.escapeIterationCounter, 0 ≤ b)
      (fun _ _ _ _ ht hP => pixelStep_histogram ht hP) (fun _ _ hP => hP) (fun _ _ hP => hP)
      hrun ih.1

/-! ### One pass, cell by cell -/

theorem toSizeT_lt_of_nonneg {k : Int} {len : Nat} (h0 : 0 ≤ k) (h1 : k < (len : Int)) :
    toSizeT k < len := by
  unfold toSizeT SIZE_MOD
  have h2 : k % ((2 ^ 64 : Nat) : Int) ≤ k := by omega
  have h3 : 0 ≤ k % ((2 ^ 64 : Nat) : Int) := by omega
  omega

/-- Changing the work queue to one that is not aborted keeps the pass invariant. -/
theorem PassInv.withQueue {s0 s : Solver K} {n : Nat} (h : PassInv s0 n s) (q : WorkQueue)
    (hq : q.isAborted = false) : PassInv s0 n { s with workQueue := q } :=
  { width_eq := h.width_eq, height_eq := h.height_eq, aspect_eq := h.aspect_eq,
    center_eq := h.center_eq, scale_eq := h.scale_eq, radius_eq := h.radius_eq,
    fractal_eq := h.fractal_eq, julia_eq := h.julia_eq, counter_length := h.counter_length,
    grid_shaped := h.grid_shaped, iteration_shaped := h.iteration_shaped,
    magnitude_shaped := h.magnitude_shaped, not_aborted := hq, cells := h.cells }

/-- A ready state satisfies the pass invariant for `0` visited cells once its queue is not
aborted. -/
theorem PassReady.passInv {s : Solver K} (h : PassReady s) (q : WorkQueue)
    (hq : q.isAborted = false) : PassInv s 0 { s with workQueue := q } :=
  { width_eq := rfl, height_eq := rfl, aspect_eq := rfl, center_eq := rfl, scale_eq := rfl,
    radius_eq := rfl, fractal_eq := rfl, julia_eq := rfl, counter_length := rfl,
    grid_shaped := h.2.2.2.2.1, iteration_shaped := h.2.2.2.2.2.1,
    magnitude_shaped := h.2.2.2.2.2.2.1, not_aborted := hq,
    cells := by
      intro i z m k hz hm hk
      have hn : ¬ (i < 0 ∧ m ≤ s.m_escapeRadius * s.m_escapeRadius) := by
        intro hc; exact absurd hc.1 (Nat.not_lt_zero i)
      rw [if_neg hn, if_neg hn, if_neg hn]
      exact ⟨hz, hm, hk⟩ }

/-- The row step at the next cell in row-major order returns and extends the pass invariant by
that cell. -/
theorem pixelStep_passInv {s0 s : Solver K} (hready : PassReady s0) {x y : Nat}
    (hx : x < s0.m_width.toNat) (hy : y < s0.m_height.toNat)
    (h : PassInv s0 (y * s0.m_width.toNat + x) s) :
    ∃ s', pixelStep s x (y : Int) = some s' ∧
      PassInv s0 (y * s0.m_width.toNat + x + 1) s' := by
  obtain ⟨hw0, hw1, hh0, hh1, hg0, hi0, hm0, hidx⟩ := hready
  have hflat : y * s0.m_width.toNat + x < s0.m_width.toNat * s0.m_height.toNat :=
    Grid2d.flat_lt hx hy
  have hzlen : y * s0.m_width.toNat + x < s0.m_grid.data.length := by
    rw [hg0.2.2.1]; exact hflat
  have hmlen : y * s0.m_width.toNat + x < s0.m_magnitudeSquaredGrid.data.length := by
    rw [hm0.2.2.1]; exact hflat
  have hklen : y * s0.m_width.toNat + x < s0.m_iterationGrid.data.length := by
    rw [hi0.2.2.1]; exact hflat
  have hz0 := List.getElem?_eq_getElem hzlen
  have hm0' := List.getElem?_eq_getElem hmlen
  have hk0 := List.getElem?_eq_getElem hklen
  generalize s0.m_grid.data[y * s0.m_width.toNat + x] = z0 at hz0
  generalize s0.m_magnitudeSquaredGrid.data[y * s0.m_width.toNat + x] = m0 at hm0'
  generalize s0.m_iterationGrid.data[y * s0.m_width.toNat + x] = k0 at hk0
  obtain ⟨cz, cm, ck⟩ := h.cells _ z0 m0 k0 hz0 hm0' hk0
  have hnot : ¬ (y * s0.m_width.toNat + x < y * s0.m_width.toNat + x ∧
      m0 ≤ s0.m_escapeRadius * s0.m_escapeRadius) := fun hc => absurd hc.1 (lt_irrefl _)
  rw [if_neg hnot] at cz cm ck
  have hyT : toSizeT (y : Int) = y := toSizeT_natCast (by omega)
  have hconst : (if s.m_currentFractal = true
      then s.mapToComplex ((x : Int) : K) (((y : Nat) : Int) : K)
      else s.m_juliaConstant) = stepConstant s0 (y * s0.m_width.toNat + x) := by
    unfold stepConstant
    rw [h.fractal_eq, h.julia_eq, Grid2d.flat_mod hx, Grid2d.flat_div hx,
      mapToComplex_congr h.width_eq h.height_eq h.aspect_eq h.center_eq h.scale_eq h.radius_eq]
  have hr := h.radius_eq
  unfold pixelStep
  rw [hyT, h.magnitude_shaped.get_eq hx hy, cm]
  simp only [Option.some_bind]
  by_cases hle : m0 ≤ s0.m_escapeRadius * s0.m_escapeRadius
  · rw [if_pos (by rw [hr]; exact hle)]
    simp only [Option.some_bind, h.grid_shaped.get_eq hx hy, cz, hconst,
      h.grid_shaped.set_eq hx hy, h.magnitude_shaped.set_eq hx hy,
      h.iteration_shaped.get_eq hx hy, ck, h.iteration_shaped.set_eq hx hy]
    have hcells : ∀ (i : Nat) (z : Complex K) (m : K) (k : Int),
        s0.m_grid.data[i]? = some z → s0.m_magnitudeSquaredGrid.data[i]? = some m →
        s0.m_iterationGrid.data[i]? = some k →
        (s.m_grid.data.set (y * s0.m_width.toNat + x)
            (z0.squareAdd (stepConstant s0 (y * s0.m_width.toNat + x))))[i]? = some
          (if i < y * s0.m_width.toNat + x + 1 ∧ m ≤ s0.m_escapeRadius * s0.m_escapeRadius
            then z.squareAdd (stepConstant s0 i) else z) ∧
        (s.m_magnitudeSquaredGrid.data.set (y * s0.m_width.toNat + x)
            (z0.squareAdd (stepConstant s0 (y * s0.m_width.toNat + x))).magnitudeSquared)[i]?
          = some
          (if i < y * s0.m_width.toNat + x + 1 ∧ m ≤ s0.m_escapeRadius * s0.m_escapeRadius
            then (z.squareAdd (stepConstant s0 i)).magnitudeSquared else m) ∧
        (s.m_iterationGrid.data.set (y * s0.m_width.toNat + x) (k0 + 1))[i]? = some
          (if i < y * s0.m_width.toNat + x + 1 ∧ m ≤ s0.m_escapeRadius * s0.m_escapeRadius
            then k + 1 else k) := by
      intro i z m k hz hm hk
      by_cases hi : i = y * s0.m_width.toNat + x
      · subst hi
        rw [hz0] at hz
        rw [hm0'] at hm
        rw [hk0] at hk
        simp only [Option.some.injEq] at hz hm hk
        subst hz hm hk
        have hyes : y * s0.m_width.toNat + x < y * s0.m_width.toNat + x + 1 ∧
            m0 ≤ s0.m_escapeRadius * s0.m_escapeRadius := ⟨Nat.lt_succ_self _, hle⟩
        rw [if_pos hyes, if_pos hyes, if_pos hyes]
        have l1 : y * s0.m_width.toNat + x < s.m_grid.data.length := by
          rw [h.grid_shaped.2.2.1]; exact hflat
        have l2 : y * s0.m_width.toNat + x < s.m_magnitudeSquaredGrid.data.length := by
          rw [h.magnitude_shaped.2.2.1]; exact hflat
        have l3 : y * s0.m_width.toNat + x < s.m_iterationGrid.data.length := by
          rw [h.iteration_shaped.2.2.1]; exact hflat
        simp only [List.getElem?_set, if_true, l1, l2, l3, and_self]
      · obtain ⟨c1, c2, c3⟩ := h.cells i z m k hz hm hk
        have hiff : (i < y * s0.m_width.toNat + x + 1 ∧
            m ≤ s0.m_escapeRadius * s0.m_escapeRadius) ↔
            (i < y * s0.m_width.toNat + x ∧
            m ≤ s0.m_escapeRadius * s0.m_escapeRadius) := by
          constructor
          · intro hc; exact ⟨by omega, hc.2⟩
          · intro hc; exact ⟨by omega, hc.2⟩
        simp only [hiff]
        rw [List.getElem?_set_ne (Ne.symm hi), List.getElem?_set_ne (Ne.symm hi),
          List.getElem?_set_ne (Ne.symm hi)]
        exact ⟨c1, c2, c3⟩
    by_cases hesc : (z0.squareAdd (stepConstant s0 (y * s0.m_width.toNat + x))).magnitudeSquared
        > s.m_escapeRadius * s.m_escapeRadius
    · rw [if_pos hesc]
      have hbound := hidx x y m0 k0 (by rw [hm0.get_eq hx hy]; exact hm0')
        (by rw [hi0.get_eq hx hy]; exact hk0) hle
      have hk1 : k0 + 1 - 1 = k0 := by omega
      rw [hk1]
      have hlt : toSizeT k0 < s.escapeIterationCounter.length := by
        rw [h.counter_length]; exact toSizeT_lt_of_nonneg hbound.1 hbound.2
      rw [List.getElem?_eq_getElem hlt]
      simp only [Option.some_bind]
      refine ⟨_, rfl, ?_⟩
      exact
        { width_eq := h.width_eq, height_eq := h.height_eq, aspect_eq := h.aspect_eq,
          center_eq := h.center_eq, scale_eq := h.scale_eq, radius_eq := h.radius_eq,
          fractal_eq := h.fractal_eq, julia_eq := h.julia_eq,
          counter_length := by
            show (s.escapeIterationCounter.set _ _).length = _
            rw [List.length_set]; exact h.counter_length
          grid_shaped := h.grid_shaped.set_data _ _,
          iteration_shaped := h.iteration_shaped.set_data _ _,
          magnitude_shaped := h.magnitude_shaped.set_data _ _,
          not_aborted := h.not_aborted,
          cells := hcells }
    · rw [if_neg hesc]
      refine ⟨_, rfl, ?_⟩
      exact
        { width_eq := h.width_eq, height_eq := h.height_eq, aspect_eq := h.aspect_eq,
          center_eq := h.center_eq, scale_eq := h.scale_eq, radius_eq := h.radius_eq,
          fractal_eq := h.fractal_eq, julia_eq := h.julia_eq,
          counter_length := h.counter_length,
          grid_shaped := h.grid_shaped.set_data _ _,
          iteration_shaped := h.iteration_shaped.set_data _ _,
          magnitude_shaped := h.magnitude_shaped.set_data _ _,
          not_aborted := h.not_aborted,
          cells := hcells }
  · rw [if_neg (by rw [hr]; exact hle)]
    refine ⟨s, rfl, ?_⟩
    exact
      { width_eq := h.width_eq, height_eq := h.height_eq, aspect_eq := h.aspect_eq,
        center_eq := h.center_eq, scale_eq := h.scale_eq, radius_eq := h.radius_eq,
        fractal_eq := h.fractal_eq, julia_eq := h.julia_eq,
        counter_length := h.counter_length, grid_shaped := h.grid_shaped,
        iteration_shaped := h.iteration_shaped, magnitude_shaped := h.magnitude_shaped,
        not_aborted := h.not_aborted,
        cells := by
          intro i z m k hz hm hk
          obtain ⟨c1, c2, c3⟩ := h.cells i z m k hz hm hk
          by_cases hi : i = y * s0.m_width.toNat + x
          · subst hi
            rw [hm0'] at hm
            simp only [Option.some.injEq] at hm
            subst hm
            have hn1 : ¬ (y * s0.m_width.toNat + x < y * s0.m_width.toNat + x + 1 ∧
                m0 ≤ s0.m_escapeRadius * s0.m_escapeRadius) := fun hc => hle hc.2
            rw [if_neg hn1, if_neg hn1, if_neg hn1]
            rw [if_neg hnot] at c1 c2 c3
            exact ⟨c1, c2, c3⟩
          · have hiff : (i < y * s0.m_width.toNat + x + 1 ∧
                m ≤ s0.m_escapeRadius * s0.m_escapeRadius) ↔
                (i < y * s0.m_width.toNat + x ∧
                m ≤ s0.m_escapeRadius * s0.m_escapeRadius) := by
              constructor
              · intro hc; exact ⟨by omega, hc.2⟩
              · intro hc; exact ⟨by omega, hc.2⟩
            simp only [hiff]
            exact ⟨c1, c2, c3⟩ }

theorem pixelStep_workQueue {s s' : Solver K} {x : Nat} {y : Int}
    (h : pixelStep s x y = some s') : s'.workQueue = s.workQueue := by
  rcases pixelStep_cases h with h1 | ⟨_, _, _, h1⟩ | ⟨_, _, _, _, _, _, h1⟩ <;>
    (subst h1; rfl)

/-- The column loop for the next row returns and extends the pass invariant by that row. -/
theorem rowLoop_passInv {s0 s : Solver K} (hready : PassReady s0) {y : Nat}
    (hy : y < s0.m_height.toNat) (h : PassInv s0 (y * s0.m_width.toNat) s) :
    ∃ s', rowLoop s (y : Int) = some s' ∧ PassInv s0 ((y + 1) * s0.m_width.toNat) s' ∧
      s'.workQueue = s.workQueue := by
  obtain ⟨s', hrun, hInv, hq⟩ := forLoopBreak_inv (fun s1 : Solver K => s1.workQueue.isAborted)
    (fun x s1 => pixelStep s1 x (y : Int))
    (fun x t => PassInv s0 (y * s0.m_width.toNat + x) t ∧ t.workQueue = s.workQueue)
    (fun _ t ht => ht.1.not_aborted) s0.m_width.toNat 0 s
    (by
      intro x t _ hx ht
      obtain ⟨t', hstep, hInv⟩ := pixelStep_passInv hready (by omega) hy ht.1
      exact ⟨t', hstep, hInv, (pixelStep_workQueue hstep).trans ht.2⟩)
    ⟨by simpa using h, rfl⟩
  refine ⟨s', ?_, ?_, hq⟩
  · unfold rowLoop
    rw [h.width_eq]
    exact hrun
  · have he : (y + 1) * s0.m_width.toNat = y * s0.m_width.toNat + (0 + s0.m_width.toNat) := by
      rw [Nat.succ_mul]; omega
    rw [he]; exact hInv

/-- A worker that finds the cursor at row `y` works through the rows `y .. height - 1`. -/
theorem rowIteratorLoop_passInv {s0 : Solver K} (hready : PassReady s0) :
    ∀ (fuel y : Nat) (s : Solver K), y ≤ s0.m_height.toNat → s0.m_height.toNat - y < fuel →
      PassInv s0 (y * s0.m_width.toNat) s → s.workQueue.nextTask = y →
      s.workQueue.taskCount = s0.m_height.toNat →
      ∃ s', rowIteratorLoop fuel s = some s' ∧
        PassInv s0 (s0.m_height.toNat * s0.m_width.toNat) s' ∧
        s'.workQueue.nextTask = s0.m_height.toNat ∧
        s'.workQueue.taskCount = s0.m_height.toNat := by
  have hH : s0.m_height.toNat < 2 ^ 31 := toNat_lt_of_lt hready.2.2.2.1
  intro fuel
  induction fuel with
  | zero =>
    intro y s _ hfuel
    omega
  | succ fuel ih =>
    intro y s hy hfuel hInv hnext hcount
    rw [rowIteratorLoop]
    by_cases hlt : y < s0.m_height.toNat
    · have hget := WorkQueue.getTask_of_lt (q := s.workQueue) (by omega) (by omega)
      simp only [hget, hnext]
      rw [if_neg (by omega)]
      obtain ⟨s2, hrow, hInv2, hq2⟩ := rowLoop_passInv hready hlt
        (hInv.withQueue { s.workQueue with nextTask := y + 1 }
          (WorkQueue.isAborted_of_le (show y + 1 ≤ s.workQueue.taskCount by omega)))
      rw [hrow]
      exact ih (y + 1) s2 (by omega) (by omega) hInv2 (by rw [hq2]) (by rw [hq2]; exact hcount)
    · have hyH : y = s0.m_height.toNat := by omega
      have hget := WorkQueue.getTask_of_ge (q := s.workQueue) (by omega)
      simp only [hget]
      rw [if_pos trivial]
      refine ⟨_, rfl, ?_, ?_, hcount⟩
      · rw [← hyH]; exact hInv
      · rw [← hyH]; exact hnext

/-- One or more workers, started on a ready state with the queue set up for the pass and not
aborted, visit every cell. -/
theorem workers_passInv {s0 : Solver K} (hready : PassReady s0) :
    ∀ (threadCount y : Nat) (s : Solver K), y ≤ s0.m_height.toNat →
      (threadCount = 0 → y = s0.m_height.toNat) →
      PassInv s0 (y * s0.m_width.toNat) s → s.workQueue.nextTask = y →
      s.workQueue.taskCount = s0.m_height.toNat →
      ∃ s', workers threadCount s = some s' ∧
        PassInv s0 (s0.m_height.toNat * s0.m_width.toNat) s' := by
  intro threadCount
  induction threadCount with
  | zero =>
    intro y s _ h0 hInv _ _
    refine ⟨s, rfl, ?_⟩
    rw [← h0 rfl]; exact hInv
  | succ threadCount ih =>
    intro y s hy _ hInv hnext hcount
    obtain ⟨s1, hrun, hInv1, hnext1, hcount1⟩ := rowIteratorLoop_passInv hready
      (s.workQueue.taskCount + 1) y s hy (by omega) hInv hnext hcount
    obtain ⟨s', hrest, hInv'⟩ := ih s0.m_height.toNat s1 (le_refl _) (fun _ => rfl) hInv1
      hnext1 hcount1
    refine ⟨s', ?_, hInv'⟩
    rw [workers]
    have hrun' : rowIterator s = some s1 := hrun
    rw [hrun']
    exact hrest

/-! ### One pass, in any order of the cells -/

/-- Counting the elements with a property after one more element has joined the set. -/
theorem card_filter_insert (p : Nat → Prop) [DecidablePred p] (V : Finset Nat) (n : Nat)
    (hn : n ∉ V) :
    (((insert n V).filter p).card : Int) = ((V.filter p).card : Int) + (if p n then 1 else 0) := by
  rw [Finset.filter_insert]
  by_cases hp : p n
  · rw [if_pos hp, if_pos hp,
      Finset.card_insert_of_not_mem (fun hmem => hn (Finset.mem_filter.mp hmem).1)]
    push_cast
    rfl
  · rw [if_neg hp, if_neg hp, add_zero]

/-- The result of `pixelStep` at a cell inside three grids of the same dimensions. -/
theorem pixelStep_eq {s : Solver K} {W H x y : Nat} {z : Complex K} {m : K} {k : Int}
    (hg : s.m_grid.Shaped W H) (hi : s.m_iterationGrid.Shaped W H)
    (hm : s.m_magnitudeSquaredGrid.Shaped W H) (hx : x < W) (hy : y < H) (hy31 : y < 2 ^ 31)
    (cz : s.m_grid.data[y * W + x]? = some z)
    (cm : s.m_magnitudeSquaredGrid.data[y * W + x]? = some m)
    (ck : s.m_iterationGrid.data[y * W + x]? = some k) (c : Complex K)
    (hc : (if s.m_currentFractal = true
      then s.mapToComplex ((x : Int) : K) (((y : Nat) : Int) : K)
      else s.m_juliaConstant) = c) :
    pixelStep s x (y : Int) =
      if m ≤ s.m_escapeRadius * s.m_escapeRadius then
        if s.m_escapeRadius * s.m_escapeRadius < (z.squareAdd c).magnitudeSquared then
          (s.escapeIterationCounter[toSizeT (k + 1 - 1)]?).bind fun bucket =>
            some { s with
              m_grid := { s.m_grid with data := s.m_grid.data.set (y * W + x) (z.squareAdd c) }
              m_magnitudeSquaredGrid := { s.m_magnitudeSquaredGrid with
                data := s.m_magnitudeSquaredGrid.data.set (y * W + x)
                  (z.squareAdd c).magnitudeSquared }
              m_iterationGrid := { s.m_iterationGrid with
                data := s.m_iterationGrid.data.set (y * W + x) (k + 1) }
              m_escapeCount := s.m_escapeCount + 1
              escapeIterationCounter :=
                s.escapeIterationCounter.set (toSizeT (k + 1 - 1)) (bucket + 1) }
        else
          some { s with
            m_grid := { s.m_grid with data := s.m_grid.data.set (y * W + x) (z.squareAdd c) }
            m_magnitudeSquaredGrid := { s.m_magnitudeSquaredGrid with
              data := s.m_magnitudeSquaredGrid.data.set (y * W + x)
                (z.squareAdd c).magnitudeSquared }
            m_iterationGrid := { s.m_iterationGrid with
              data := s.m_iterationGrid.data.set (y * W + x) (k + 1) } }
      else some s := by
  have hyT : toSizeT (y : Int) = y := toSizeT_natCast hy31
  unfold pixelStep
  rw [hyT, hm.get_eq hx hy, cm]
  simp only [Option.some_bind]
  by_cases hle : m ≤ s.m_escapeRadius * s.m_escapeRadius
  · rw [if_pos hle, if_pos hle]
    simp only [Option.some_bind, hg.get_eq hx hy, cz, hc, hg.set_eq hx hy, hm.set_eq hx hy,
      hi.get_eq hx hy, ck, hi.set_eq hx hy]
  · rw [if_neg hle, if_neg hle]

/-- The row step at a cell that has not been visited yet returns and extends the description
of the visited cells by that cell. -/
theorem pixelStep_visited {s0 s : Solver K} (hready : PassReady s0) {V : Finset Nat}
    {x y : Nat} (hx : x < s0.m_width.toNat) (hy : y < s0.m_height.toNat)
    (hn : y * s0.m_width.toNat + x ∉ V) (h : Visited s0 V s) :
    ∃ s', pixelStep s x (y : Int) = some s' ∧
      Visited s0 (insert (y * s0.m_width.toNat + x) V) s' ∧ s'.workQueue = s.workQueue := by
  obtain ⟨hw0, hw1, hh0, hh1, hg0, hi0, hm0, hidx⟩ := hready
  have hflat : y * s0.m_width.toNat + x < s0.m_width.toNat * s0.m_height.toNat :=
    Grid2d.flat_lt hx hy
  have hzlen : y * s0.m_width.toNat + x < s0.m_grid.data.length := by
    rw [hg0.2.2.1]; exact hflat
  have hmlen : y * s0.m_width.toNat + x < s0.m_magnitudeSquaredGrid.data.length := by
    rw [hm0.2.2.1]; exact hflat
  have hklen : y * s0.m_width.toNat + x < s0.m_iterationGrid.data.length := by
    rw [hi0.2.2.1]; exact hflat
  have hz0 := List.getElem?_eq_getElem hzlen
  have hm0' := List.getElem?_eq_getElem hmlen
  have hk0 := List.getElem?_eq_getElem hklen
  generalize s0.m_grid.data[y * s0.m_width.toNat + x] = z0 at hz0
  generalize s0.m_magnitudeSquaredGrid.data[y * s0.m_width.toNat + x] = m0 at hm0'
  generalize s0.m_iterationGrid.data[y * s0.m_width.toNat + x] = k0 at hk0
  obtain ⟨cz, cm, ck⟩ := h.cells _ z0 m0 k0 hz0 hm0' hk0
  have hnot : ¬ (y * s0.m_width.toNat + x ∈ V ∧
      m0 ≤ s0.m_escapeRadius * s0.m_escapeRadius) := fun hc => hn hc.1
  rw [if_neg hnot] at cz cm ck
  have hconst : (if s.m_currentFractal = true
      then s.mapToComplex ((x : Int) : K) (((y : Nat) : Int) : K)
      else s.m_juliaConstant) = stepConstant s0 (y * s0.m_width.toNat + x) := by
    unfold stepConstant
    rw [h.fractal_eq, h.julia_eq, Grid2d.flat_mod hx, Grid2d.flat_div hx,
      mapToComplex_congr h.width_eq h.height_eq h.aspect_eq h.center_eq h.scale_eq h.radius_eq]
  have hr := h.radius_eq
  have hesc_iff : escapesAt s0 (y * s0.m_width.toNat + x) = true ↔
      (m0 ≤ s0.m_escapeRadius * s0.m_escapeRadius ∧ s0.m_escapeRadius * s0.m_escapeRadius <
        (z0.squareAdd (stepConstant s0 (y * s0.m_width.toNat + x))).magnitudeSquared) := by
    unfold escapesAt activeAt steppedAt
    rw [hm0', hz0]
    simp only [Bool.and_eq_true, decide_eq_true_eq]
  have hbucket : bucketAt s0 (y * s0.m_width.toNat + x) = toSizeT (k0 + 1 - 1) := by
    unfold bucketAt
    rw [hk0]
  by_cases hle : m0 ≤ s0.m_escapeRadius * s0.m_escapeRadius
  · have hnew : ∀ (i : Nat) (z : Complex K) (m : K) (k : Int),
        s0.m_grid.data[i]? = some z → s0.m_magnitudeSquaredGrid.data[i]? = some m →
        s0.m_iterationGrid.data[i]? = some k →
        (s.m_grid.data.set (y * s0.m_width.toNat + x)
            (z0.squareAdd (stepConstant s0 (y * s0.m_width.toNat + x))))[i]? = some
          (if i ∈ insert (y * s0.m_width.toNat + x) V ∧
              m ≤ s0.m_escapeRadius * s0.m_escapeRadius
            then z.squareAdd (stepConstant s0 i) else z) ∧
        (s.m_magnitudeSquaredGrid.data.set (y * s0.m_width.toNat + x)
            (z0.squareAdd (stepConstant s0 (y * s0.m_width.toNat + x))).magnitudeSquared)[i]?
          = some
          (if i ∈ insert (y * s0.m_width.toNat + x) V ∧
              m ≤ s0.m_escapeRadius * s0.m_escapeRadius
            then (z.squareAdd (stepConstant s0 i)).magnitudeSquared else m) ∧
        (s.m_iterationGrid.data.set (y * s0.m_width.toNat + x) (k0 + 1))[i]? = some
          (if i ∈ insert (y * s0.m_width.toNat + x) V ∧
              m ≤ s0.m_escapeRadius * s0.m_escapeRadius
            then k + 1 else k) := by
      intro i z m k hz hm hk
      by_cases hieq : i = y * s0.m_width.toNat + x
      · subst hieq
        rw [hz0] at hz
        rw [hm0'] at hm
        rw [hk0] at hk
        simp only [Option.some.injEq] at hz hm hk
        subst hz hm hk
        have hyes : y * s0.m_width.toNat + x ∈ insert (y * s0.m_width.toNat + x) V ∧
            m0 ≤ s0.m_escapeRadius * s0.m_escapeRadius := ⟨Finset.mem_insert_self _ _, hle⟩
        rw [if_pos hyes, if_pos hyes, if_pos hyes]
        have l1 : y * s0.m_width.toNat + x < s.m_grid.data.length := by
          rw [h.grid_shaped.2.2.1]; exact hflat
        have l2 : y * s0.m_width.toNat + x < s.m_magnitudeSquaredGrid.data.length := by
          rw [h.magnitude_shaped.2.2.1]; exact hflat
        have l3 : y * s0.m_width.toNat + x < s.m_iterationGrid.data.length := by
          rw [h.iteration_shaped.2.2.1]; exact hflat
        simp only [List.getElem?_set, if_true, l1, l2, l3, and_self]
      · obtain ⟨c1, c2, c3⟩ := h.cells i z m k hz hm hk
        have hiff : (i ∈ insert (y * s0.m_width.toNat + x) V ∧
            m ≤ s0.m_escapeRadius * s0.m_escapeRadius) ↔
            (i ∈ V ∧ m ≤ s0.m_escapeRadius * s0.m_escapeRadius) := by
          rw [Finset.mem_insert]
          constructor
          · intro hc
            exact ⟨hc.1.resolve_left hieq, hc.2⟩
          · intro hc
            exact ⟨Or.inr hc.1, hc.2⟩
        simp only [hiff]
        rw [List.getElem?_set_ne (Ne.symm hieq), List.getElem?_set_ne (Ne.symm hieq),
          List.getElem?_set_ne (Ne.symm hieq)]
        exact ⟨c1, c2, c3⟩
    rw [pixelStep_eq h.grid_shaped h.iteration_shaped h.magnitude_shaped hx hy (by omega)
      cz cm ck _ hconst, if_pos (by rw [hr]; exact hle)]
    by_cases hesc : s0.m_escapeRadius * s0.m_escapeRadius <
        (z0.squareAdd (stepConstant s0 (y * s0.m_width.toNat + x))).magnitudeSquared
    · rw [if_pos (by rw [hr]; exact hesc)]
      have hbound := hidx x y m0 k0 (by rw [hm0.get_eq hx hy]; exact hm0')
        (by rw [hi0.get_eq hx hy]; exact hk0) hle
      have hk1 : k0 + 1 - 1 = k0 := by omega
      have hlt0 : toSizeT (k0 + 1 - 1) < s0.escapeIterationCounter.length := by
        rw [hk1]; exact toSizeT_lt_of_nonneg hbound.1 hbound.2
      have hb0 := List.getElem?_eq_getElem hlt0
      generalize s0.escapeIterationCounter[toSizeT (k0 + 1 - 1)] = b0 at hb0
      have hbs := h.buckets _ b0 hb0
      rw [hbs]
      simp only [Option.some_bind]
      refine ⟨_, rfl, ?_, rfl⟩
      exact
        { width_eq := h.width_eq, height_eq := h.height_eq, aspect_eq := h.aspect_eq,
          center_eq := h.center_eq, scale_eq := h.scale_eq, radius_eq := h.radius_eq,
          fractal_eq := h.fractal_eq, julia_eq := h.julia_eq,
          counter_length := by
            show (s.escapeIterationCounter.set _ _).length = _
            rw [List.length_set]; exact h.counter_length
          grid_shaped := h.grid_shaped.set_data _ _,
          iteration_shaped := h.iteration_shaped.set_data _ _,
          magnitude_shaped := h.magnitude_shaped.set_data _ _,
          not_aborted := h.not_aborted,
          cells := hnew,
          escapeCount_eq := by
            show s.m_escapeCount + 1 = _
            rw [card_filter_insert _ V _ hn, if_pos (hesc_iff.mpr ⟨hle, hesc⟩),
              h.escapeCount_eq]
            ring
          buckets := by
            intro j b hb
            show (s.escapeIterationCounter.set _ _)[j]? = _
            rw [card_filter_insert _ V _ hn, List.getElem?_set]
            by_cases hj : toSizeT (k0 + 1 - 1) = j
            · subst hj
              rw [hb0] at hb
              simp only [Option.some.injEq] at hb
              subst hb
              rw [if_pos rfl, if_pos (by rw [h.counter_length]; exact hlt0),
                if_pos ⟨hesc_iff.mpr ⟨hle, hesc⟩, hbucket⟩]
              congr 1
              ring
            · rw [if_neg hj, if_neg (fun hc => hj (hbucket ▸ hc.2)), add_zero]
              exact h.buckets j b hb }
    · rw [if_neg (by rw [hr]; exact hesc)]
      refine ⟨_, rfl, ?_, rfl⟩
      exact
        { width_eq := h.width_eq, height_eq := h.height_eq, aspect_eq := h.aspect_eq,
          center_eq := h.center_eq, scale_eq := h.scale_eq, radius_eq := h.radius_eq,
          fractal_eq := h.fractal_eq, julia_eq := h.julia_eq,
          counter_length := h.counter_length
          grid_shaped := h.grid_shaped.set_data _ _,
          iteration_shaped := h.iteration_shaped.set_data _ _,
          magnitude_shaped := h.magnitude_shaped.set_data _ _,
          not_aborted := h.not_aborted,
          cells := hnew,
          escapeCount_eq := by
            show s.m_escapeCount = _
            rw [card_filter_insert _ V _ hn, if_neg (fun hc => hesc (hesc_iff.mp hc).2),
              add_zero]
            exact h.escapeCount_eq
          buckets := by
            intro j b hb
            show s.escapeIterationCounter[j]? = _
            rw [card_filter_insert _ V _ hn,
              if_neg (fun hc => hesc (hesc_iff.mp hc.1).2), add_zero]
            exact h.buckets j b hb }
  · rw [pixelStep_eq h.grid_shaped h.iteration_shaped h.magnitude_shaped hx hy (by omega)
      cz cm ck _ hconst, if_neg (by rw [hr]; exact hle)]
    refine ⟨s, rfl, ?_, rfl⟩
    exact
      { width_eq := h.width_eq, height_eq := h.height_eq, aspect_eq := h.aspect_eq,
        center_eq := h.center_eq, scale_eq := h.scale_eq, radius_eq := h.radius_eq,
        fractal_eq := h.fractal_eq, julia_eq := h.julia_eq,
        counter_length := h.counter_length, grid_shaped := h.grid_shaped,
        iteration_shaped := h.iteration_shaped, magnitude_shaped := h.magnitude_shaped,
        not_aborted := h.not_aborted,
        cells := by
          intro i z m k hz hm hk
          obtain ⟨c1, c2, c3⟩ := h.cells i z m k hz hm hk
          by_cases hieq : i = y * s0.m_width.toNat + x
          · subst hieq
            rw [hm0'] at hm
            simp only [Option.some.injEq] at hm
            subst hm
            have hn1 : ¬ (y * s0.m_width.toNat + x ∈ insert (y * s0.m_width.toNat + x) V ∧
                m0 ≤ s0.m_escapeRadius * s0.m_escapeRadius) := fun hc => hle hc.2
            rw [if_neg hn1, if_neg hn1, if_neg hn1]
            rw [if_neg hnot] at c1 c2 c3
            exact ⟨c1, c2, c3⟩
          · have hiff : (i ∈ insert (y * s0.m_width.toNat + x) V ∧
                m ≤ s0.m_escapeRadius * s0.m_escapeRadius) ↔
                (i ∈ V ∧ m ≤ s0.m_escapeRadius * s0.m_escapeRadius) := by
              rw [Finset.mem_insert]
              constructor
              · intro hc
                exact ⟨hc.1.resolve_left hieq, hc.2⟩
              · intro hc
                exact ⟨Or.inr hc.1, hc.2⟩
            simp only [hiff]
            exact ⟨c1, c2, c3⟩
        escapeCount_eq := by
          rw [card_filter_insert _ V _ hn, if_neg (fun hc => hle (hesc_iff.mp hc).1),
            add_zero]
          exact h.escapeCount_eq
        buckets := by
          intro j b hb
          rw [card_filter_insert _ V _ hn,
            if_neg (fun hc => hle (hesc_iff.mp hc.1).1), add_zero]
          exact h.buckets j b hb }

/-- Changing the work queue to one that is not aborted keeps the description of the visited
cells. -/
theorem Visited.changeQueue {s0 s : Solver K} {V : Finset Nat} (h : Visited s0 V s)
    (q : WorkQueue) (hq : q.isAborted = false) : Visited s0 V { s with workQueue := q } :=
  { width_eq := h.width_eq, height_eq := h.height_eq, aspect_eq := h.aspect_eq,
    center_eq := h.center_eq, scale_eq := h.scale_eq, radius_eq := h.radius_eq,
    fractal_eq := h.fractal_eq, julia_eq := h.julia_eq, counter_length := h.counter_length,
    grid_shaped := h.grid_shaped, iteration_shaped := h.iteration_shaped,
    magnitude_shaped := h.magnitude_shaped, not_aborted := hq, cells := h.cells,
    escapeCount_eq := h.escapeCount_eq, buckets := h.buckets }

/-- A ready state whose queue is not aborted is a pass with no cell visited yet. -/
theorem PassReady.visited {s : Solver K} (h : PassReady s) (q : WorkQueue)
    (hq : q.isAborted = false) : Visited s ∅ { s with workQueue := q } :=
  { width_eq := rfl, height_eq := rfl, aspect_eq := rfl, center_eq := rfl, scale_eq := rfl,
    radius_eq := rfl, fractal_eq := rfl, julia_eq := rfl, counter_length := rfl,
    grid_shaped := h.2.2.2.2.1, iteration_shaped := h.2.2.2.2.2.1,
    magnitude_shaped := h.2.2.2.2.2.2.1, not_aborted := hq,
    cells := by
      intro i z m k hz hm hk
      have hn : ¬ (i ∈ (∅ : Finset Nat) ∧ m ≤ s.m_escapeRadius * s.m_escapeRadius) := by
        intro hc; exact absurd hc.1 (Finset.not_mem_empty i)
      rw [if_neg hn, if_neg hn, if_neg hn]
      exact ⟨hz, hm, hk⟩
    escapeCount_eq := by
      show s.m_escapeCount = _
      rw [Finset.filter_empty, Finset.card_empty]
      simp
    buckets := by
      intro j b hb
      show s.escapeIterationCounter[j]? = _
      rw [Finset.filter_empty, Finset.card_empty, hb]
      simp }

/-- The description of the visited cells depends on the set of cells only. -/
theorem Visited.congr {s0 s : Solver K} {V V' : Finset Nat} (h : Visited s0 V s)
    (hV : V = V') : Visited s0 V' s := hV ▸ h

/-- The column loop for a row none of whose cells has been visited returns and extends the
description of the visited cells by that row. -/
theorem rowLoop_visited {s0 s : Solver K} (hready : PassReady s0) {V : Finset Nat} {y : Nat}
    (hy : y < s0.m_height.toNat) (hnew : ∀ x, x < s0.m_width.toNat → y * s0.m_width.toNat + x ∉ V)
    (h : Visited s0 V s) :
    ∃ s', rowLoop s (y : Int) = some s' ∧ Visited s0 (V ∪ rowCells s0 y) s' ∧
      s'.workQueue = s.workQueue := by
  obtain ⟨s', hrun, hInv, hq⟩ := forLoopBreak_inv (fun s1 : Solver K => s1.workQueue.isAborted)
    (fun x s1 => pixelStep s1 x (y : Int))
    (fun x t => Visited s0
      (V ∪ (Finset.range x).image fun x1 => y * s0.m_width.toNat + x1) t ∧
      t.workQueue = s.workQueue)
    (fun _ t ht => ht.1.not_aborted) s0.m_width.toNat 0 s
    (by
      intro x t _ hx ht
      have hfresh : y * s0.m_width.toNat + x ∉
          V ∪ (Finset.range x).image fun x1 => y * s0.m_width.toNat + x1 := by
        intro hc
        rcases Finset.mem_union.mp hc with hc | hc
        · exact hnew x (by omega) hc
        · obtain ⟨x1, hx1, he⟩ := Finset.mem_image.mp hc
          have := Finset.mem_range.mp hx1
          omega
      obtain ⟨t', hstep, hInv, hq⟩ := pixelStep_visited hready (by omega) hy hfresh ht.1
      refine ⟨t', hstep, hInv.congr ?_, hq.trans ht.2⟩
      rw [Finset.range_succ, Finset.image_insert, Finset.union_insert])
    ⟨h.congr (by rw [Finset.range_zero, Finset.image_empty, Finset.union_empty]), rfl⟩
  refine ⟨s', ?_, ?_, hq⟩
  · unfold rowLoop
    rw [h.width_eq]
    exact hrun
  · refine hInv.congr ?_
    unfold rowCells
    rw [Nat.zero_add]

/-- The rows of `order`, distinct, below the height and not visited yet, are worked through
whatever their order, and the cells visited are then those of these rows. -/
theorem rowsInOrder_visited {s0 : Solver K} (hready : PassReady s0) :
    ∀ (order : List Nat) (V : Finset Nat) (s : Solver K), order.Nodup →
      (∀ y ∈ order, y < s0.m_height.toNat) →
      (∀ y ∈ order, ∀ x, x < s0.m_width.toNat → y * s0.m_width.toNat + x ∉ V) →
      Visited s0 V s →
      ∃ s', rowsInOrder order s = some s' ∧
        Visited s0 (V ∪ order.toFinset.biUnion (rowCells s0)) s' ∧
        s'.workQueue = s.workQueue := by
  intro order
  induction order with
  | nil =>
    intro V s _ _ _ h
    refine ⟨s, rfl, h.congr ?_, rfl⟩
    simp
  | cons y ys ih =>
    intro V s hnodup hlt hnew h
    obtain ⟨hy, hys⟩ := List.nodup_cons.mp hnodup
    obtain ⟨s1, hrow, hvis1, hq1⟩ := rowLoop_visited hready
      (hlt y (List.mem_cons_self _ _)) (hnew y (List.mem_cons_self _ _)) h
    obtain ⟨s', hrest, hvis', hq'⟩ := ih (V ∪ rowCells s0 y) s1 hys
      (fun y' hy' => hlt y' (List.mem_cons_of_mem _ hy'))
      (by
        intro y' hy' x hx hc
        rcases Finset.mem_union.mp hc with hc | hc
        · exact hnew y' (List.mem_cons_of_mem _ hy') x hx hc
        · unfold rowCells at hc
          obtain ⟨x1, hx1, he⟩ := Finset.mem_image.mp hc
          have hx1' := Finset.mem_range.mp hx1
          have := (Grid2d.flat_inj hx1' hx he).2
          exact hy (this ▸ hy'))
      hvis1
    refine ⟨s', ?_, hvis'.congr ?_, hq'.trans hq1⟩
    · rw [rowsInOrder, hrow]
      exact hrest
    · rw [List.toFinset_cons, Finset.biUnion_insert, Finset.union_assoc]

end Solver

namespace Solver

variable {K : Type}

/-- Soundness does not depend on the work queue. -/
theorem Sound.anyQueue {s : Solver K} (h : Sound s) (q : WorkQueue) :
    Sound { s with workQueue := q } :=
  { width_nonneg := h.width_nonneg, width_lt := h.width_lt, height_nonneg := h.height_nonneg,
    height_lt := h.height_lt, maximum_nonneg := h.maximum_nonneg, maximum_lt := h.maximum_lt,
    grid_shaped := h.grid_shaped, iteration_shaped := h.iteration_shaped,
    magnitude_shaped := h.magnitude_shaped, counter_length := h.counter_length,
    count_nonneg := h.count_nonneg, count_le := h.count_le, iterations := h.iterations }

/-- The queue as `startPass` sets it up is not aborted, whatever it was before. -/
theorem startPass_not_aborted (s : Solver K) : (startPass s).workQueue.isAborted = false :=
  WorkQueue.isAborted_of_le (Nat.zero_le _)

/-- The cells of all rows are the offsets below `width * height`. -/
theorem mem_allCells (s : Solver K) (i : Nat) :
    i ∈ allCells s ↔ i < s.m_width.toNat * s.m_height.toNat := by
  unfold allCells rowCells
  simp only [Finset.mem_biUnion, Finset.mem_range, Finset.mem_image]
  constructor
  · rintro ⟨y, hy, x, hx, rfl⟩
    exact Grid2d.flat_lt hx hy
  · intro hi
    have hW : 0 < s.m_width.toNat := by
      rcases Nat.eq_zero_or_pos s.m_width.toNat with h0 | h0
      · rw [h0, Nat.zero_mul] at hi
        exact absurd hi (Nat.not_lt_zero i)
      · exact h0
    refine ⟨i / s.m_width.toNat, Nat.div_lt_of_lt_mul hi, i % s.m_width.toNat,
      Nat.mod_lt i hW, ?_⟩
    rw [Nat.mul_comm]
    exact Nat.div_add_mod i s.m_width.toNat

/-- No cell of row `y` lies in an earlier row. -/
theorem rowCells_fresh (s : Solver K) {y x : Nat} (hx : x < s.m_width.toNat) :
    y * s.m_width.toNat + x ∉ (Finset.range y).biUnion (rowCells s) := by
  intro hc
  unfold rowCells at hc
  simp only [Finset.mem_biUnion, Finset.mem_range, Finset.mem_image] at hc
  obtain ⟨y1, hy1, x1, hx1, he⟩ := hc
  have := (Grid2d.flat_inj hx1 hx he).2
  omega

end Solver

namespace Solver

variable {K : Type} [LinearOrderedField K]

/-- A worker that finds the cursor at row `y`, the rows before it visited, works through the
rows `y .. height - 1`. -/
theorem rowIteratorLoop_visited {s0 : Solver K} (hready : PassReady s0) :
    ∀ (fuel y : Nat) (s : Solver K), y ≤ s0.m_height.toNat → s0.m_height.toNat - y < fuel →
      Visited s0 ((Finset.range y).biUnion (rowCells s0)) s → s.workQueue.nextTask = y →
      s.workQueue.taskCount = s0.m_height.toNat →
      ∃ s', rowIteratorLoop fuel s = some s' ∧ Visited s0 (allCells s0) s' ∧
        s'.workQueue.nextTask = s0.m_height.toNat ∧
        s'.workQueue.taskCount = s0.m_height.toNat := by
  have hH : s0.m_height.toNat < 2 ^ 31 := toNat_lt_of_lt hready.2.2.2.1
  intro fuel
  induction fuel with
  | zero =>
    intro y s _ hfuel
    omega
  | succ fuel ih =>
    intro y s hy hfuel hInv hnext hcount
    rw [rowIteratorLoop]
    by_cases hlt : y < s0.m_height.toNat
    · have hget := WorkQueue.getTask_of_lt (q := s.workQueue) (by omega) (by omega)
      simp only [hget, hnext]
      rw [if_neg (by omega)]
      obtain ⟨s2, hrow, hInv2, hq2⟩ := rowLoop_visited hready hlt
        (fun x hx => rowCells_fresh s0 hx)
        (hInv.changeQueue { s.workQueue with nextTask := y + 1 }
          (WorkQueue.isAborted_of_le (show y + 1 ≤ s.workQueue.taskCount by omega)))
      rw [hrow]
      refine ih (y + 1) s2 (by omega) (by omega) (hInv2.congr ?_) (by rw [hq2])
        (by rw [hq2]; exact hcount)
      rw [Finset.range_succ, Finset.biUnion_insert, Finset.union_comm]
    · have hyH : y = s0.m_height.toNat := by omega
      have hget := WorkQueue.getTask_of_ge (q := s.workQueue) (by omega)
      simp only [hget]
      rw [if_pos trivial]
      refine ⟨_, rfl, ?_, ?_, hcount⟩
      · unfold allCells
        rw [← hyH]; exact hInv
      · rw [← hyH]; exact hnext

/-- One or more workers, started on a ready state with the queue set up for the pass and not
aborted, visit every cell once. -/
theorem workers_visited {s0 : Solver K} (hready : PassReady s0) :
    ∀ (threadCount y : Nat) (s : Solver K), y ≤ s0.m_height.toNat →
      (threadCount = 0 → y = s0.m_height.toNat) →
      Visited s0 ((Finset.range y).biUnion (rowCells s0)) s → s.workQueue.nextTask = y →
      s.workQueue.taskCount = s0.m_height.toNat →
      ∃ s', workers threadCount s = some s' ∧ Visited s0 (allCells s0) s' := by
  intro threadCount
  induction threadCount with
  | zero =>
    intro y s _ h0 hInv _ _
    refine ⟨s, rfl, ?_⟩
    unfold allCells
    rw [← h0 rfl]; exact hInv
  | succ threadCount ih =>
    intro y s hy _ hInv hnext hcount
    obtain ⟨s1, hrun, hInv1, hnext1, hcount1⟩ := rowIteratorLoop_visited hready
      (s.workQueue.taskCount + 1) y s hy (by omega) hInv hnext hcount
    obtain ⟨s', hrest, hInv'⟩ := ih s0.m_height.toNat s1 (le_refl _) (fun _ => rfl) hInv1
      hnext1 hcount1
    refine ⟨s', ?_, hInv'⟩
    rw [workers]
    have hrun' : rowIterator s = some s1 := hrun
    rw [hrun']
    exact hrest

/-- The workers of a pass started by `startPass` on a ready state return, having visited every
cell once. -/
theorem workers_startPass_visited {s0 : Solver K} (hready : PassReady s0)
    {threadCount : Nat} (htc : 0 < threadCount) :
    ∃ s', workers threadCount (startPass s0) = some s' ∧ Visited s0 (allCells s0) s' := by
  have hH : toUInt32 s0.m_height = s0.m_height.toNat :=
    toUInt32_of_nonneg hready.2.2.1 hready.2.2.2.1
  refine workers_visited hready threadCount 0 (startPass s0) (Nat.zero_le _) (by omega)
    ((hready.visited _ ?_).congr ?_) rfl ?_
  · exact startPass_not_aborted s0
  · rw [Finset.range_zero, Finset.biUnion_empty]
  · show toUInt32 s0.m_height = _
    exact hH

/-- With the queue aborted the column loop leaves at once. -/
theorem rowLoop_aborted {s : Solver K} (h : s.workQueue.isAborted = true) (y : Int) :
    rowLoop s y = some s := by
  unfold rowLoop
  cases s.m_width.toNat with
  | zero => rfl
  | succ n => rw [forLoopBreak, if_pos h]

/-- With the queue aborted the rows are passed over, in whatever order. -/
theorem rowsInOrder_aborted {s : Solver K} (h : s.workQueue.isAborted = true)
    (order : List Nat) : rowsInOrder order s = some s := by
  induction order with
  | nil => rfl
  | cons y ys ih => rw [rowsInOrder, rowLoop_aborted h]; exact ih

/-- The sample solver after `resetGrid` is ready for a pass. -/
theorem sampleReady_passReady : PassReady sampleReady := by
  refine ⟨by decide, by decide, by decide, by decide,
    ⟨rfl, rfl, by decide, by decide⟩, ⟨rfl, rfl, by decide, by decide⟩,
    ⟨rfl, rfl, by decide, by decide⟩, ?_⟩
  intro x y m n _ hn _
  have hn' : Grid2d.get (⟨3, 2, List.replicate 6 0⟩ : Grid2d Int) x y = some n := hn
  unfold Grid2d.get at hn'
  split at hn'
  · have hmem := List.getElem?_mem hn'
    have h0 : n = 0 := List.eq_of_mem_replicate hmem
    subst h0
    decide
  · exact absurd hn' (by simp)

/-- On a ready state whose queue is not aborted, the rows `0 .. height - 1` taken once each in
any order are all worked through, and every cell has then been visited once. -/
theorem rowsInOrder_all {s : Solver K} (hready : PassReady s)
    (hq : s.workQueue.isAborted = false) (order : List Nat)
    (h : order.Perm (List.range s.m_height.toNat)) :
    ∃ s', rowsInOrder order s = some s' ∧ Visited s (allCells s) s' := by
  obtain ⟨s', hrun, hvis, -⟩ := rowsInOrder_visited hready order ∅ s
    (h.nodup_iff.mpr (List.nodup_range _))
    (fun y hy => List.mem_range.mp (h.mem_iff.mp hy))
    (fun _ _ _ _ => Finset.not_mem_empty _)
    (hready.visited s.workQueue hq)
  refine ⟨s', hrun, hvis.congr ?_⟩
  have hrange : (List.range s.m_height.toNat).toFinset = Finset.range s.m_height.toNat := by
    ext i
    rw [List.mem_toFinset, List.mem_range, Finset.mem_range]
  rw [Finset.empty_union, List.toFinset_eq_of_perm _ _ h, hrange]
  rfl

/-- A sound state that has not reached the iteration maximum is ready for a pass. -/
theorem Sound.passReady {s : Solver K} (h : Sound s)
    (hlt : s.m_iterationCount < s.m_iterationMaximum) : PassReady s := by
  refine ⟨h.width_nonneg, h.width_lt, h.height_nonneg, h.height_lt, h.grid_shaped,
    h.iteration_shaped, h.magnitude_shaped, ?_⟩
  intro x y m n _ hn _
  unfold Grid2d.get at hn
  split at hn
  · obtain ⟨h0, h1⟩ := h.iterations _ n hn
    rw [h.counter_length]
    exact ⟨h0, by omega⟩
  · exact absurd hn (by simp)

/-- On a solver whose dimensions and iteration maximum are non-negative `int` values,
`resetGrid` returns a sound state. -/
theorem resetGrid_sound (s : Solver K) (hw0 : 0 ≤ s.m_width) (hw1 : s.m_width < 2 ^ 31)
    (hh0 : 0 ≤ s.m_height) (hh1 : s.m_height < 2 ^ 31) (hm0 : 0 ≤ s.m_iterationMaximum)
    (hm1 : s.m_iterationMaximum < 2 ^ 31) :
    ∃ s', resetGrid s = some s' ∧ Sound s' := by
  obtain ⟨grid, hshape, -, -, hrun⟩ := resetGrid_spec s hw0 hw1 hh0 hh1
  have hcells := cells_lt_SIZE_MOD (toNat_lt_of_lt hw1) (toNat_lt_of_lt hh1)
  refine ⟨_, hrun, ?_⟩
  exact
    { width_nonneg := hw0, width_lt := hw1, height_nonneg := hh0, height_lt := hh1,
      maximum_nonneg := hm0, maximum_lt := hm1, grid_shaped := hshape,
      iteration_shaped := ⟨rfl, rfl, by simp, hcells⟩,
      magnitude_shaped := ⟨rfl, rfl, by simp, hcells⟩,
      counter_length := by
        show ((List.replicate (toSizeT s.m_iterationMaximum) (0 : Int)).length : Int) =
          s.m_iterationMaximum
        rw [List.length_replicate, toSizeT_of_nonneg hm0 hm1]
        exact Int.toNat_of_nonneg hm0
      count_nonneg := le_refl _,
      count_le := hm0,
      iterations := by
        intro i k hk
        have hk' : (List.replicate (s.m_width.toNat * s.m_height.toNat) (0 : Int))[i]? =
            some k := hk
        have h0 : k = 0 := List.eq_of_mem_replicate (List.getElem?_mem hk')
        subst h0
        exact ⟨le_refl _, le_refl _⟩ }

/-- On a sound state `iterateGrid` returns, whatever the number of workers and the state of the
queue, and the state it returns is sound, with the same dimensions and iteration maximum. -/
theorem iterateGrid_sound {s : Solver K} (h : Sound s) (threadCount : Nat) :
    ∃ s', iterateGrid threadCount s = some s' ∧ Sound s' ∧ s'.m_width = s.m_width ∧
      s'.m_height = s.m_height ∧ s'.m_iterationMaximum = s.m_iterationMaximum := by
  unfold iterateGrid
  by_cases hlt : s.m_iterationCount < s.m_iterationMaximum
  · rw [if_pos hlt]
    have hH : toUInt32 s.m_height = s.m_height.toNat :=
      toUInt32_of_nonneg h.height_nonneg h.height_lt
    have hab := startPass_not_aborted s
    rcases Nat.eq_zero_or_pos threadCount with htc | htc
    · subst htc
      rw [show workers 0 (startPass s) = some (startPass s) from rfl]
      have hab' : (startPass s).workQueue.isAborted = false := hab
      simp only [hab', Bool.not_false, if_true]
      refine ⟨_, rfl, ?_, rfl, rfl, rfl⟩
      exact
        { width_nonneg := h.width_nonneg, width_lt := h.width_lt,
          height_nonneg := h.height_nonneg, height_lt := h.height_lt,
          maximum_nonneg := h.maximum_nonneg, maximum_lt := h.maximum_lt,
          grid_shaped := h.grid_shaped, iteration_shaped := h.iteration_shaped,
          magnitude_shaped := h.magnitude_shaped, counter_length := h.counter_length,
          count_nonneg := by
            show 0 ≤ s.m_iterationCount + 1
            have := h.count_nonneg
            omega
          count_le := by
            show s.m_iterationCount + 1 ≤ s.m_iterationMaximum
            omega
          iterations := by
            intro i k hk
            obtain ⟨h0, h1⟩ := h.iterations i k hk
            refine ⟨h0, ?_⟩
            show k ≤ s.m_iterationCount + 1
            omega }
    · have hready := h.passReady hlt
      obtain ⟨s1, hrun, hvis⟩ := workers_startPass_visited hready htc
      obtain ⟨hc1, hm1⟩ := workers_iterationCount hrun
      have hc1' : s1.m_iterationCount = s.m_iterationCount := hc1
      have hm1' : s1.m_iterationMaximum = s.m_iterationMaximum := hm1
      rw [hrun]
      simp only [hvis.not_aborted, Bool.not_false, if_true]
      refine ⟨_, rfl, ?_, hvis.width_eq, hvis.height_eq, hm1'⟩
      exact
        { width_nonneg := by
            show 0 ≤ s1.m_width
            rw [hvis.width_eq]; exact h.width_nonneg
          width_lt := by
            show s1.m_width < 2 ^ 31
            rw [hvis.width_eq]; exact h.width_lt
          height_nonneg := by
            show 0 ≤ s1.m_height
            rw [hvis.height_eq]; exact h.height_nonneg
          height_lt := by
            show s1.m_height < 2 ^ 31
            rw [hvis.height_eq]; exact h.height_lt
          maximum_nonneg := by
            show 0 ≤ s1.m_iterationMaximum
            rw [hm1']; exact h.maximum_nonneg
          maximum_lt := by
            show s1.m_iterationMaximum < 2 ^ 31
            rw [hm1']; exact h.maximum_lt
          grid_shaped := by
            show s1.m_grid.Shaped s1.m_width.toNat s1.m_height.toNat
            rw [hvis.width_eq, hvis.height_eq]; exact hvis.grid_shaped
          iteration_shaped := by
            show s1.m_iterationGrid.Shaped s1.m_width.toNat s1.m_height.toNat
            rw [hvis.width_eq, hvis.height_eq]; exact hvis.iteration_shaped
          magnitude_shaped := by
            show s1.m_magnitudeSquaredGrid.Shaped s1.m_width.toNat s1.m_height.toNat
            rw [hvis.width_eq, hvis.height_eq]; exact hvis.magnitude_shaped
          counter_length := by
            show (s1.escapeIterationCounter.length : Int) = s1.m_iterationMaximum
            rw [hvis.counter_length, hm1']; exact h.counter_length
          count_nonneg := by
            show 0 ≤ s1.m_iterationCount + 1
            have := h.count_nonneg
            omega
          count_le := by
            show s1.m_iterationCount + 1 ≤ s1.m_iterationMaximum
            omega
          iterations := by
            intro i k hk
            have hk' : s1.m_iterationGrid.data[i]? = some k := hk
            show 0 ≤ k ∧ k ≤ s1.m_iterationCount + 1
            by_cases hi : i < s.m_width.toNat * s.m_height.toNat
            · have hz := List.getElem?_eq_getElem (show i < s.m_grid.data.length by
                rw [h.grid_shaped.2.2.1]; exact hi)
              have hm := List.getElem?_eq_getElem
                (show i < s.m_magnitudeSquaredGrid.data.length by
                  rw [h.magnitude_shaped.2.2.1]; exact hi)
              have hk0 := List.getElem?_eq_getElem (show i < s.m_iterationGrid.data.length by
                rw [h.iteration_shaped.2.2.1]; exact hi)
              obtain ⟨-, -, c3⟩ := hvis.cells i _ _ _ hz hm hk0
              obtain ⟨b0, b1⟩ := h.iterations i _ hk0
              rw [c3] at hk'
              simp only [Option.some.injEq] at hk'
              rw [← hk']
              split <;> constructor <;> omega
            · rw [List.getElem?_eq_none (by
                rw [hvis.iteration_shaped.2.2.1]; omega)] at hk'
              exact absurd hk' (by simp) }
  · rw [if_neg hlt]
    exact ⟨s, rfl, h, rfl, rfl, rfl⟩

/-- A mutating operation run on a solver whose dimensions and iteration maximum are
non-negative `int` values leaves a sound state, with the same iteration maximum. -/
theorem Mutation.leavesSound {s s' : Solver K} (h : Mutation s s') (hw0 : 0 ≤ s.m_width)
    (hw1 : s.m_width < 2 ^ 31) (hh0 : 0 ≤ s.m_height) (hh1 : s.m_height < 2 ^ 31)
    (hm0 : 0 ≤ s.m_iterationMaximum) (hm1 : s.m_iterationMaximum < 2 ^ 31) :
    Sound s' ∧ s'.m_iterationMaximum = s.m_iterationMaximum := by
  have key : ∀ t : Solver K, resetGrid t = some s' → 0 ≤ t.m_width → t.m_width < 2 ^ 31 →
      0 ≤ t.m_height → t.m_height < 2 ^ 31 → t.m_iterationMaximum = s.m_iterationMaximum →
      Sound s' ∧ s'.m_iterationMaximum = s.m_iterationMaximum := by
    intro t hrun a1 a2 a3 a4 a5
    obtain ⟨s'', hrun', hsound⟩ := resetGrid_sound t a1 a2 a3 a4 (by rw [a5]; exact hm0)
      (by rw [a5]; exact hm1)
    rw [hrun] at hrun'
    simp only [Option.some.injEq] at hrun'
    subst hrun'
    obtain ⟨-, -, -, -, -, -, -, -, f9, -⟩ := resetGrid_frame hrun
    exact ⟨hsound, f9.trans a5⟩
  cases h with
  | initializeGrid width height viewCenterReal viewCenterImag viewScale b1 b2 b3 b4 hrun =>
    exact key _ hrun b1 b2 b3 b4 rfl
  | toggleJulia hrun =>
    unfold Solver.toggleJulia at hrun
    cases hf : s.m_currentFractal with
    | true =>
      simp only [hf, if_true] at hrun
      exact key _ hrun hw0 hw1 hh0 hh1 rfl
    | false =>
      simp only [hf] at hrun
      exact key _ hrun hw0 hw1 hh0 hh1 rfl
  | command c hc hrun =>
    cases c with
    | move real imag => exact key _ hrun hw0 hw1 hh0 hh1 rfl
    | zoomIn factor => exact key _ hrun hw0 hw1 hh0 hh1 rfl
    | zoomOut factor => exact key _ hrun hw0 hw1 hh0 hh1 rfl
    | zoomOnPixel x y factor => exact key _ hrun hw0 hw1 hh0 hh1 rfl
    | resizeGrid width height =>
      obtain ⟨b1, b2, b3, b4⟩ := hc
      exact key _ hrun b1 b2 b3 b4 rfl

/-- In every state of the program the dimensions are non-negative `int` values and the
iteration maximum is `8192`; after the first mutating operation the state is sound. -/
theorem Operated.isSound {b : Bool} {s : Solver K} (h : Operated b s) :
    (0 ≤ s.m_width ∧ s.m_width < 2 ^ 31 ∧ 0 ≤ s.m_height ∧ s.m_height < 2 ^ 31 ∧
      s.m_iterationMaximum = 8192) ∧ (b = true → Sound s) := by
  induction h with
  | init escapeCount0 queue0 =>
    refine ⟨⟨?_, ?_, ?_, ?_, rfl⟩, fun hb => absurd hb (by simp)⟩
    · show (0 : Int) ≤ 1
      decide
    · show (1 : Int) < 2 ^ 31
      decide
    · show (0 : Int) ≤ 1
      decide
    · show (1 : Int) < 2 ^ 31
      decide
  | mutation hprev hmut ih =>
    obtain ⟨⟨a1, a2, a3, a4, a5⟩, -⟩ := ih
    obtain ⟨hsound, hmax⟩ := hmut.leavesSound a1 a2 a3 a4 (by rw [a5]; decide) (by rw [a5]; decide)
    exact ⟨⟨hsound.width_nonneg, hsound.width_lt, hsound.height_nonneg, hsound.height_lt,
      hmax.trans a5⟩, fun _ => hsound⟩
  | iterateGrid threadCount queue hprev hrun ih =>
    obtain ⟨hbase, hsound⟩ := ih
    refine ⟨?_, ?_⟩
    · refine iterateGrid_preserves
        (fun t : Solver K => 0 ≤ t.m_width ∧ t.m_width < 2 ^ 31 ∧ 0 ≤ t.m_height ∧
          t.m_height < 2 ^ 31 ∧ t.m_iterationMaximum = 8192) ?_ ?_ ?_ hrun hbase
      · intro t t' x y ht hP
        rcases pixelStep_cases ht with h1 | ⟨_, _, _, h1⟩ | ⟨_, _, _, _, _, _, h1⟩ <;>
          (subst h1; exact hP)
      · intro t q hP
        exact hP
      · intro t c hP
        exact hP
    · intro hb
      obtain ⟨s'', hrun', hsound', -⟩ := iterateGrid_sound ((hsound hb).anyQueue queue)
        threadCount
      rw [hrun] at hrun'
      simp only [Option.some.injEq] at hrun'
      subst hrun'
      exact hsound'

/-- Every state reached from `resetGrid` by calls of `iterateGrid` is sound, when the solver's
dimensions and iteration maximum are non-negative `int` values. -/
theorem ReachedByIterations.staysSound {s0 s : Solver K} (h : ReachedByIterations s0 s)
    (hw0 : 0 ≤ s0.m_width) (hw1 : s0.m_width < 2 ^ 31) (hh0 : 0 ≤ s0.m_height)
    (hh1 : s0.m_height < 2 ^ 31) (hm0 : 0 ≤ s0.m_iterationMaximum)
    (hm1 : s0.m_iterationMaximum < 2 ^ 31) : Sound s := by
  induction h with
  | reset hrun =>
    obtain ⟨s'', hrun', hsound⟩ := resetGrid_sound s0 hw0 hw1 hh0 hh1 hm0 hm1
    rw [hrun] at hrun'
    simp only [Option.some.injEq] at hrun'
    subst hrun'
    exact hsound
  | iterate threadCount queue hprev hrun ih =>
    obtain ⟨s'', hrun', hsound', -⟩ := iterateGrid_sound (ih.anyQueue queue) threadCount
    rw [hrun] at hrun'
    simp only [Option.some.injEq] at hrun'
    subst hrun'
    exact hsound'

/-- Counting the elements with one of two properties that exclude each other. -/
theorem card_filter_or_of_disjoint (S : Finset Nat) (A B C : Nat → Prop) [DecidablePred A]
    [DecidablePred B] [DecidablePred C] (hiff : ∀ i ∈ S, C i ↔ A i ∨ B i)
    (hdisj : ∀ i ∈ S, A i → ¬ B i) :
    ((S.filter C).card : Int) = ((S.filter A).card : Int) + ((S.filter B).card : Int) := by
  rw [Finset.filter_congr hiff, Finset.filter_or,
    Finset.card_union_of_disjoint (Finset.disjoint_filter.mpr hdisj)]
  push_cast
  rfl

/-- What a full pass does to the escape status and the iteration count of one cell. -/
theorem Visited.escaped_cases {p s1 : Solver K} (hp : Sound p)
    (hvis : Visited p (allCells p) s1) {i : Nat}
    (hi : i < p.m_width.toNat * p.m_height.toNat) :
    (activeAt p i = true → escapedAt p i = false ∧ escapedAt s1 i = escapesAt p i ∧
      iterationAt s1 i = iterationAt p i + 1 ∧ (bucketAt p i : Int) = iterationAt p i) ∧
    (activeAt p i = false → escapedAt p i = true ∧ escapedAt s1 i = true ∧
      iterationAt s1 i = iterationAt p i ∧ escapesAt p i = false) := by
  have hzlen : i < p.m_grid.data.length := by
    rw [hp.grid_shaped.2.2.1]; exact hi
  have hmlen : i < p.m_magnitudeSquaredGrid.data.length := by
    rw [hp.magnitude_shaped.2.2.1]; exact hi
  have hklen : i < p.m_iterationGrid.data.length := by
    rw [hp.iteration_shaped.2.2.1]; exact hi
  have hz := List.getElem?_eq_getElem hzlen
  have hm := List.getElem?_eq_getElem hmlen
  have hk := List.getElem?_eq_getElem hklen
  generalize p.m_grid.data[i] = z at hz
  generalize p.m_magnitudeSquaredGrid.data[i] = m at hm
  generalize p.m_iterationGrid.data[i] = k at hk
  obtain ⟨-, c2, c3⟩ := hvis.cells i z m k hz hm hk
  obtain ⟨k0, k1⟩ := hp.iterations i k hk
  have hmem : i ∈ allCells p := (mem_allCells p i).mpr hi
  have hr := hvis.radius_eq
  unfold activeAt escapedAt escapesAt activeAt steppedAt iterationAt bucketAt
  rw [hm, hz, hk, c2, c3]
  by_cases hle : m ≤ p.m_escapeRadius * p.m_escapeRadius
  · rw [if_pos ⟨hmem, hle⟩, if_pos ⟨hmem, hle⟩]
    refine ⟨fun _ => ⟨?_, ?_, rfl, ?_⟩, fun hc => ?_⟩
    · simp only [decide_eq_false_iff_not, not_lt]
      exact hle
    · simp only [hr, hle, decide_True, Bool.true_and]
    · have h1 : k + 1 - 1 = k := by omega
      show ((toSizeT (k + 1 - 1) : Nat) : Int) = k
      rw [h1, toSizeT_of_nonneg k0 (by have := hp.count_le; have := hp.maximum_lt; omega)]
      exact Int.toNat_of_nonneg k0
    · simp only [decide_eq_false_iff_not] at hc
      exact absurd hle hc
  · have hn : ¬ (i ∈ allCells p ∧ m ≤ p.m_escapeRadius * p.m_escapeRadius) :=
      fun hc => hle hc.2
    rw [if_neg hn, if_neg hn]
    refine ⟨fun hc => ?_, fun _ => ⟨?_, ?_, rfl, ?_⟩⟩
    · simp only [decide_eq_true_eq] at hc
      exact absurd hc hle
    · simp only [decide_eq_true_eq]
      exact not_le.mp hle
    · simp only [hr, decide_eq_true_eq]
      exact not_le.mp hle
    · simp only [hle, decide_False, Bool.false_and]

/-- A full pass keeps the escape count and the histogram in step with the grids. -/
theorem Visited.counted {p s1 : Solver K} (hp : Sound p) (hc : Counted p)
    (hvis : Visited p (allCells p) s1) : Counted s1 := by
  have hall : allCells p = Finset.range (p.m_width.toNat * p.m_height.toNat) :=
    Finset.ext fun i => by rw [mem_allCells, Finset.mem_range]
  unfold Counted
  rw [hvis.width_eq, hvis.height_eq]
  constructor
  · rw [hvis.escapeCount_eq, hc.1, hall]
    symm
    refine card_filter_or_of_disjoint _ (fun i => escapedAt p i = true)
      (fun i => escapesAt p i = true) (fun i => escapedAt s1 i = true) ?_ ?_
    · intro i hi
      obtain ⟨ha, hb⟩ := hvis.escaped_cases hp (Finset.mem_range.mp hi)
      cases hact : activeAt p i with
      | true =>
        obtain ⟨e1, e2, -, -⟩ := ha hact
        simp only [e1, e2, Bool.false_eq_true, false_or]
      | false =>
        obtain ⟨e1, e2, -, e4⟩ := hb hact
        simp only [e1, e2, e4, Bool.false_eq_true, or_false]
    · intro i hi h1 h2
      obtain ⟨ha, hb⟩ := hvis.escaped_cases hp (Finset.mem_range.mp hi)
      cases hact : activeAt p i with
      | true =>
        obtain ⟨e1, -⟩ := ha hact
        rw [e1] at h1
        exact absurd h1 (by simp)
      | false =>
        obtain ⟨-, -, -, e4⟩ := hb hact
        rw [e4] at h2
        exact absurd h2 (by simp)
  · intro j b hb
    by_cases hj : j < p.escapeIterationCounter.length
    · have hb0 := List.getElem?_eq_getElem hj
      generalize p.escapeIterationCounter[j] = b0 at hb0
      rw [hvis.buckets j b0 hb0] at hb
      simp only [Option.some.injEq] at hb
      rw [← hb, hc.2 j b0 hb0, hall]
      symm
      refine card_filter_or_of_disjoint _
        (fun i => escapedAt p i = true ∧ iterationAt p i = (j : Int) + 1)
        (fun i => escapesAt p i = true ∧ bucketAt p i = j)
        (fun i => escapedAt s1 i = true ∧ iterationAt s1 i = (j : Int) + 1) ?_ ?_
      · intro i hi
        obtain ⟨ha, hb⟩ := hvis.escaped_cases hp (Finset.mem_range.mp hi)
        cases hact : activeAt p i with
        | true =>
          obtain ⟨e1, e2, e3, e4⟩ := ha hact
          simp only [e1, e2, e3, Bool.false_eq_true, false_and, false_or]
          constructor
          · rintro ⟨h1, h2⟩
            exact ⟨h1, by omega⟩
          · rintro ⟨h1, h2⟩
            exact ⟨h1, by omega⟩
        | false =>
          obtain ⟨e1, e2, e3, e4⟩ := hb hact
          simp only [e1, e2, e3, e4, Bool.false_eq_true, false_and, or_false]
      · intro i hi h1 h2
        obtain ⟨ha, hb⟩ := hvis.escaped_cases hp (Finset.mem_range.mp hi)
        cases hact : activeAt p i with
        | true =>
          obtain ⟨e1, -⟩ := ha hact
          rw [e1] at h1
          exact absurd h1.1 (by simp)
        | false =>
          obtain ⟨-, -, -, e4⟩ := hb hact
          rw [e4] at h2
          exact absurd h2.1 (by simp)
    · rw [List.getElem?_eq_none (by rw [hvis.counter_length]; omega)] at hb
      exact absurd hb (by simp)

/-- The constant of the row step reads the view state, the mode and the Julia constant only. -/
theorem stepConstant_congr {s t : Solver K} (h1 : t.m_width = s.m_width)
    (h2 : t.m_height = s.m_height) (h3 : t.aspectRatio = s.aspectRatio)
    (h4 : t.m_viewCenter = s.m_viewCenter) (h5 : t.m_viewScale = s.m_viewScale)
    (h6 : t.m_escapeRadius = s.m_escapeRadius) (h7 : t.m_currentFractal = s.m_currentFractal)
    (h8 : t.m_juliaConstant = s.m_juliaConstant) (i : Nat) :
    stepConstant t i = stepConstant s i := by
  unfold stepConstant
  rw [h7, h8, h1, mapToComplex_congr h1 h2 h3 h4 h5 h6]

/-- A call of `iterateGrid` below the iteration maximum on a sound state, with at least one
worker and the queue not aborted, is a full pass followed by the increment of the iteration
count. -/
theorem iterateGrid_visited {s : Solver K} (h : Sound s)
    (hlt : s.m_iterationCount < s.m_iterationMaximum)
    {threadCount : Nat} (htc : 0 < threadCount) :
    ∃ s1, iterateGrid threadCount s
        = some { s1 with m_iterationCount := s.m_iterationCount + 1 } ∧
      Visited s (allCells s) s1 := by
  obtain ⟨s1, hrun, hvis⟩ := workers_startPass_visited (h.passReady hlt) htc
  obtain ⟨hc1, -⟩ := workers_iterationCount hrun
  have hc1' : s1.m_iterationCount = s.m_iterationCount := hc1
  refine ⟨s1, ?_, hvis⟩
  unfold iterateGrid
  rw [if_pos hlt, hrun]
  simp only [hvis.not_aborted, Bool.not_false, if_true, hc1']

/-- The cells of the state left by `resetGrid`: iteration count `0`, squared magnitude `0`, and
a seed value. -/
theorem resetGrid_cells {s s' : Solver K} (h : resetGrid s = some s') (hw0 : 0 ≤ s.m_width)
    (hw1 : s.m_width < 2 ^ 31) (hh0 : 0 ≤ s.m_height) (hh1 : s.m_height < 2 ^ 31) (i : Nat)
    (hi : i < s.m_width.toNat * s.m_height.toNat) :
    s'.m_iterationGrid.data[i]? = some 0 ∧ s'.m_magnitudeSquaredGrid.data[i]? = some 0 ∧
    ∃ z, s'.m_grid.data[i]? = some z := by
  obtain ⟨grid, hshape, -, -, hrun⟩ := resetGrid_spec s hw0 hw1 hh0 hh1
  rw [h] at hrun
  simp only [Option.some.injEq] at hrun
  subst hrun
  refine ⟨?_, ?_, ?_⟩
  · show (List.replicate (s.m_width.toNat * s.m_height.toNat) (0 : Int))[i]? = some 0
    rw [List.getElem?_replicate, if_pos hi]
  · show (List.replicate (s.m_width.toNat * s.m_height.toNat) (0 : K))[i]? = some 0
    rw [List.getElem?_replicate, if_pos hi]
  · have hlen : i < grid.data.length := by rw [hshape.2.2.1]; exact hi
    exact ⟨_, List.getElem?_eq_getElem hlen⟩

/-- The state left by `resetGrid` is the state after `0` passes, with nothing escaped and an
empty histogram. -/
theorem resetGrid_firstEscapes {s0 sr : Solver K} (h : resetGrid s0 = some sr)
    (hw0 : 0 ≤ s0.m_width) (hw1 : s0.m_width < 2 ^ 31) (hh0 : 0 ≤ s0.m_height)
    (hh1 : s0.m_height < 2 ^ 31) : FirstEscapes sr 0 sr ∧ Counted sr := by
  obtain ⟨f1, f2, -, -, -, -, -, -, -, f10, f11, f12, -⟩ := resetGrid_frame h
  have hcells : ∀ i, i < sr.m_width.toNat * sr.m_height.toNat →
      sr.m_iterationGrid.data[i]? = some 0 ∧ sr.m_magnitudeSquaredGrid.data[i]? = some 0 ∧
      ∃ z, sr.m_grid.data[i]? = some z := by
    intro i hi
    rw [f1, f2] at hi
    exact resetGrid_cells h hw0 hw1 hh0 hh1 i hi
  have hnone : ∀ i ∈ Finset.range (sr.m_width.toNat * sr.m_height.toNat),
      ¬ (escapedAt sr i = true) := by
    intro i hi
    obtain ⟨-, hm, -⟩ := hcells i (Finset.mem_range.mp hi)
    unfold escapedAt
    rw [hm]
    simp only [decide_eq_true_eq, not_lt]
    exact mul_self_nonneg _
  constructor
  · refine
      { width_eq := rfl, height_eq := rfl, aspect_eq := rfl, center_eq := rfl,
        scale_eq := rfl, radius_eq := rfl, fractal_eq := rfl, julia_eq := rfl,
        count_eq := by rw [f10]; rfl
        cells := ?_ }
    intro i hi
    obtain ⟨hk, hm, z, hz⟩ := hcells i hi
    refine ⟨0, le_refl _, ?_, hk, ?_, fun j h1 h2 => absurd h2 (Nat.not_lt_zero j),
      Or.inl rfl⟩
    · unfold orbitAt
      rw [hz]
    · rw [if_pos rfl]
      exact hm
  · constructor
    · rw [f11, Finset.filter_eq_empty_iff.mpr hnone]
      rfl
    · intro j b hb
      rw [f12] at hb
      have hb0 : b = 0 := List.eq_of_mem_replicate (List.getElem?_mem hb)
      rw [hb0, Finset.filter_eq_empty_iff.mpr (fun i hi hc => hnone i hi hc.1)]
      rfl

/-- The description of the state after `k` passes does not depend on the work queue. -/
theorem FirstEscapes.ignoresQueue {sr s : Solver K} {k : Nat} (h : FirstEscapes sr k s)
    (q : WorkQueue) : FirstEscapes sr k { s with workQueue := q } :=
  { width_eq := h.width_eq, height_eq := h.height_eq, aspect_eq := h.aspect_eq,
    center_eq := h.center_eq, scale_eq := h.scale_eq, radius_eq := h.radius_eq,
    fractal_eq := h.fractal_eq, julia_eq := h.julia_eq, count_eq := h.count_eq,
    cells := h.cells }

/-- A full pass takes the state after `k` passes to the state after `k + 1` passes. -/
theorem FirstEscapes.pass {sr p s1 : Solver K} {k : Nat} (h : FirstEscapes sr k p)
    (hvis : Visited p (allCells p) s1) :
    FirstEscapes sr (k + 1) { s1 with m_iterationCount := p.m_iterationCount + 1 } := by
  have hconst : ∀ i, stepConstant p i = stepConstant sr i :=
    stepConstant_congr h.width_eq h.height_eq h.aspect_eq h.center_eq h.scale_eq h.radius_eq
      h.fractal_eq h.julia_eq
  refine
    { width_eq := hvis.width_eq.trans h.width_eq
      height_eq := hvis.height_eq.trans h.height_eq
      aspect_eq := hvis.aspect_eq.trans h.aspect_eq
      center_eq := hvis.center_eq.trans h.center_eq
      scale_eq := hvis.scale_eq.trans h.scale_eq
      radius_eq := hvis.radius_eq.trans h.radius_eq
      fractal_eq := hvis.fractal_eq.trans h.fractal_eq
      julia_eq := hvis.julia_eq.trans h.julia_eq
      count_eq := by
        show p.m_iterationCount + 1 = ((k + 1 : Nat) : Int)
        rw [h.count_eq]
        push_cast
        rfl
      cells := ?_ }
  intro i hi
  obtain ⟨n, hn, hz, hk, hm, hbefore, hlast⟩ := h.cells i hi
  have hmem : i ∈ allCells p := by
    rw [mem_allCells, h.width_eq, h.height_eq]; exact hi
  obtain ⟨c1, c2, c3⟩ := hvis.cells i _ _ _ hz hm hk
  rw [h.radius_eq] at c1 c2 c3
  rw [hconst] at c1 c2
  by_cases hle : (if n = 0 then 0 else (orbitAt sr i n).magnitudeSquared)
      ≤ sr.m_escapeRadius * sr.m_escapeRadius
  · rw [if_pos ⟨hmem, hle⟩] at c1 c2 c3
    have hnk : n = k := hlast.resolve_right (not_lt.mpr hle)
    subst hnk
    refine ⟨n + 1, le_refl _, c1, ?_, ?_, ?_, Or.inl rfl⟩
    · show s1.m_iterationGrid.data[i]? = some ((n + 1 : Nat) : Int)
      rw [c3]
      push_cast
      rfl
    · show s1.m_magnitudeSquaredGrid.data[i]? = _
      rw [if_neg (Nat.succ_ne_zero n), c2]
      rfl
    · intro j hj1 hj2
      by_cases hjn : j < n
      · exact hbefore j hj1 hjn
      · have hje : j = n := by omega
        subst hje
        rw [if_neg (by omega)] at hle
        exact hle
  · have hno : ¬ (i ∈ allCells p ∧ (if n = 0 then 0 else (orbitAt sr i n).magnitudeSquared)
        ≤ sr.m_escapeRadius * sr.m_escapeRadius) := fun hc => hle hc.2
    rw [if_neg hno] at c1 c2 c3
    exact ⟨n, by omega, c1, c3, c2, hbefore, Or.inr (not_le.mp hle)⟩

/-- After `k` completed passes the state is sound, the escape count and the histogram are in
step with the grids, and every cell is described by the recurrence. -/
theorem AfterPasses.invariant {s0 sr s : Solver K} {k : Nat} (h : AfterPasses s0 k s)
    (hreset : s0.resetGrid = some sr) (hw0 : 0 ≤ s0.m_width) (hw1 : s0.m_width < 2 ^ 31)
    (hh0 : 0 ≤ s0.m_height) (hh1 : s0.m_height < 2 ^ 31) (hm0 : 0 ≤ s0.m_iterationMaximum)
    (hm1 : s0.m_iterationMaximum < 2 ^ 31) :
    Sound s ∧ Counted s ∧ FirstEscapes sr k s := by
  induction h with
  | reset hrun =>
    rw [hreset] at hrun
    simp only [Option.some.injEq] at hrun
    subst hrun
    obtain ⟨s', hrun', hsound⟩ := resetGrid_sound s0 hw0 hw1 hh0 hh1 hm0 hm1
    rw [hreset] at hrun'
    simp only [Option.some.injEq] at hrun'
    subst hrun'
    obtain ⟨hfe, hc⟩ := resetGrid_firstEscapes hreset hw0 hw1 hh0 hh1
    exact ⟨hsound, hc, hfe⟩
  | pass threadCount queue hprev htc hq hlt hrun ih =>
    obtain ⟨hs, hc, hfe⟩ := ih
    have hp := hs.anyQueue queue
    obtain ⟨s'', hrun', hsound', -⟩ := iterateGrid_sound hp threadCount
    rw [hrun] at hrun'
    simp only [Option.some.injEq] at hrun'
    subst hrun'
    obtain ⟨s1, hrun1, hvis⟩ := iterateGrid_visited hp hlt htc
    rw [hrun] at hrun1
    simp only [Option.some.injEq] at hrun1
    subst hrun1
    have hc1 : Counted s1 := hvis.counted hp hc
    exact ⟨hsound', hc1, (hfe.ignoresQueue queue).pass hvis⟩

/-- Two states that describe the same visited cells of the same pass agree on the grids, the
escape count and the histogram. -/
theorem Visited.unique {s0 s t : Solver K} (hready : PassReady s0) {V : Finset Nat}
    (hs : Visited s0 V s) (ht : Visited s0 V t) :
    s.m_grid = t.m_grid ∧ s.m_magnitudeSquaredGrid = t.m_magnitudeSquaredGrid ∧
    s.m_iterationGrid = t.m_iterationGrid ∧ s.m_escapeCount = t.m_escapeCount ∧
    s.escapeIterationCounter = t.escapeIterationCounter := by
  obtain ⟨-, -, -, -, hg0, hi0, hm0, -⟩ := hready
  have hcell : ∀ i, i < s0.m_width.toNat * s0.m_height.toNat →
      s.m_grid.data[i]? = t.m_grid.data[i]? ∧
      s.m_magnitudeSquaredGrid.data[i]? = t.m_magnitudeSquaredGrid.data[i]? ∧
      s.m_iterationGrid.data[i]? = t.m_iterationGrid.data[i]? := by
    intro i hi
    have hz := List.getElem?_eq_getElem (show i < s0.m_grid.data.length by
      rw [hg0.2.2.1]; exact hi)
    have hm := List.getElem?_eq_getElem (show i < s0.m_magnitudeSquaredGrid.data.length by
      rw [hm0.2.2.1]; exact hi)
    have hk := List.getElem?_eq_getElem (show i < s0.m_iterationGrid.data.length by
      rw [hi0.2.2.1]; exact hi)
    obtain ⟨a1, a2, a3⟩ := hs.cells i _ _ _ hz hm hk
    obtain ⟨b1, b2, b3⟩ := ht.cells i _ _ _ hz hm hk
    exact ⟨a1.trans b1.symm, a2.trans b2.symm, a3.trans b3.symm⟩
  have hgrid : ∀ {T : Type} (g g' : Grid2d T),
      g.Shaped s0.m_width.toNat s0.m_height.toNat →
      g'.Shaped s0.m_width.toNat s0.m_height.toNat →
      (∀ i, i < s0.m_width.toNat * s0.m_height.toNat → g.data[i]? = g'.data[i]?) →
      g = g' := by
    intro T g g' hg hg' hdata
    obtain ⟨w, h, d⟩ := g
    obtain ⟨w', h', d'⟩ := g'
    obtain ⟨e1, e2, e3, -⟩ := hg
    obtain ⟨f1, f2, f3, -⟩ := hg'
    simp only at e1 e2 e3 f1 f2 f3 hdata
    have hd : d = d' := by
      apply List.ext_getElem?
      intro i
      by_cases hi : i < s0.m_width.toNat * s0.m_height.toNat
      · exact hdata i hi
      · rw [List.getElem?_eq_none (by omega), List.getElem?_eq_none (by omega)]
    rw [e1, e2, f1, f2, hd]
  refine ⟨hgrid _ _ hs.grid_shaped ht.grid_shaped fun i hi => (hcell i hi).1,
    hgrid _ _ hs.magnitude_shaped ht.magnitude_shaped fun i hi => (hcell i hi).2.1,
    hgrid _ _ hs.iteration_shaped ht.iteration_shaped fun i hi => (hcell i hi).2.2,
    hs.escapeCount_eq.trans ht.escapeCount_eq.symm, ?_⟩
  apply List.ext_getElem?
  intro j
  by_cases hj : j < s0.escapeIterationCounter.length
  · have hb := List.getElem?_eq_getElem hj
    exact (hs.buckets j _ hb).trans (ht.buckets j _ hb).symm
  · rw [List.getElem?_eq_none (by rw [hs.counter_length]; omega),
      List.getElem?_eq_none (by rw [ht.counter_length]; omega)]

/-! ### The frame snapshot -/

/-- Prefix sums of non-negative buckets do not decrease. -/
theorem sum_take_mono (l : List Int) (hl : ∀ b ∈ l, 0 ≤ b) (i : Nat) :
    ∀ j, i ≤ j → (l.take i).sum ≤ (l.take j).sum := by
  intro j hij
  induction j with
  | zero =>
    have : i = 0 := by omega
    subst this
    exact le_refl _
  | succ j ih =>
    by_cases hi : i = j + 1
    · subst hi; exact le_refl _
    · have h1 := ih (by omega)
      rw [List.take_succ, List.sum_append]
      cases hb : l[j]? with
      | none => simpa using h1
      | some b =>
        have := hl b (List.getElem?_mem hb)
        simp only [Option.toList, List.sum_cons, List.sum_nil, add_zero]
        omega

/-- One iteration of the prefix-sum loop extends the range on which `sums` holds the prefix
sums of the histogram. -/
theorem prefixSumStep_inv (counter : List Int) (len i : Nat) (hi : 1 ≤ i)
    (sums sums' : List Int)
    (hInv : sums.length = len ∧ ∀ j, j < i → sums[j]? = some ((counter.take (j + 1)).sum))
    (h : prefixSumStep counter i sums = some sums') :
    sums'.length = len ∧ ∀ j, j < i + 1 → sums'[j]? = some ((counter.take (j + 1)).sum) := by
  unfold prefixSumStep at h
  simp only [Option.bind_eq_some] at h
  obtain ⟨previous, hprev, bucket, hbucket, h⟩ := h
  by_cases hlt : i < sums.length
  · rw [if_pos hlt] at h
    simp only [Option.some.injEq] at h
    subst h
    refine ⟨by rw [List.length_set]; exact hInv.1, ?_⟩
    intro j hj
    rw [List.getElem?_set]
    by_cases hij : i = j
    · subst hij
      rw [if_pos rfl, if_pos hlt]
      have hp : sums[i - 1]? = some ((counter.take (i - 1 + 1)).sum) := hInv.2 (i - 1) (by omega)
      rw [hprev] at hp
      simp only [Option.some.injEq] at hp
      have hi' : i - 1 + 1 = i := by omega
      rw [hi'] at hp
      obtain ⟨hlen, hget⟩ := List.getElem?_eq_some.mp hbucket
      rw [List.sum_take_succ counter i hlen, hget, hp]
    · rw [if_neg hij]
      exact hInv.2 j (by omega)
  · rw [if_neg hlt] at h
    exact absurd h (by simp)

/-- With a histogram of `len` buckets the prefix-sum loop over the indices `1 .. len - 1`
returns. -/
theorem prefixSumLoop_isSome (counter : List Int) (len : Nat) (hlen : counter.length = len)
    (n : Nat) (hn : 1 + n ≤ len) (sums : List Int)
    (hInv : sums.length = len ∧ ∀ j, j < 1 → sums[j]? = some ((counter.take (j + 1)).sum)) :
    ∃ sums', forLoop (prefixSumStep counter) n 1 sums = some sums' := by
  obtain ⟨sums', h, -⟩ := forLoop_inv (prefixSumStep counter)
    (fun i t => t.length = len ∧ ∀ j, j < i → t[j]? = some ((counter.take (j + 1)).sum)) n 1 sums
    (by
      intro i t hi1 hi2 ht
      have hprev := ht.2 (i - 1) (by omega)
      have hic : i < counter.length := by omega
      have hb : counter[i]? = some counter[i] := List.getElem?_eq_getElem hic
      have hrun : prefixSumStep counter i t
          = some (t.set i ((counter.take (i - 1 + 1)).sum + counter[i])) := by
        unfold prefixSumStep
        rw [hprev, hb]
        simp only [Option.some_bind]
        rw [if_pos (by omega)]
      exact ⟨_, hrun, prefixSumStep_inv counter len i hi1 t _ ht hrun⟩)
    hInv
  exact ⟨sums', h⟩

end Solver

namespace Solver

variable {K : Type}

/-- What a returned frame holds, for a positive `int` iteration maximum. -/
theorem getFrameData_sound {s : Solver K} {sums0 : List Int} {frame : FrameData K}
    (hm0 : 0 < s.m_iterationMaximum) (hm1 : s.m_iterationMaximum < 2 ^ 31)
    (h : getFrameData s sums0 = some frame) :
    frame.iterationCount = s.m_iterationCount ∧ frame.escapeCount = s.m_escapeCount ∧
    frame.magnitudeSquaredGrid = s.m_magnitudeSquaredGrid ∧
    frame.iterationGrid = s.m_iterationGrid ∧
    frame.escapeIterationCounterSums.length = s.m_iterationMaximum.toNat ∧
    ∀ i, i < s.m_iterationMaximum.toNat →
      frame.escapeIterationCounterSums[i]? = some ((s.escapeIterationCounter.take (i + 1)).sum) := by
  unfold getFrameData at h
  by_cases hc : s.m_iterationCount = 0
  · rw [if_pos hc] at h; exact absurd h (by simp)
  rw [if_neg hc] at h
  by_cases hq : s.workQueue.isAborted = true
  · rw [if_pos hq] at h; exact absurd h (by simp)
  rw [if_neg hq] at h
  simp only [Option.bind_eq_some] at h
  obtain ⟨first, hfirst, h⟩ := h
  by_cases hpos : 0 < (vectorResize sums0 (toSizeT s.m_iterationMaximum)).length
  · rw [if_pos hpos] at h
    simp only [Option.bind_eq_some, Option.some.injEq] at h
    obtain ⟨sums, hloop, h⟩ := h
    subst h
    have hn : toSizeT s.m_iterationMaximum = s.m_iterationMaximum.toNat :=
      toSizeT_of_nonneg (le_of_lt hm0) hm1
    have hInv := forLoop_sound (prefixSumStep s.escapeIterationCounter)
      (fun i t => t.length = s.m_iterationMaximum.toNat ∧
        ∀ j, j < i → t[j]? = some ((s.escapeIterationCounter.take (j + 1)).sum))
      (s.m_iterationMaximum - 1).toNat 1 _ sums
      (fun i t t' hi1 _ ht hrun =>
        prefixSumStep_inv s.escapeIterationCounter _ i hi1 t t' ht hrun)
      (by
        refine ⟨by rw [List.length_set, Grid2d.length_vectorResize, hn], ?_⟩
        intro j hj
        have hj0 : j = 0 := by omega
        subst hj0
        rw [List.getElem?_set, if_pos rfl, if_pos hpos]
        obtain ⟨hlen, hget⟩ := List.getElem?_eq_some.mp hfirst
        rw [List.sum_take_succ _ 0 hlen, hget]
        simp)
      hloop
    have he : 1 + (s.m_iterationMaximum - 1).toNat = s.m_iterationMaximum.toNat := by omega
    rw [he] at hInv
    exact ⟨rfl, rfl, rfl, rfl, hInv.1, hInv.2⟩
  · rw [if_neg hpos] at h
    exact absurd h (by simp)

/-- `getFrameData` returns in every accepted state (counter not `0`, queue not aborted) whose
histogram has one bucket for every iteration up to a positive `int` maximum. -/
theorem getFrameData_isSome (s : Solver K) (sums0 : List Int)
    (hm0 : 0 < s.m_iterationMaximum) (hm1 : s.m_iterationMaximum < 2 ^ 31)
    (hlen : s.escapeIterationCounter.length = s.m_iterationMaximum.toNat)
    (hc : s.m_iterationCount ≠ 0) (hq : s.workQueue.isAborted = false) :
    ∃ frame, getFrameData s sums0 = some frame := by
  have hn : toSizeT s.m_iterationMaximum = s.m_iterationMaximum.toNat :=
    toSizeT_of_nonneg (le_of_lt hm0) hm1
  have hfirst : s.escapeIterationCounter[0]? = some s.escapeIterationCounter[0] :=
    List.getElem?_eq_getElem (by omega)
  have hpos : 0 < (vectorResize sums0 (toSizeT s.m_iterationMaximum)).length := by
    rw [Grid2d.length_vectorResize, hn]; omega
  obtain ⟨sums, hloop⟩ := prefixSumLoop_isSome s.escapeIterationCounter
    s.m_iterationMaximum.toNat hlen (s.m_iterationMaximum - 1).toNat (by omega)
    ((vectorResize sums0 (toSizeT s.m_iterationMaximum)).set 0 s.escapeIterationCounter[0])
    (by
      refine ⟨by rw [List.length_set, Grid2d.length_vectorResize, hn], ?_⟩
      intro j hj
      have hj0 : j = 0 := by omega
      subst hj0
      rw [List.getElem?_set, if_pos rfl, if_pos hpos]
      have hlen0 : 0 < s.escapeIterationCounter.length := by omega
      rw [List.sum_take_succ _ 0 hlen0]
      simp)
  unfold getFrameData
  rw [if_neg hc, if_neg (by rw [hq]; simp), hfirst]
  simp only [Option.some_bind]
  rw [if_pos hpos, hloop]
  exact ⟨_, rfl⟩

end Solver

namespace Solver

variable {K : Type} [LinearOrderedField K]

theorem resetGrid_conserved {s s' : Solver K} (h : resetGrid s = some s') : Conserved s' := by
  obtain ⟨-, -, -, -, -, -, -, -, -, -, h1, h2, -⟩ := resetGrid_frame h
  unfold Conserved
  rw [h1, h2]
  simp

end Solver

/-! ## Renderer: facts -/

/-- For an argument in `(-1, size - 1]` every index read by the interpolated lookup lies inside
a vector of `size` elements. -/
theorem smoothReadIndices_inBounds {K : Type} [LinearOrderedField K] [FloorRing K]
    (size : Nat) (e : K) (h1 : -1 < e) (h2 : e ≤ (size : K) - 1) :
    ∀ i ∈ smoothReadIndices size e, 0 ≤ i ∧ i < (size : Int) := by
  have hceil0 : 0 ≤ Int.ceil e := by
    have : (-1 : Int) < Int.ceil e := Int.lt_ceil.mpr (by push_cast; exact h1)
    omega
  have hfloor : Int.floor e ≤ (size : Int) - 1 := by
    have : (Int.floor e : K) ≤ ((size : Int) - 1 : Int) := by
      push_cast
      exact le_trans (Int.floor_le e) h2
    exact_mod_cast this
  have hfc : Int.floor e ≤ Int.ceil e := Int.floor_le_ceil e
  have hsize : 0 < size := by
    have : (0 : K) < (size : K) := by linarith
    exact_mod_cast this
  intro i hi
  unfold smoothReadIndices at hi
  simp only at hi
  split at hi
  · rename_i hba
    simp only [List.mem_singleton] at hi
    subst hi
    unfold truncToInt
    by_cases h0 : 0 ≤ e
    · rw [if_pos h0]
      have : 0 ≤ Int.floor e := Int.floor_nonneg.mpr h0
      omega
    · rw [if_neg h0]
      have hle : Int.ceil e ≤ 0 := Int.ceil_le.mpr (by push_cast; exact le_of_lt (not_le.mp h0))
      omega
  · rename_i hba
    simp only [List.mem_cons, List.mem_singleton, List.not_mem_nil, or_false] at hi
    have hlt : max (Int.floor e) 0 < min (Int.ceil e) ((size : Int) - 1) := not_le.mp hba
    rcases hi with hi | hi
    · subst hi; omega
    · subst hi; omega

/-! ## Passes with the workers running at once: facts -/

namespace Solver

variable {K : Type} [LinearOrderedField K]

/-- The column-loop body up to the read of the bucket writes no bucket. -/
theorem pixelStepUntilStore_histogram {s s1 : Solver K} {x : Nat} {y : Int}
    {r : Option (Nat × Int)} (h : pixelStepUntilStore s x y = some (s1, r)) :
    s1.escapeIterationCounter = s.escapeIterationCounter := by
  unfold pixelStepUntilStore at h
  simp only [Option.bind_eq_some] at h
  obtain ⟨m, -, h⟩ := h
  by_cases hm : m ≤ s.m_escapeRadius * s.m_escapeRadius
  · rw [if_pos hm] at h
    simp only [Option.bind_eq_some] at h
    obtain ⟨z, -, grid, -, mag, -, n, -, iter, -, h⟩ := h
    by_cases hesc : (z.squareAdd (if s.m_currentFractal = true
        then s.mapToComplex ((x : Int) : K) (y : K)
        else s.m_juliaConstant)).magnitudeSquared > s.m_escapeRadius * s.m_escapeRadius
    · rw [if_pos hesc] at h
      simp only [Option.bind_eq_some, Option.some.injEq, Prod.mk.injEq] at h
      obtain ⟨bucket, -, h, -⟩ := h
      rw [← h]
    · rw [if_neg hesc] at h
      simp only [Option.some.injEq, Prod.mk.injEq] at h
      rw [← h.1]
  · rw [if_neg hm] at h
    simp only [Option.some.injEq, Prod.mk.injEq] at h
    rw [← h.1]

/-- A step of a worker leaves the buckets from `n` on as they are, unless it is the write of a
bucket from `n` on. -/
theorem workerStep_histogram_drop {s s1 : Solver K} {w w1 : WorkerState} (n : Nat)
    (h : workerStep s w = some (s1, w1))
    (hw : ∀ y x index bucket, w = .storing y x index bucket → index < n) :
    s1.escapeIterationCounter.drop n = s.escapeIterationCounter.drop n := by
  cases w with
  | claiming =>
    simp only [workerStep] at h
    split_ifs at h <;>
    · simp only [Option.some.injEq, Prod.mk.injEq] at h
      rw [← h.1]
  | atColumn y x =>
    simp only [workerStep] at h
    split_ifs at h with h1 h2
    · simp only [Option.some.injEq, Prod.mk.injEq] at h
      rw [← h.1]
    · cases hp : pixelStepUntilStore s x y with
      | none => rw [hp] at h; cases h
      | some r =>
        obtain ⟨s2, r2⟩ := r
        rw [hp] at h
        have hh := pixelStepUntilStore_histogram hp
        cases r2 with
        | none =>
          simp only [Option.some.injEq, Prod.mk.injEq] at h
          rw [← h.1, hh]
        | some ib =>
          obtain ⟨i, b⟩ := ib
          simp only [Option.some.injEq, Prod.mk.injEq] at h
          rw [← h.1, hh]
    · simp only [Option.some.injEq, Prod.mk.injEq] at h
      rw [← h.1]
  | storing y x index bucket =>
    simp only [workerStep, Option.some.injEq, Prod.mk.injEq] at h
    rw [← h.1]
    exact List.drop_set_of_lt _ _ (hw y x index bucket rfl)
  | returned => simp [workerStep] at h

/-- A run of the workers that writes buckets below `n` only leaves the buckets from `n` on as
they are. -/
theorem Pass.run_histogram_drop (n : Nat) (schedule : List Nat) :
    ∀ {p p1 : Pass K}, Pass.run schedule p = some p1 →
      (∀ index ∈ Pass.storeIndices schedule p, index < n) →
      p1.solver.escapeIterationCounter.drop n = p.solver.escapeIterationCounter.drop n := by
  induction schedule with
  | nil =>
    intro p p1 h _
    simp only [Pass.run, Option.some.injEq] at h
    rw [h]
  | cons t ts ih =>
    intro p p1 h hi
    simp only [Pass.run] at h
    cases hs : p.step t with
    | none => rw [hs] at h; cases h
    | some p2 =>
      rw [hs] at h
      simp only [Pass.storeIndices, hs] at hi
      have hs' := hs
      unfold Pass.step at hs'
      cases hw : p.threads[t]? with
      | none => simp only [hw] at hs'; cases hs'
      | some w =>
        simp only [hw] at hs' hi
        cases hws : workerStep p.solver w with
        | none => simp only [hws] at hs'; cases hs'
        | some r =>
          obtain ⟨s1, w1⟩ := r
          simp only [hws, Option.some.injEq] at hs'
          have hsolver : p2.solver = s1 := by rw [← hs']
          have hstep : s1.escapeIterationCounter.drop n
              = p.solver.escapeIterationCounter.drop n := by
            apply workerStep_histogram_drop n hws
            intro y x index bucket hw'
            subst hw'
            exact hi index (List.mem_cons_self _ _)
          have hrest : ∀ index ∈ Pass.storeIndices ts p2, index < n := by
            intro index hmem
            apply hi
            cases w <;> first | exact hmem | exact List.mem_cons_of_mem _ hmem
          rw [ih h hrest, hsolver, hstep]

/-- Below the iteration maximum, a returning `iterateGridScheduled` has run its workers to
the end, and hands on the histogram they left. -/
theorem iterateGridScheduled_histogram {threadCount : Nat} {schedule : List Nat}
    {s s1 : Solver K} (h : iterateGridScheduled threadCount schedule s = some s1)
    (hc : s.m_iterationCount < s.m_iterationMaximum) :
    ∃ p, Pass.run schedule
        { solver := startPass s, threads := List.replicate threadCount .claiming } = some p ∧
      s1.escapeIterationCounter = p.solver.escapeIterationCounter := by
  unfold iterateGridScheduled at h
  rw [if_pos hc] at h
  cases hp : Pass.run schedule
      { solver := startPass s, threads := List.replicate threadCount .claiming } with
  | none => rw [hp] at h; cases h
  | some p =>
    rw [hp] at h
    refine ⟨p, rfl, ?_⟩
    simp only at h
    split_ifs at h <;>
    · simp only [Option.some.injEq] at h
      rw [← h]

/-- The start-up call `initializeGrid(1, 2, -0.5, 0.0, 1.0)` on the solver just constructed,
followed by one pass of two workers whose steps alternate: the pass completes, both pixels
escape, and the histogram holds `1` in bucket `0` and `0` in all other buckets. -/
theorem alternating_pass :
    ∃ s0 s : Solver ℚ,
      initializeGrid (init 0 ⟨0, 0, 0⟩) 1 2 (-(1 / 2)) 0 1 = some s0 ∧
      iterateGridScheduled 2 [0, 1, 0, 1, 0, 1, 0, 1, 0, 1] s0 = some s ∧
      s.m_iterationCount = 1 ∧ s.workQueue.isAborted = false ∧ s.m_iterationMaximum = 8192 ∧
      s.m_escapeCount = 2 ∧ s.escapeIterationCounter = 1 :: List.replicate 8191 0 := by
  have hstart : ((initializeGrid (init 0 ⟨0, 0, 0⟩ : Solver ℚ) 1 2 (-(1 / 2)) 0 1).map fun s0 =>
      (s0.m_iterationCount, s0.m_iterationMaximum,
        Pass.storeIndices [0, 1, 0, 1, 0, 1, 0, 1, 0, 1]
          { solver := startPass s0, threads := List.replicate 2 .claiming }))
      = some (0, 8192, [0, 0]) := by
    decide!
  have hrun : ((initializeGrid (init 0 ⟨0, 0, 0⟩ : Solver ℚ) 1 2 (-(1 / 2)) 0 1).bind fun s0 =>
      (iterateGridScheduled 2 [0, 1, 0, 1, 0, 1, 0, 1, 0, 1] s0).map fun s =>
        (s.m_iterationCount, s.workQueue.isAborted, s.m_iterationMaximum, s.m_escapeCount,
          s.escapeIterationCounter.take 1))
      = some (1, false, 8192, 2, [1]) := by
    decide!
  simp only [Option.bind_eq_some, Option.map_eq_some', Prod.mk.injEq] at hstart hrun
  obtain ⟨s0, h0, s, h1, c1, c2, c3, c4, c5⟩ := hrun
  obtain ⟨s0', h0', d1, d2, d3⟩ := hstart
  rw [h0] at h0'
  cases h0'
  refine ⟨s0, s, h0, h1, c1, c2, c3, c4, ?_⟩
  obtain ⟨p, hp, hhist⟩ := iterateGridScheduled_histogram h1 (by rw [d1, d2]; decide)
  have hdrop := Pass.run_histogram_drop 1 _ hp (by
    rw [d3]
    intro index hmem
    simp only [List.mem_cons, List.mem_singleton, List.not_mem_nil, or_false, or_self] at hmem
    omega)
  have h0r := h0
  unfold initializeGrid resizeGrid at h0r
  obtain ⟨-, -, -, -, -, -, -, -, -, -, -, f12, -⟩ := resetGrid_frame h0r
  have hsize : toSizeT (8192 : Int) = 8192 := by decide
  have hs0 : (startPass s0).escapeIterationCounter = List.replicate 8192 0 := by
    show s0.escapeIterationCounter = _
    rw [f12]
    show List.replicate (toSizeT 8192) 0 = _
    rw [hsize]
  rw [← List.take_append_drop 1 s.escapeIterationCounter, c5, hhist, hdrop, hs0]
  rfl

/-- The pass of `alternating_pass`, cell by cell: both pixels have escaped at their first
step. -/
theorem alternating_pass_cells :
    ((initializeGrid (init 0 ⟨0, 0, 0⟩ : Solver ℚ) 1 2 (-(1 / 2)) 0 1).bind fun s0 =>
      (iterateGridScheduled 2 [0, 1, 0, 1, 0, 1, 0, 1, 0, 1] s0).map fun s =>
        (s.m_width, s.m_height, s.m_escapeRadius)) = some (1, 2, 2) ∧
    ((initializeGrid (init 0 ⟨0, 0, 0⟩ : Solver ℚ) 1 2 (-(1 / 2)) 0 1).bind fun s0 =>
      (iterateGridScheduled 2 [0, 1, 0, 1, 0, 1, 0, 1, 0, 1] s0).map fun s =>
        (s.m_grid, s.m_magnitudeSquaredGrid, s.m_iterationGrid))
      = some (⟨1, 2, [⟨-(1 / 2), 2⟩, ⟨-(1 / 2), -2⟩]⟩, ⟨1, 2, [17 / 4, 17 / 4]⟩,
          ⟨1, 2, [1, 1]⟩) := by
  constructor <;> decide!

/-- The start-up call `initializeGrid(1, 2, -0.5, 0.0, 1.0)` on the solver just constructed,
followed by one pass of two workers of which the first takes both rows before the second
takes its first step: the pass completes, both pixels escape at their first step, and bucket
`0` of the histogram holds `2`. -/
theorem one_worker_pass :
    ((initializeGrid (init 0 ⟨0, 0, 0⟩ : Solver ℚ) 1 2 (-(1 / 2)) 0 1).bind fun s0 =>
      (iterateGridScheduled 2 [0, 0, 0, 0, 0, 0, 0, 0, 0, 1] s0).map fun s =>
        (s.m_iterationCount, s.m_escapeCount, s.escapeIterationCounter[0]?))
      = some (1, 2, some 2) ∧
    ((initializeGrid (init 0 ⟨0, 0, 0⟩ : Solver ℚ) 1 2 (-(1 / 2)) 0 1).bind fun s0 =>
      (iterateGridScheduled 2 [0, 0, 0, 0, 0, 0, 0, 0, 0, 1] s0).map fun s =>
        (s.m_grid, s.m_magnitudeSquaredGrid, s.m_iterationGrid))
      = some (⟨1, 2, [⟨-(1 / 2), 2⟩, ⟨-(1 / 2), -2⟩]⟩, ⟨1, 2, [17 / 4, 17 / 4]⟩,
          ⟨1, 2, [1, 1]⟩) := by
  constructor <;> decide!

end Solver

/-! ## Locking and cancellation: facts -/

namespace Sync

/-- Every mutator takes the lock, then aborts the queue, then releases the lock. -/
theorem mutatorCalls_eq (m : Mutator) : mutatorCalls m = [.lock, .abortIteration, .unlock] := by
  cases m <;> rfl

/-- The calls of `iterateGrid`, the first two apart from the rest. -/
theorem iterateGrid_eq (height : Nat) (work : List Bool) :
    iterateGrid height work
      = .lock :: .setTaskCount height :: (work.map workerCall ++ [.isAborted, .unlock]) := by
  simp [iterateGrid]

/-- `Quiet` holds before either thread has made a call. -/
theorem quiet_start (queue : WorkQueue) (height : Nat) (work : List Bool) (m : Mutator) :
    Quiet height work m (start queue height work m) :=
  ⟨by simp [Sync.start], _, _, rfl, Or.inl rfl, Or.inl rfl⟩

/-- Every call that a thread can make keeps `Quiet`: while the pass holds the mutex the mutator
waits at its `lock`, and `abortIteration` is called only by the holder of the mutex. -/
theorem quiet_step {height : Nat} {work : List Bool} {m : Mutator} {st st1 : State} {t : Nat}
    (h : Quiet height work m st) (hstep : st.step t = some st1) : Quiet height work m st1 := by
  obtain ⟨hp, a, b, hc, ha, hb⟩ := h
  rw [iterateGrid_eq] at ha
  rw [mutatorCalls_eq] at hb
  unfold Quiet
  rw [iterateGrid_eq, mutatorCalls_eq]
  unfold State.step at hstep
  rw [hc] at hstep
  match t with
  | 0 =>
    have hb0 : st.owner = some 0 →
        ∀ o : Option Nat, (b = [.lock, .abortIteration, .unlock]) ∨
          (b = [.abortIteration, .unlock] ∧ o = some 1) ∨
          (b = [.unlock] ∧ o = some 1) ∨ (b = []) := by
      intro ho o
      rcases hb with hb | ⟨_, ho1⟩ | ⟨_, ho1⟩ | hb
      · exact Or.inl hb
      · rw [ho] at ho1; cases ho1
      · rw [ho] at ho1; cases ho1
      · exact Or.inr (Or.inr (Or.inr hb))
    rcases ha with ha | ⟨ha, ho⟩ | ⟨w, ha, ho, hq⟩ | ⟨ha, ho⟩ | ha
    · subst ha
      simp only [List.getElem?_cons_zero] at hstep
      split_ifs at hstep with hown
      simp only [Option.some.injEq] at hstep
      subst hstep
      refine ⟨hp, _, _, rfl, Or.inr (Or.inl ⟨rfl, rfl⟩), ?_⟩
      rcases hb with hb | ⟨_, ho⟩ | ⟨_, ho⟩ | hb
      · exact Or.inl hb
      · rw [hown] at ho; cases ho
      · rw [hown] at ho; cases ho
      · exact Or.inr (Or.inr (Or.inr hb))
    · subst ha
      simp only [List.getElem?_cons_zero, List.drop_succ_cons, List.drop_zero,
        Option.some.injEq] at hstep
      subst hstep
      refine ⟨hp, _, _, rfl, Or.inr (Or.inr (Or.inl ⟨work, rfl, ho, ?_⟩)), hb0 ho _⟩
      simp [WorkQueue.isAborted, WorkQueue.setTaskCount]
    · subst ha
      cases w with
      | nil =>
        simp only [List.map_nil, List.nil_append, List.getElem?_cons_zero,
          Option.some.injEq] at hstep
        subst hstep
        refine ⟨?_, _, _, rfl, Or.inr (Or.inr (Or.inr (Or.inl ⟨rfl, ho⟩))), hb0 ho _⟩
        intro x hx
        rcases List.mem_append.1 hx with hx | hx
        · exact hp x hx
        · rw [List.mem_singleton] at hx; rw [hx, hq]
      | cons poll w =>
        cases poll with
        | true =>
          simp only [List.map_cons, workerCall, if_true, List.cons_append,
            List.getElem?_cons_zero, Option.some.injEq] at hstep
          subst hstep
          refine ⟨?_, _, _, rfl, Or.inr (Or.inr (Or.inl ⟨w, rfl, ho, hq⟩)), hb0 ho _⟩
          intro x hx
          rcases List.mem_append.1 hx with hx | hx
          · exact hp x hx
          · rw [List.mem_singleton] at hx; rw [hx, hq]
        | false =>
          simp only [List.map_cons, workerCall, Bool.false_eq_true, if_false, List.cons_append,
            List.getElem?_cons_zero, Option.some.injEq] at hstep
          subst hstep
          exact ⟨hp, _, _, rfl,
            Or.inr (Or.inr (Or.inl ⟨w, rfl, ho, WorkQueue.getTask_not_aborted hq⟩)), hb0 ho _⟩
    · subst ha
      simp only [List.getElem?_cons_zero, Option.some.injEq] at hstep
      subst hstep
      exact ⟨hp, _, _, rfl, Or.inr (Or.inr (Or.inr (Or.inr rfl))), hb0 ho _⟩
    · subst ha
      simp at hstep
  | 1 =>
    have ha1 : ∀ (q : WorkQueue) (o : Option Nat), st.owner ≠ some 0 →
        ((a = .lock :: .setTaskCount height :: (work.map workerCall ++ [.isAborted, .unlock])) ∨
         (a = (SyncCall.lock :: .setTaskCount height ::
            (work.map workerCall ++ [.isAborted, .unlock])).drop 1 ∧ o = some 0) ∨
         (∃ w : List Bool, a = w.map workerCall ++ [.isAborted, .unlock] ∧ o = some 0 ∧
            q.isAborted = false) ∨ (a = [.unlock] ∧ o = some 0) ∨ (a = [])) := by
      intro q o hne
      rcases ha with ha | ⟨_, ho⟩ | ⟨w, _, ho, _⟩ | ⟨_, ho⟩ | ha
      · exact Or.inl ha
      · exact absurd ho hne
      · exact absurd ho hne
      · exact absurd ho hne
      · exact Or.inr (Or.inr (Or.inr (Or.inr ha)))
    rcases hb with hb | ⟨hb, ho⟩ | ⟨hb, ho⟩ | hb
    · subst hb
      simp only [List.getElem?_cons_succ, List.getElem?_cons_zero] at hstep
      split_ifs at hstep with hown
      simp only [Option.some.injEq] at hstep
      subst hstep
      exact ⟨hp, _, _, rfl, ha1 _ _ (by rw [hown]; simp), Or.inr (Or.inl ⟨rfl, rfl⟩)⟩
    · subst hb
      simp only [List.getElem?_cons_succ, List.getElem?_cons_zero, Option.some.injEq] at hstep
      subst hstep
      exact ⟨hp, _, _, rfl, ha1 _ _ (by rw [ho]; simp), Or.inr (Or.inr (Or.inl ⟨rfl, ho⟩))⟩
    · subst hb
      simp only [List.getElem?_cons_succ, List.getElem?_cons_zero, Option.some.injEq] at hstep
      subst hstep
      exact ⟨hp, _, _, rfl, ha1 _ _ (by rw [ho]; simp), Or.inr (Or.inr (Or.inr rfl))⟩
    · subst hb
      simp at hstep
  | t + 2 => simp at hstep

/-- Every run of the two threads keeps `Quiet`. -/
theorem quiet_run {height : Nat} {work : List Bool} {m : Mutator} (schedule : List Nat) :
    ∀ {st st1 : State}, Quiet height work m st → State.run schedule st = some st1 →
      Quiet height work m st1 := by
  induction schedule with
  | nil =>
    intro st st1 h hrun
    simp only [State.run, Option.some.injEq] at hrun
    exact hrun ▸ h
  | cons t ts ih =>
    intro st st1 h hrun
    simp only [State.run] at hrun
    cases hs : st.step t with
    | none => rw [hs] at hrun; cases hrun
    | some st2 =>
      rw [hs] at hrun
      exact ih (quiet_step h hs) hrun

end Sync

/-! ## Passes with the workers running one after the other: summary -/

/-- For a positive `int` iteration maximum, whenever `getFrameData` accepts a state and
returns, the returned array has length `iterationMaximum` and `sums[i]` is
`histogram[0] + ... + histogram[i]` for every `i`; in every accepted state (counter not `0`,
queue not aborted) reached from `resetGrid` by completed passes whose workers run one after
the other it does return, the array is non-decreasing and its last element equals the
returned `escapeCount`. -/
theorem frame_prefix_sums_workers_in_turn {K : Type} [LinearOrderedField K] (s : Solver K)
    (sums0 : List Int) (hm0 : 0 < s.m_iterationMaximum) (hm1 : s.m_iterationMaximum < 2 ^ 31) :
    (∀ frame, Solver.getFrameData s sums0 = some frame →
      (frame.escapeIterationCounterSums.length : Int) = s.m_iterationMaximum ∧
      ∀ i, i < frame.escapeIterationCounterSums.length →
        frame.escapeIterationCounterSums[i]?
          = some ((s.escapeIterationCounter.take (i + 1)).sum)) ∧
    (∀ s0, Solver.ReachedByPasses s0 s → s.m_iterationCount ≠ 0 →
      s.workQueue.isAborted = false →
      ∃ frame, Solver.getFrameData s sums0 = some frame ∧
        frame.iterationCount = s.m_iterationCount ∧ frame.escapeCount = s.m_escapeCount ∧
        frame.magnitudeSquaredGrid = s.m_magnitudeSquaredGrid ∧
        frame.iterationGrid = s.m_iterationGrid ∧
        (∀ (i j : Nat) (a b : Int), i ≤ j → frame.escapeIterationCounterSums[i]? = some a →
          frame.escapeIterationCounterSums[j]? = some b → a ≤ b) ∧
        frame.escapeIterationCounterSums.getLast? = some frame.escapeCount) := by
  constructor
  · intro frame h
    obtain ⟨-, -, -, -, hlen, hsum⟩ := Solver.getFrameData_sound hm0 hm1 h
    refine ⟨by rw [hlen]; exact Int.toNat_of_nonneg (le_of_lt hm0), ?_⟩
    intro i hi
    exact hsum i (by rw [← hlen]; exact hi)
  · intro s0 hreach hc hq
    obtain ⟨⟨hmax, hlen, hnonneg⟩, hcons⟩ := hreach.histogram
    have hn : toSizeT s.m_iterationMaximum = s.m_iterationMaximum.toNat :=
      toSizeT_of_nonneg (le_of_lt hm0) hm1
    have hlen' : s.escapeIterationCounter.length = s.m_iterationMaximum.toNat := by
      rw [hlen, ← hmax, hn]
    obtain ⟨frame, h⟩ := Solver.getFrameData_isSome s sums0 hm0 hm1 hlen' hc hq
    obtain ⟨f1, f2, f3, f4, flen, fsum⟩ := Solver.getFrameData_sound hm0 hm1 h
    refine ⟨frame, h, f1, f2, f3, f4, ?_, ?_⟩
    · intro i j a b hij ha hb
      have hj : j < frame.escapeIterationCounterSums.length :=
        (List.getElem?_eq_some.mp hb).1
      rw [flen] at hj
      rw [fsum i (by omega)] at ha
      rw [fsum j hj] at hb
      simp only [Option.some.injEq] at ha hb
      rw [← ha, ← hb]
      exact Solver.sum_take_mono _ hnonneg (i + 1) (j + 1) (by omega)
    · rw [List.getLast?_eq_getElem?, flen, fsum _ (by omega)]
      have he : s.m_iterationMaximum.toNat - 1 + 1 = s.escapeIterationCounter.length := by
        rw [hlen']; omega
      rw [he, List.take_length, f2]
      exact congrArg some hcons.symm

/-- In the state reached from `resetGrid` (which leaves the state `sr`) by `k` completed
passes whose workers run one after the other (dimensions and iteration maximum non-negative
`int` values, one or more workers per pass), `k` does not exceed `iterationMaximum`; for every
pixel, if its squared magnitude exceeds `escapeRadius²` then its iteration count is the first
step `n` in `1 .. k` at which the squared magnitude of the recurrence exceeded
`escapeRadius²`, otherwise its iteration count is `k` and no step in `1 .. k` exceeded it;
every bucket `j` of the histogram is the number of escaped pixels whose iteration count is
`j + 1`, and `escapeCount` is the number of escaped pixels. -/
theorem first_escapes_counted_workers_in_turn {K : Type} [LinearOrderedField K]
    (s0 sr s : Solver K) (k : Nat) (hw0 : 0 ≤ s0.m_width) (hw1 : s0.m_width < 2 ^ 31)
    (hh0 : 0 ≤ s0.m_height) (hh1 : s0.m_height < 2 ^ 31) (hm0 : 0 ≤ s0.m_iterationMaximum)
    (hm1 : s0.m_iterationMaximum < 2 ^ 31) (hreset : s0.resetGrid = some sr)
    (h : Solver.AfterPasses s0 k s) :
    (k : Int) ≤ s.m_iterationMaximum ∧ s.m_iterationCount = (k : Int) ∧
    (∀ i : Nat, i < s.m_width.toNat * s.m_height.toNat →
      (Solver.escapedAt s i = true →
        ∃ n : Nat, Solver.iterationAt s i = (n : Int) ∧ 1 ≤ n ∧ n ≤ k ∧
          s.m_escapeRadius * s.m_escapeRadius < (Solver.orbitAt sr i n).magnitudeSquared ∧
          ∀ j : Nat, 1 ≤ j → j < n →
            (Solver.orbitAt sr i j).magnitudeSquared ≤ s.m_escapeRadius * s.m_escapeRadius) ∧
      (Solver.escapedAt s i = false →
        Solver.iterationAt s i = (k : Int) ∧
          ∀ j : Nat, 1 ≤ j → j ≤ k →
            (Solver.orbitAt sr i j).magnitudeSquared ≤ s.m_escapeRadius * s.m_escapeRadius)) ∧
    (∀ (j : Nat) (b : Int), s.escapeIterationCounter[j]? = some b →
      b = (((Finset.range (s.m_width.toNat * s.m_height.toNat)).filter
        fun i => Solver.escapedAt s i = true ∧ Solver.iterationAt s i = (j : Int) + 1).card
          : Int)) ∧
    s.m_escapeCount = (((Finset.range (s.m_width.toNat * s.m_height.toNat)).filter
      fun i => Solver.escapedAt s i = true).card : Int) ∧
    (s.escapeIterationCounter.length : Int) = s.m_iterationMaximum := by
  obtain ⟨hsound, hcounted, hfe⟩ := h.invariant hreset hw0 hw1 hh0 hh1 hm0 hm1
  refine ⟨?_, hfe.count_eq, ?_, hcounted.2, hcounted.1, hsound.counter_length⟩
  · rw [← hfe.count_eq]; exact hsound.count_le
  · intro i hi
    rw [hfe.width_eq, hfe.height_eq] at hi
    obtain ⟨n, hn, -, hk, hm, hbefore, hlast⟩ := hfe.cells i hi
    unfold Solver.escapedAt Solver.iterationAt
    rw [hm, hk, hfe.radius_eq]
    constructor
    · intro hesc
      have hesc' : sr.m_escapeRadius * sr.m_escapeRadius
          < (if n = 0 then 0 else (Solver.orbitAt sr i n).magnitudeSquared) := by
        simpa using hesc
      have hn0 : n ≠ 0 := by
        intro h0
        rw [if_pos h0] at hesc'
        exact absurd hesc' (not_lt.mpr (mul_self_nonneg _))
      rw [if_neg hn0] at hesc'
      exact ⟨n, rfl, by omega, hn, hesc', hbefore⟩
    · intro hesc
      have hle : (if n = 0 then 0 else (Solver.orbitAt sr i n).magnitudeSquared)
          ≤ sr.m_escapeRadius * sr.m_escapeRadius := by
        simpa using hesc
      have hnk : n = k := hlast.resolve_right (not_lt.mpr hle)
      subst hnk
      refine ⟨rfl, ?_⟩
      intro j hj1 hj2
      by_cases hjn : j < n
      · exact hbefore j hj1 hjn
      · have hje : j = n := by omega
        subst hje
        rw [if_neg (by omega)] at hle
        exact hle

/-- On every state on which the row step is defined (the grids have the solver's dimensions
and the iteration counts of the pixels still iterated index the histogram), any two orders in
which the rows `0 .. height - 1` are each processed exactly once by the row step, one row
after the other, both return, and the resulting complex grid, squared-magnitude grid,
iteration grid, `escapeCount` and escape histogram are identical; if the queue is not aborted,
the workers of a pass (one or more, claiming their rows from `getTask`), run one after the
other, return with the same five results. -/
theorem row_order_independence_workers_in_turn {K : Type} [LinearOrderedField K] (s : Solver K)
    (hready : Solver.PassReady s) (order1 order2 : List Nat)
    (h1 : order1.Perm (List.range s.m_height.toNat))
    (h2 : order2.Perm (List.range s.m_height.toNat)) :
    ∃ s1 s2, Solver.rowsInOrder order1 s = some s1 ∧ Solver.rowsInOrder order2 s = some s2 ∧
      s1.m_grid = s2.m_grid ∧ s1.m_magnitudeSquaredGrid = s2.m_magnitudeSquaredGrid ∧
      s1.m_iterationGrid = s2.m_iterationGrid ∧ s1.m_escapeCount = s2.m_escapeCount ∧
      s1.escapeIterationCounter = s2.escapeIterationCounter ∧
      (s.workQueue.isAborted = false → ∀ threadCount, 0 < threadCount →
        ∃ s3, Solver.workers threadCount (Solver.startPass s) = some s3 ∧
          s3.m_grid = s1.m_grid ∧ s3.m_magnitudeSquaredGrid = s1.m_magnitudeSquaredGrid ∧
          s3.m_iterationGrid = s1.m_iterationGrid ∧ s3.m_escapeCount = s1.m_escapeCount ∧
          s3.escapeIterationCounter = s1.escapeIterationCounter) := by
  cases hq : s.workQueue.isAborted with
  | true =>
    exact ⟨s, s, Solver.rowsInOrder_aborted hq order1, Solver.rowsInOrder_aborted hq order2,
      rfl, rfl, rfl, rfl, rfl, fun hc => absurd hc (by simp)⟩
  | false =>
    obtain ⟨s1, hrun1, hvis1⟩ := Solver.rowsInOrder_all hready hq order1 h1
    obtain ⟨s2, hrun2, hvis2⟩ := Solver.rowsInOrder_all hready hq order2 h2
    obtain ⟨e1, e2, e3, e4, e5⟩ := Solver.Visited.unique hready hvis1 hvis2
    refine ⟨s1, s2, hrun1, hrun2, e1, e2, e3, e4, e5, ?_⟩
    intro _ threadCount htc
    obtain ⟨s3, hrun3, hvis3⟩ := Solver.workers_startPass_visited hready htc
    exact ⟨s3, hrun3, Solver.Visited.unique hready hvis3 hvis1⟩

/-! ## Claims -/

/-- C1 (as stated, refuted): for the task count `n = 2 ^ 31 + 1`, call number `2 ^ 31` after
`setTaskCount n` does not return the row index `2 ^ 31`; it returns `-2147483648`, because the
`unsigned int` cursor is handed back as an `int`. -/
theorem C1_row_index_wraps_counterexample :
    (WorkQueue.nthTask
      ((WorkQueue.setTaskCount ⟨0, 0, 0⟩ (2 ^ 31 + 1)).setTaskLength 7) (2 ^ 31)).1
        = -2147483648 ∧
    (WorkQueue.nthTask
      ((WorkQueue.setTaskCount ⟨0, 0, 0⟩ (2 ^ 31 + 1)).setTaskLength 7) (2 ^ 31)).1
        ≠ ((2 ^ 31 : Nat) : Int) := by
  rw [WorkQueue.nthTask_setTaskCount _ _ _ _ (by norm_num)]
  rw [if_pos (by norm_num)]
  rw [WorkQueue.toInt32_of_ge (le_refl _) (by norm_num)]
  constructor <;> norm_num

/-- C1 (amended): for every task count `n ≤ 2 ^ 31` and whatever the queue did before, after
`setTaskCount n` the successive calls of `getTask` return the row indices `0, 1, ..., n-1` in
this order (call number `k`, counted from `0`, returns `k`), and every later call returns the
sentinel `-1`; each result carries the task length `len` last given to `setTaskLength`, be it
given after or before `setTaskCount`. -/
theorem C1_getTask_dispenses_rows (q : WorkQueue) (n len k : Nat) (hn : n ≤ 2 ^ 31) :
    WorkQueue.nthTask ((q.setTaskCount n).setTaskLength len) k
      = (if k < n then (k : Int) else -1, len) ∧
    WorkQueue.nthTask ((q.setTaskLength len).setTaskCount n) k
      = (if k < n then (k : Int) else -1, len) := by
  have hto : (if k < n then toInt32 k else -1) = (if k < n then (k : Int) else -1) := by
    by_cases hk : k < n
    · rw [if_pos hk, if_pos hk, WorkQueue.toInt32_of_lt (by omega)]
    · rw [if_neg hk, if_neg hk]
  constructor
  · rw [WorkQueue.nthTask_of_fresh _ k rfl (show n < 2 ^ 32 by omega)]
    exact congrArg (fun t => (t, len)) hto
  · rw [WorkQueue.nthTask_of_fresh _ k rfl (show n < 2 ^ 32 by omega)]
    exact congrArg (fun t => (t, len)) hto

/-- Witness for C1: three rows of length `5` on a queue whose nine rows had all been handed
out before; call number `1` returns row `1`, call number `3` returns the sentinel. -/
theorem C1_getTask_dispenses_rows_witness :
    (3 : Nat) ≤ 2 ^ 31 ∧
    WorkQueue.nthTask ((WorkQueue.setTaskCount ⟨9, 9, 9⟩ 3).setTaskLength 5) 1 = (1, 5) ∧
    WorkQueue.nthTask ((WorkQueue.setTaskCount ⟨9, 9, 9⟩ 3).setTaskLength 5) 3 = (-1, 5) :=
  ⟨by norm_num, (C1_getTask_dispenses_rows ⟨9, 9, 9⟩ 3 5 1 (by norm_num)).1,
    (C1_getTask_dispenses_rows ⟨9, 9, 9⟩ 3 5 3 (by norm_num)).1⟩

/-- C2: for every queue `q`, whatever rows it has left unclaimed, once `abortIteration` has set
the aborted state every later call of `getTask` (call number `k`, for every `k`) returns the
sentinel `-1` and the queue stays aborted, until `setTaskCount n` is called: that call clears
the aborted state, sets the task count to `n` and resets the cursor to `0`, and the next
`getTask` hands out row `0` again when `0 < n`. -/
theorem C2_abort_stops_dispensing (q : WorkQueue) (k n : Nat) :
    q.abortIteration.isAborted = true ∧
    WorkQueue.nthTask q.abortIteration k = (-1, q.taskLength) ∧
    (WorkQueue.afterTasks q.abortIteration k).isAborted = true ∧
    ((WorkQueue.afterTasks q.abortIteration k).setTaskCount n).isAborted = false ∧
    ((WorkQueue.afterTasks q.abortIteration k).setTaskCount n).nextTask = 0 ∧
    ((WorkQueue.afterTasks q.abortIteration k).setTaskCount n).taskCount = n ∧
    (0 < n → ((WorkQueue.afterTasks q.abortIteration k).setTaskCount n).getTask.1
      = (0, q.taskLength)) := by
  have hab : q.abortIteration.isAborted = true := rfl
  have hafter := WorkQueue.afterTasks_of_aborted hab k
  refine ⟨hab, ?_, ?_, ?_, rfl, rfl, ?_⟩
  · unfold WorkQueue.nthTask
    rw [hafter, WorkQueue.getTask_of_aborted hab]
    rfl
  · rw [hafter]; exact hab
  · exact WorkQueue.isAborted_of_le (Nat.zero_le _)
  · intro hn
    rw [hafter]
    have hget := WorkQueue.getTask_of_lt (q := q.abortIteration.setTaskCount n) hn
      (by show (0 : Nat) < 2 ^ 31; norm_num)
    rw [hget]
    rfl

/-- C3: on every state on which the row step is defined (`PassReady`), one non-aborted pass
(one or more workers started on the queue as `iterateGrid` sets it up) returns; it leaves a
pixel whose stored squared magnitude exceeds `escapeRadius²` unchanged in its complex value,
squared magnitude and iteration count, and increases the iteration count of every other pixel
by exactly `1`. So no iteration count decreases, and an escaped pixel, whose stored magnitude
is unchanged, is skipped again by the next pass. -/
theorem C3_escape_monotonicity {K : Type} [LinearOrderedField K] (s : Solver K)
    (threadCount : Nat) (hready : Solver.PassReady s) (hthreads : 0 < threadCount)
    (hq : s.workQueue.isAborted = false) :
    ∃ s', Solver.workers threadCount (Solver.startPass s) = some s' ∧
      ∀ (x y : Nat), (x : Int) < s.m_width → (y : Int) < s.m_height →
        ∃ (z : Complex K) (m : K) (n : Int),
          s.m_grid.get x y = some z ∧ s.m_magnitudeSquaredGrid.get x y = some m ∧
          s.m_iterationGrid.get x y = some n ∧
          (s.m_escapeRadius * s.m_escapeRadius < m →
            s'.m_grid.get x y = some z ∧ s'.m_magnitudeSquaredGrid.get x y = some m ∧
            s'.m_iterationGrid.get x y = some n) ∧
          (m ≤ s.m_escapeRadius * s.m_escapeRadius →
            s'.m_iterationGrid.get x y = some (n + 1)) ∧
          (∃ n', s'.m_iterationGrid.get x y = some n' ∧ n ≤ n') := by
  have hready' := hready
  have _ := hq
  obtain ⟨hw0, hw1, hh0, hh1, hg0, hi0, hm0, -⟩ := hready'
  obtain ⟨s', hrun, hInv⟩ := Solver.workers_passInv hready threadCount 0 (Solver.startPass s)
    (Nat.zero_le _) (fun h0 => absurd h0 (by omega))
    (by
      rw [Nat.zero_mul]
      exact hready.passInv _ (Solver.startPass_not_aborted s))
    rfl
    (by
      show toUInt32 s.m_height = s.m_height.toNat
      exact toUInt32_of_nonneg hh0 hh1)
  refine ⟨s', hrun, ?_⟩
  intro x y hx hy
  have hx' : x < s.m_width.toNat := by omega
  have hy' : y < s.m_height.toNat := by omega
  have hflat := Grid2d.flat_lt hx' hy'
  have hzlen : y * s.m_width.toNat + x < s.m_grid.data.length := by
    rw [hg0.2.2.1]; exact hflat
  have hmlen : y * s.m_width.toNat + x < s.m_magnitudeSquaredGrid.data.length := by
    rw [hm0.2.2.1]; exact hflat
  have hklen : y * s.m_width.toNat + x < s.m_iterationGrid.data.length := by
    rw [hi0.2.2.1]; exact hflat
  have hz0 := List.getElem?_eq_getElem hzlen
  have hm0' := List.getElem?_eq_getElem hmlen
  have hk0 := List.getElem?_eq_getElem hklen
  generalize s.m_grid.data[y * s.m_width.toNat + x] = z at hz0
  generalize s.m_magnitudeSquaredGrid.data[y * s.m_width.toNat + x] = m at hm0'
  generalize s.m_iterationGrid.data[y * s.m_width.toNat + x] = n at hk0
  obtain ⟨c1, c2, c3⟩ := hInv.cells _ z m n hz0 hm0' hk0
  have hall : y * s.m_width.toNat + x < s.m_height.toNat * s.m_width.toNat := by
    rw [Nat.mul_comm s.m_height.toNat]; exact hflat
  refine ⟨z, m, n, by rw [hg0.get_eq hx' hy']; exact hz0,
    by rw [hm0.get_eq hx' hy']; exact hm0', by rw [hi0.get_eq hx' hy']; exact hk0, ?_, ?_, ?_⟩
  · intro hesc
    have hno : ¬ (y * s.m_width.toNat + x < s.m_height.toNat * s.m_width.toNat ∧
        m ≤ s.m_escapeRadius * s.m_escapeRadius) := fun hc => absurd hc.2 (not_le.mpr hesc)
    rw [if_neg hno] at c1 c2 c3
    exact ⟨by rw [hInv.grid_shaped.get_eq hx' hy']; exact c1,
      by rw [hInv.magnitude_shaped.get_eq hx' hy']; exact c2,
      by rw [hInv.iteration_shaped.get_eq hx' hy']; exact c3⟩
  · intro hle
    rw [if_pos ⟨hall, hle⟩] at c3
    rw [hInv.iteration_shaped.get_eq hx' hy']; exact c3
  · rw [hInv.iteration_shaped.get_eq hx' hy', c3]
    by_cases hle : m ≤ s.m_escapeRadius * s.m_escapeRadius
    · rw [if_pos ⟨hall, hle⟩]
      exact ⟨n + 1, rfl, by omega⟩
    · rw [if_neg (fun hc => hle hc.2)]
      exact ⟨n, rfl, le_refl _⟩

/-- Witness for C3: the sample solver after `resetGrid`, two workers; the pixel `(1, 1)` had
not escaped and its iteration count goes from `0` to `1`. -/
theorem C3_escape_monotonicity_witness :
    ∃ s', Solver.workers 2 (Solver.startPass Solver.sampleReady) = some s' ∧
      s'.m_iterationGrid.get 1 1 = some 1 := by
  have hready : Solver.PassReady Solver.sampleReady := by
    refine ⟨by decide, by decide, by decide, by decide,
      ⟨rfl, rfl, by decide, by decide⟩, ⟨rfl, rfl, by decide, by decide⟩,
      ⟨rfl, rfl, by decide, by decide⟩, ?_⟩
    intro x y m n _ hn _
    have hn' : Grid2d.get (⟨3, 2, List.replicate 6 0⟩ : Grid2d Int) x y = some n := hn
    unfold Grid2d.get at hn'
    split at hn'
    · have hmem := List.getElem?_mem hn'
      have h0 : n = 0 := List.eq_of_mem_replicate hmem
      subst h0
      decide
    · exact absurd hn' (by simp)
  obtain ⟨s', hrun, hcells⟩ :=
    C3_escape_monotonicity Solver.sampleReady 2 hready (by decide) (by decide)
  obtain ⟨z, m, n, -, hm, hn, -, hstep, -⟩ := hcells 1 1 (by decide) (by decide)
  have hm' : Grid2d.get (⟨3, 2, List.replicate 6 0⟩ : Grid2d ℚ) 1 1 = some m := hm
  have hn' : Grid2d.get (⟨3, 2, List.replicate 6 0⟩ : Grid2d Int) 1 1 = some n := hn
  have hm0 : m = 0 := by
    have : Grid2d.get (⟨3, 2, List.replicate 6 0⟩ : Grid2d ℚ) 1 1 = some 0 := by decide
    rw [this] at hm'
    exact (Option.some.inj hm').symm
  have hn0 : n = 0 := by
    have : Grid2d.get (⟨3, 2, List.replicate 6 0⟩ : Grid2d Int) 1 1 = some 0 := by decide
    rw [this] at hn'
    exact (Option.some.inj hn').symm
  subst hm0 hn0
  exact ⟨s', hrun, hstep (by norm_num [Solver.sampleReady, Solver.sample])⟩

/-- C4 (the code at a failing input): after the start-up call
`initializeGrid(1, 2, -0.5, 0.0, 1.0)` the escape count equals the sum of the buckets; one
pass of two workers whose steps alternate completes and is counted, and leaves
`escapeCount = 2` while the buckets add up to `1`: both workers read bucket `0` before either
writes it, and one increment is lost. -/
theorem C4_escapeCount_exceeds_histogram_sum :
    ∃ s0 s : Solver ℚ,
      Solver.initializeGrid (Solver.init 0 ⟨0, 0, 0⟩) 1 2 (-(1 / 2)) 0 1 = some s0 ∧
      s0.m_escapeCount = s0.escapeIterationCounter.sum ∧
      Solver.iterateGridScheduled 2 [0, 1, 0, 1, 0, 1, 0, 1, 0, 1] s0 = some s ∧
      s.m_iterationCount = 1 ∧ s.workQueue.isAborted = false ∧
      s.m_escapeCount = 2 ∧ s.escapeIterationCounter.sum = 1 := by
  obtain ⟨s0, s, h0, h1, c1, c2, -, c4, c5⟩ := Solver.alternating_pass
  refine ⟨s0, s, h0, ?_, h1, c1, c2, c4, ?_⟩
  · have h0r := h0
    unfold Solver.initializeGrid Solver.resizeGrid at h0r
    exact Solver.resetGrid_conserved h0r
  · rw [c5, List.sum_cons, List.sum_replicate]
    simp

/-- C5 (the code at a failing input): after the start-up call
`initializeGrid(1, 2, -0.5, 0.0, 1.0)` and one pass of two workers whose steps alternate,
`getFrameData` accepts the state and returns `8192` prefix sums of which the last is `1`,
together with the escape count `2`. -/
theorem C5_last_prefix_sum_below_escapeCount :
    ∃ (s0 s : Solver ℚ) (frame : Solver.FrameData ℚ),
      Solver.initializeGrid (Solver.init 0 ⟨0, 0, 0⟩) 1 2 (-(1 / 2)) 0 1 = some s0 ∧
      Solver.iterateGridScheduled 2 [0, 1, 0, 1, 0, 1, 0, 1, 0, 1] s0 = some s ∧
      s.m_iterationCount = 1 ∧ s.workQueue.isAborted = false ∧
      Solver.getFrameData s [] = some frame ∧
      frame.escapeIterationCounterSums.length = 8192 ∧
      frame.escapeIterationCounterSums.getLast? = some 1 ∧ frame.escapeCount = 2 := by
  obtain ⟨s0, s, h0, h1, c1, c2, c3, c4, c5⟩ := Solver.alternating_pass
  have hm0 : 0 < s.m_iterationMaximum := by rw [c3]; decide
  have hm1 : s.m_iterationMaximum < 2 ^ 31 := by rw [c3]; decide
  have hlen : s.escapeIterationCounter.length = s.m_iterationMaximum.toNat := by
    rw [c5, c3, List.length_cons, List.length_replicate]
    rfl
  obtain ⟨frame, hf⟩ := Solver.getFrameData_isSome s [] hm0 hm1 hlen (by rw [c1]; decide) c2
  obtain ⟨-, f2, -, -, flen, fsum⟩ := Solver.getFrameData_sound hm0 hm1 hf
  have hnat : s.m_iterationMaximum.toNat = 8192 := by rw [c3]; rfl
  rw [hnat] at flen fsum
  refine ⟨s0, s, frame, h0, h1, c1, c2, hf, flen, ?_, by rw [f2, c4]⟩
  rw [List.getLast?_eq_getElem?, flen, fsum 8191 (by decide)]
  have hall : s.escapeIterationCounter.take (8191 + 1) = s.escapeIterationCounter := by
    apply List.take_of_length_le
    rw [hlen, hnat]
  rw [hall, c5, List.sum_cons, List.sum_replicate]
  simp

/-- C6: for every prior state whose width and height are positive `int` values and whose
`iterationMaximum` is a non-negative `int`, `resetGrid` returns a state in which the complex,
iteration and squared-magnitude grids have exactly `width` columns, `height` rows and
`width * height` elements; every iteration count and squared magnitude is `0`; `escapeCount`
is `0`; the histogram has `iterationMaximum` buckets, all `0`; `iterationCount` is `0`; every
complex cell is `0 + 0i` in Mandelbrot mode and cell `(x, y)` is `mapToComplex(x, y)` in Julia
mode. Width, height, view centre, view scale and mode are unchanged. -/
theorem C6_resetGrid_postcondition {K : Type} [LinearOrderedField K] (s : Solver K)
    (hw0 : 0 < s.m_width) (hw1 : s.m_width < 2 ^ 31)
    (hh0 : 0 < s.m_height) (hh1 : s.m_height < 2 ^ 31)
    (hm0 : 0 ≤ s.m_iterationMaximum) (hm1 : s.m_iterationMaximum < 2 ^ 31) :
    ∃ s', Solver.resetGrid s = some s' ∧
      ((s'.m_grid.width : Int) = s.m_width ∧ (s'.m_grid.height : Int) = s.m_height ∧
        (s'.m_grid.data.length : Int) = s.m_width * s.m_height) ∧
      ((s'.m_iterationGrid.width : Int) = s.m_width ∧
        (s'.m_iterationGrid.height : Int) = s.m_height ∧
        (s'.m_iterationGrid.data.length : Int) = s.m_width * s.m_height) ∧
      ((s'.m_magnitudeSquaredGrid.width : Int) = s.m_width ∧
        (s'.m_magnitudeSquaredGrid.height : Int) = s.m_height ∧
        (s'.m_magnitudeSquaredGrid.data.length : Int) = s.m_width * s.m_height) ∧
      (∀ x y : Nat, (x : Int) < s.m_width → (y : Int) < s.m_height →
        s'.m_iterationGrid.get x y = some 0 ∧
        s'.m_magnitudeSquaredGrid.get x y = some 0 ∧
        s'.m_grid.get x y = some
          (if s.m_currentFractal then ⟨0, 0⟩
           else Solver.mapToComplex s' ((x : Int) : K) ((y : Int) : K))) ∧
      s'.m_escapeCount = 0 ∧
      (s'.escapeIterationCounter.length : Int) = s.m_iterationMaximum ∧
      (∀ bucket ∈ s'.escapeIterationCounter, bucket = 0) ∧
      s'.m_iterationCount = 0 ∧
      s'.m_width = s.m_width ∧ s'.m_height = s.m_height ∧
      s'.m_viewCenter = s.m_viewCenter ∧ s'.m_viewScale = s.m_viewScale ∧
      s'.m_currentFractal = s.m_currentFractal := by
  obtain ⟨grid, hshape, hmandel, hjulia, hrun⟩ :=
    Solver.resetGrid_spec s (le_of_lt hw0) hw1 (le_of_lt hh0) hh1
  have hW : ((s.m_width.toNat : Nat) : Int) = s.m_width := Int.toNat_of_nonneg (le_of_lt hw0)
  have hH : ((s.m_height.toNat : Nat) : Int) = s.m_height := Int.toNat_of_nonneg (le_of_lt hh0)
  have hcells := cells_lt_SIZE_MOD (toNat_lt_of_lt hw1) (toNat_lt_of_lt hh1)
  have hlen : ((s.m_width.toNat * s.m_height.toNat : Nat) : Int) = s.m_width * s.m_height := by
    rw [Nat.cast_mul, hW, hH]
  have hzi : Grid2d.Shaped (⟨s.m_width.toNat, s.m_height.toNat,
      List.replicate (s.m_width.toNat * s.m_height.toNat) 0⟩ : Grid2d Int)
      s.m_width.toNat s.m_height.toNat := ⟨rfl, rfl, by simp, hcells⟩
  have hzm : Grid2d.Shaped (⟨s.m_width.toNat, s.m_height.toNat,
      List.replicate (s.m_width.toNat * s.m_height.toNat) 0⟩ : Grid2d K)
      s.m_width.toNat s.m_height.toNat := ⟨rfl, rfl, by simp, hcells⟩
  refine ⟨_, hrun, ⟨?_, ?_, ?_⟩, ⟨hW, hH, ?_⟩, ⟨hW, hH, ?_⟩, ?_, rfl, ?_, ?_, rfl, rfl, rfl,
    rfl, rfl, rfl⟩
  · show (grid.m_width : Int) = s.m_width
    rw [hshape.1, hW]
  · show (grid.m_height : Int) = s.m_height
    rw [hshape.2.1, hH]
  · show (grid.data.length : Int) = s.m_width * s.m_height
    rw [hshape.2.2.1, hlen]
  · show ((List.replicate (s.m_width.toNat * s.m_height.toNat) (0 : Int)).length : Int) = _
    rw [List.length_replicate, hlen]
  · show ((List.replicate (s.m_width.toNat * s.m_height.toNat) (0 : K)).length : Int) = _
    rw [List.length_replicate, hlen]
  · intro x y hx hy
    have hx' : x < s.m_width.toNat := by omega
    have hy' : y < s.m_height.toNat := by omega
    have hflat := Grid2d.flat_lt hx' hy'
    refine ⟨?_, ?_, ?_⟩
    · show Grid2d.get (⟨s.m_width.toNat, s.m_height.toNat,
        List.replicate (s.m_width.toNat * s.m_height.toNat) 0⟩ : Grid2d Int) x y = some 0
      rw [hzi.get_eq hx' hy']
      show (List.replicate (s.m_width.toNat * s.m_height.toNat) (0 : Int))[_]? = some 0
      rw [List.getElem?_replicate, if_pos hflat]
    · show Grid2d.get (⟨s.m_width.toNat, s.m_height.toNat,
        List.replicate (s.m_width.toNat * s.m_height.toNat) 0⟩ : Grid2d K) x y = some 0
      rw [hzm.get_eq hx' hy']
      show (List.replicate (s.m_width.toNat * s.m_height.toNat) (0 : K))[_]? = some 0
      rw [List.getElem?_replicate, if_pos hflat]
    · show grid.get x y = _
      rw [hshape.get_eq hx' hy']
      cases hf : s.m_currentFractal with
      | true =>
        rw [hmandel hf, List.getElem?_replicate, if_pos hflat]
        rfl
      | false =>
        rw [hjulia hf x y hx' hy']
        rfl
  · show ((List.replicate (toSizeT s.m_iterationMaximum) (0 : Int)).length : Int) = _
    rw [List.length_replicate, toSizeT_of_nonneg hm0 hm1, Int.toNat_of_nonneg hm0]
  · intro bucket hb
    exact List.eq_of_mem_replicate hb

/-- Witness for C6: the sample solver (`3 × 2` grid, at most `4` iterations). -/
theorem C6_resetGrid_postcondition_witness :
    ∃ s', Solver.resetGrid Solver.sample = some s' ∧ s'.m_escapeCount = 0 ∧
      s'.m_iterationCount = 0 ∧ s'.m_iterationGrid.get 2 1 = some 0 := by
  obtain ⟨s', h, -, -, -, hcell, hesc, -, -, hcount, -⟩ :=
    C6_resetGrid_postcondition Solver.sample (by decide) (by decide) (by decide) (by decide)
      (by decide) (by decide)
  exact ⟨s', h, hesc, hcount, (hcell 2 1 (by decide) (by decide)).1⟩

/-- C8: for every view scale `> 0`, every view centre and all positive `int` widths and
heights, after `resizeGrid(width, height)` (which sets `aspectRatio = width / height`) the
coordinate map sends the centre pixel, that is every `(x, y)` with `x + 0.5 = width / 2` and
`y + 0.5 = height / 2`, to `viewCenter`; arithmetic is exact. -/
theorem C8_mapToComplex_centre {K : Type} [LinearOrderedField K] (s : Solver K)
    (width height : Int) (hscale : 0 < s.m_viewScale)
    (hw0 : 0 < width) (hw1 : width < 2 ^ 31) (hh0 : 0 < height) (hh1 : height < 2 ^ 31)
    (x y : K) (hx : x + 1 / 2 = (width : K) / 2) (hy : y + 1 / 2 = (height : K) / 2) :
    ∃ s', Solver.resizeGrid s width height = some s' ∧
      s'.m_viewCenter = s.m_viewCenter ∧ s'.m_viewScale = s.m_viewScale ∧
      s'.aspectRatio = (width : K) / (height : K) ∧
      Solver.mapToComplex s' x y = s.m_viewCenter := by
  obtain ⟨s', hs'⟩ := Solver.resetGrid_isSome ({ s with
      m_width := width
      m_height := height
      aspectRatio := (width : K) / (height : K) }) (le_of_lt hw0) hw1 (le_of_lt hh0) hh1
  obtain ⟨f1, f2, f3, f4, f5, -, -, f8, -⟩ := Solver.resetGrid_frame hs'
  refine ⟨s', hs', f4, f5, f3, ?_⟩
  have hwK : (width : K) ≠ 0 := by
    have : (0 : K) < (width : K) := by exact_mod_cast hw0
    exact ne_of_gt this
  have hhK : (height : K) ≠ 0 := by
    have : (0 : K) < (height : K) := by exact_mod_cast hh0
    exact ne_of_gt this
  have hsK : s.m_viewScale ≠ 0 := ne_of_gt hscale
  unfold Solver.mapToComplex
  rw [f1, f2, f3, f4, f5, f8, hx, hy]
  show (⟨_, _⟩ : Complex K) = s.m_viewCenter
  cases hc : s.m_viewCenter with
  | mk re im =>
    simp only [Complex.mk.injEq]
    constructor
    · field_simp
      ring
    · field_simp
      ring

/-- Witness for C8: the sample solver resized to `4 × 2`; the centre pixel is `(1.5, 0.5)`. -/
theorem C8_mapToComplex_centre_witness :
    ∃ s', Solver.resizeGrid Solver.sample 4 2 = some s' ∧
      s'.m_viewCenter = Solver.sample.m_viewCenter ∧
      s'.m_viewScale = Solver.sample.m_viewScale ∧
      s'.aspectRatio = ((4 : Int) : ℚ) / ((2 : Int) : ℚ) ∧
      Solver.mapToComplex s' (3 / 2) (1 / 2) = Solver.sample.m_viewCenter :=
  C8_mapToComplex_centre Solver.sample 4 2 (by norm_num [Solver.sample]) (by decide)
    (by decide) (by decide) (by decide) (3 / 2) (1 / 2) (by norm_num) (by norm_num)

/-- C9: for every view centre `c`, `toggleJulia` called in Mandelbrot mode sets the Julia
constant to `c` and switches to Julia mode; after any sequence of `move`, `zoomIn`, `zoomOut`,
`zoomOnPixel` and `resizeGrid` calls (all made in Julia mode), `toggleJulia` switches back to
Mandelbrot mode with `viewCenter` equal to `c`. This holds for every run in which the calls
return, and they do return when no grid dimension is a negative `int`. -/
theorem C9_toggleJulia_capture_restore {K : Type} [LinearOrderedField K] (s : Solver K)
    (cmds : List (Solver.Command K)) (hmode : s.m_currentFractal = true) :
    (∀ s1 s2 s3, Solver.toggleJulia s = some s1 → Solver.runCommands cmds s1 = some s2 →
        Solver.toggleJulia s2 = some s3 →
        s1.m_juliaConstant = s.m_viewCenter ∧ s1.m_currentFractal = false ∧
        s2.m_currentFractal = false ∧
        s3.m_currentFractal = true ∧ s3.m_viewCenter = s.m_viewCenter) ∧
    (0 ≤ s.m_width → s.m_width < 2 ^ 31 → 0 ≤ s.m_height → s.m_height < 2 ^ 31 →
        (∀ c ∈ cmds, c.DimsOk) →
        ∃ s1 s2 s3, Solver.toggleJulia s = some s1 ∧ Solver.runCommands cmds s1 = some s2 ∧
          Solver.toggleJulia s2 = some s3) := by
  constructor
  · intro s1 s2 s3 h1 h2 h3
    obtain ⟨a1, a2, -⟩ := Solver.toggleJulia_of_mandelbrot hmode h1
    obtain ⟨b1, b2⟩ := Solver.runCommands_frame cmds h2
    obtain ⟨c1, c2⟩ := Solver.toggleJulia_of_julia (b1.trans a1) h3
    exact ⟨a2, a1, b1.trans a1, c1, by rw [c2, b2, a2]⟩
  · intro hw0 hw1 hh0 hh1 hc
    obtain ⟨s1, h1⟩ := Solver.toggleJulia_isSome s hw0 hw1 hh0 hh1
    obtain ⟨-, -, -, -, a5, a6⟩ := Solver.toggleJulia_of_mandelbrot hmode h1
    obtain ⟨s2, h2, b1, b2, b3, b4⟩ := Solver.runCommands_isSome cmds s1 hc
      (by rw [a5]; exact hw0) (by rw [a5]; exact hw1) (by rw [a6]; exact hh0)
      (by rw [a6]; exact hh1)
    obtain ⟨s3, h3⟩ := Solver.toggleJulia_isSome s2 b1 b2 b3 b4
    exact ⟨s1, s2, s3, h1, h2, h3⟩

/-- Witness for C9: the sample solver (centre `(0.3, 0.5)`), then a move, a zoom on a pixel, a
resize and a zoom out in Julia mode. -/
theorem C9_toggleJulia_capture_restore_witness :
    Solver.sample.m_currentFractal = true ∧
    ∃ s1 s2 s3, Solver.toggleJulia Solver.sample = some s1 ∧
      Solver.runCommands [.move 1 2, .zoomOnPixel 1 1 2, .resizeGrid 2 2, .zoomOut 3] s1
        = some s2 ∧
      Solver.toggleJulia s2 = some s3 ∧ s3.m_currentFractal = true ∧
      s3.m_viewCenter = Solver.sample.m_viewCenter := by
  refine ⟨rfl, ?_⟩
  have h := C9_toggleJulia_capture_restore Solver.sample
    [.move 1 2, .zoomOnPixel 1 1 2, .resizeGrid 2 2, .zoomOut 3] rfl
  obtain ⟨s1, s2, s3, h1, h2, h3⟩ := h.2 (by decide) (by decide) (by decide) (by decide)
    (by
      intro c hc
      simp only [List.mem_cons, List.mem_singleton, List.not_mem_nil, or_false] at hc
      rcases hc with rfl | rfl | rfl | rfl
      · trivial
      · trivial
      · exact ⟨by norm_num, by norm_num, by norm_num, by norm_num⟩
      · trivial)
  obtain ⟨-, -, -, h4, h5⟩ := h.1 s1 s2 s3 h1 h2 h3
  exact ⟨s1, s2, s3, h1, h2, h3, h4, h5⟩

/-- C10 (as stated, refuted): the sample solver is in Mandelbrot mode, centred at `(0.3, 0.5)`;
after `toggleJulia` its view centre is still `(0.3, 0.5)` and is not the origin. -/
theorem C10_viewCenter_not_origin_counterexample :
    Solver.sample.m_currentFractal = true ∧ Solver.sample.m_viewCenter = ⟨3 / 10, 1 / 2⟩ ∧
    ∃ s', Solver.toggleJulia Solver.sample = some s' ∧
      s'.m_viewCenter = ⟨3 / 10, 1 / 2⟩ ∧ s'.m_viewCenter ≠ ⟨0, 0⟩ := by
  refine ⟨rfl, rfl, ?_⟩
  obtain ⟨s', h⟩ := Solver.toggleJulia_isSome Solver.sample (by decide) (by decide)
    (by decide) (by decide)
  obtain ⟨-, -, h3, -⟩ := Solver.toggleJulia_of_mandelbrot rfl h
  refine ⟨s', h, h3, ?_⟩
  rw [h3]
  intro hc
  have hre : ((3 : ℚ) / 10) = 0 := congrArg Complex.real hc
  norm_num at hre

/-- C10 (amended): starting in Mandelbrot mode centred at `(0.3, 0.5)` with grid dimensions
that are non-negative `int` values, `toggleJulia` returns a state in Julia mode whose Julia
constant is `(0.3, 0.5)` and whose view centre is unchanged, still `(0.3, 0.5)`. -/
theorem C10_toggleJulia_keeps_viewCenter {K : Type} [LinearOrderedField K] (s : Solver K)
    (hmode : s.m_currentFractal = true) (hcentre : s.m_viewCenter = ⟨3 / 10, 1 / 2⟩)
    (hw0 : 0 ≤ s.m_width) (hw1 : s.m_width < 2 ^ 31)
    (hh0 : 0 ≤ s.m_height) (hh1 : s.m_height < 2 ^ 31) :
    ∃ s', Solver.toggleJulia s = some s' ∧ s'.m_currentFractal = false ∧
      s'.m_juliaConstant = ⟨3 / 10, 1 / 2⟩ ∧ s'.m_viewCenter = ⟨3 / 10, 1 / 2⟩ := by
  obtain ⟨s', h⟩ := Solver.toggleJulia_isSome s hw0 hw1 hh0 hh1
  obtain ⟨h1, h2, h3, -⟩ := Solver.toggleJulia_of_mandelbrot hmode h
  exact ⟨s', h, h1, by rw [h2, hcentre], by rw [h3, hcentre]⟩

/-- Witness for C10: the sample solver. -/
theorem C10_toggleJulia_keeps_viewCenter_witness :
    ∃ s', Solver.toggleJulia Solver.sample = some s' ∧ s'.m_currentFractal = false ∧
      s'.m_juliaConstant = ⟨3 / 10, 1 / 2⟩ ∧ s'.m_viewCenter = ⟨3 / 10, 1 / 2⟩ :=
  C10_toggleJulia_keeps_viewCenter Solver.sample rfl rfl (by decide) (by decide) (by decide)
    (by decide)

/-- C11: over exact arithmetic, for every `z` and `c` the value left in `z` by
`z.squareAdd(c)` is `z * z + c` as computed with the type's own `operator*` and `operator+`:
the real part is `z.real² - z.imag² + c.real` and the imaginary part, computed from the old
real part, is `2 · z.real · z.imag + c.imag`. -/
theorem C11_squareAdd_is_square_plus_c {K : Type} [Field K] (z c : Complex K) :
    z.squareAdd c = (z.mul z).add c ∧
    (z.squareAdd c).real = z.real * z.real - z.imag * z.imag + c.real ∧
    (z.squareAdd c).imag = 2 * z.real * z.imag + c.imag := by
  refine ⟨?_, rfl, ?_⟩
  · unfold Complex.squareAdd Complex.add Complex.mul Complex.addAssign Complex.mulAssign
    simp only [Complex.mk.injEq, true_and]
    ring
  · show (z.real + z.real) * z.imag + c.imag = 2 * z.real * z.imag + c.imag
    ring

/-- C12 (the code at the failing input `a = 2 + 0i`, `b = 0 + 1i`): the standard quotient is
`0 - 2i`; `a /= b` leaves `0 - 0.5i` in `a`, because the denominator is taken as
`a.real² + b.real²`; the binary `a / b` returns `b` itself, so `(a / b) * b` is `-1 + 0i` and
not `a`. -/
theorem C12_division_at_failing_input :
    Complex.standardQuotient (⟨2, 0⟩ : Complex ℚ) ⟨0, 1⟩ = ⟨0, -2⟩ ∧
    Complex.divAssign (⟨2, 0⟩ : Complex ℚ) ⟨0, 1⟩ = ⟨0, -(1 / 2)⟩ ∧
    Complex.div (⟨2, 0⟩ : Complex ℚ) ⟨0, 1⟩ = ⟨0, 1⟩ ∧
    (Complex.div (⟨2, 0⟩ : Complex ℚ) ⟨0, 1⟩).mul ⟨0, 1⟩ = ⟨-1, 0⟩ ∧
    (Complex.div (⟨2, 0⟩ : Complex ℚ) ⟨0, 1⟩).mul ⟨0, 1⟩ ≠ ⟨2, 0⟩ := by
  with_unfolding_all decide

/-- C13 (as stated, refuted): after `resize(2^32, 2^32)` the product of the dimensions wraps to
`0`, so the grid has `width() = height() = 2^32` and an empty backing array; `assign(1, 1, 7)`
passes the assertion (`1 <= width()`, `1 <= height()`) and then writes outside the backing
array instead of leaving `7` in cell `(0, 0)`. -/
theorem C13_assign_on_wrapped_grid_counterexample :
    ((Grid2d.empty : Grid2d Int).resize (2 ^ 32) (2 ^ 32)).width = 2 ^ 32 ∧
    ((Grid2d.empty : Grid2d Int).resize (2 ^ 32) (2 ^ 32)).height = 2 ^ 32 ∧
    ((Grid2d.empty : Grid2d Int).resize (2 ^ 32) (2 ^ 32)).data = [] ∧
    ((Grid2d.empty : Grid2d Int).resize (2 ^ 32) (2 ^ 32)).assign 1 1 7 = none := by
  decide

/-- C13 (amended): for every grid whose backing array has `width() * height() < 2^64`
elements, every `w <= width()` and every `h <= height()` that the `unsigned int` loop
counters can reach (`h < 2^32`, and `w < 2^32` unless `h = 0`), `assign(w, h, v)` returns,
every cell `(x, y)` with `x < w` and `y < h` then holds `v`, every other cell of the grid is
unchanged, and `width()` and `height()` are unchanged; when `w > width()` or `h > height()`
the call fails (assertion) on every grid. -/
theorem C13_assign_fills_subregion {T : Type} (g : Grid2d T) (w h : Nat) (v : T) :
    (g.WellSized → w ≤ g.width → h ≤ g.height → h < 2 ^ 32 → (h = 0 ∨ w < 2 ^ 32) →
      ∃ g', g.assign w h v = some g' ∧ g'.width = g.width ∧ g'.height = g.height ∧
        ∀ x y, x < g.width → y < g.height →
          g'.get x y = if x < w ∧ y < h then some v else g.get x y) ∧
    (g.width < w ∨ g.height < h → g.assign w h v = none) := by
  constructor
  · intro hg hw hh hh32 hw32
    obtain ⟨g', hrun, hshape, hcells⟩ := hg.shaped.assign_spec w h v hw hh
      ⟨by unfold UINT_MOD; exact hh32, by unfold UINT_MOD; exact hw32⟩
    exact ⟨g', hrun, hshape.1, hshape.2.1, hcells⟩
  · intro hbig
    unfold Grid2d.assign
    rw [if_neg]
    intro hc
    unfold Grid2d.width Grid2d.height at hbig
    omega

/-- Witness for C13: a `3 × 2` grid holding `1 .. 6`; `assign(2, 1, 9)` returns, leaves `9` in
cell `(1, 0)` and leaves cell `(2, 0)` at `3`. -/
theorem C13_assign_fills_subregion_witness :
    ∃ g', (⟨3, 2, [1, 2, 3, 4, 5, 6]⟩ : Grid2d Int).assign 2 1 9 = some g' ∧
      g'.get 1 0 = some 9 ∧ g'.get 2 0 = some 3 := by
  obtain ⟨g', hrun, -, -, hcells⟩ :=
    (C13_assign_fills_subregion (⟨3, 2, [1, 2, 3, 4, 5, 6]⟩ : Grid2d Int) 2 1 9).1
      ⟨by decide, by decide⟩ (by decide) (by decide) (by decide) (Or.inr (by decide))
  refine ⟨g', hrun, ?_, ?_⟩
  · rw [hcells 1 0 (by decide) (by decide)]; decide
  · rw [hcells 2 0 (by decide) (by decide)]; decide

/-- C14 (as stated, refuted): after `resize(2^63, 2)` the product of the dimensions wraps to
`0`: `size()` and the length of the backing array are both `0`, and element access at `(0, 0)`
fails although `0 < width()` and `0 < height()`. -/
theorem C14_access_on_wrapped_grid_counterexample :
    ((Grid2d.empty : Grid2d Int).resize (2 ^ 63) 2).size = 0 ∧
    ((Grid2d.empty : Grid2d Int).resize (2 ^ 63) 2).data.length = 0 ∧
    0 < ((Grid2d.empty : Grid2d Int).resize (2 ^ 63) 2).width ∧
    0 < ((Grid2d.empty : Grid2d Int).resize (2 ^ 63) 2).height ∧
    ((Grid2d.empty : Grid2d Int).resize (2 ^ 63) 2).get 0 0 = none := by
  decide

/-- C14 (amended): after `resize(w, h)` with `w * h < 2^64` the backing array has exactly
`width() * height()` elements, and every later `assign` that returns, copy assignment and move
assignment (from a grid with the same property) keeps it that way, the grid moved from being
left `0 × 0`. For every grid with this property `size() == width() * height()` is the length
of the backing array; element access at `(x, y)` succeeds if and only if `x < width()` and
`y < height()`; the offset `y * width() + x` it uses is below `size()` and is different for
different valid `(x, y)` pairs. -/
theorem C14_size_and_index_validity {T : Type} [Zero T] (g : Grid2d T) (w h : Nat)
    (hwh : w * h < 2 ^ 64) :
    (g.resize w h).WellSized ∧ (g.resize w h).width = w ∧ (g.resize w h).height = h ∧
    (∀ (g1 g2 : Grid2d T) (w1 h1 : Nat) (v : T), g1.WellSized → g1.assign w1 h1 v = some g2 →
      g2.WellSized) ∧
    (∀ (g1 other : Grid2d T) (sameObject : Bool), g1.WellSized → other.WellSized →
      (g1.copyAssign other sameObject).WellSized ∧
      (g1.moveAssign other sameObject).1.WellSized ∧
      (g1.moveAssign other sameObject).2.WellSized) ∧
    (∀ g1 : Grid2d T, g1.WellSized →
      g1.size = g1.width * g1.height ∧ g1.size = g1.data.length ∧
      (∀ x y, (g1.get x y).isSome = true ↔ x < g1.width ∧ y < g1.height) ∧
      (∀ x y, x < g1.width → y < g1.height →
        g1.offset x y = y * g1.width + x ∧ g1.offset x y < g1.size) ∧
      (∀ x y x' y', x < g1.width → y < g1.height → x' < g1.width → y' < g1.height →
        g1.offset x y = g1.offset x' y' → x = x' ∧ y = y')) := by
  refine ⟨(Grid2d.resize_shaped g (by unfold SIZE_MOD; exact hwh)).wellSized, rfl, rfl, ?_, ?_,
    ?_⟩
  · intro g1 g2 w1 h1 v hg1 hrun
    exact (hg1.shaped.assign_some hrun).wellSized
  · intro g1 other sameObject hg1 ho
    cases sameObject with
    | true => exact ⟨hg1, hg1, hg1⟩
    | false =>
      refine ⟨ho, ho, ⟨rfl, ?_⟩⟩
      show 0 * 0 < SIZE_MOD
      unfold SIZE_MOD
      norm_num
  · intro g1 hg1
    have hs := hg1.shaped
    have hsize : g1.size = g1.width * g1.height := Nat.mod_eq_of_lt hg1.2
    refine ⟨hsize, by rw [hsize]; exact hg1.1.symm, fun x y => hs.get_isSome_iff x y, ?_, ?_⟩
    · intro x y hx hy
      rw [hs.offset_eq hx hy, hsize]
      exact ⟨rfl, Grid2d.flat_lt hx hy⟩
    · intro x y x' y' hx hy hx' hy' heq
      rw [hs.offset_eq hx hy, hs.offset_eq hx' hy'] at heq
      exact Grid2d.flat_inj hx hx' heq

/-- Witness for C14: resizing the empty grid to `3 × 2`. -/
theorem C14_size_and_index_validity_witness :
    ((Grid2d.empty : Grid2d Int).resize 3 2).WellSized ∧
    ((Grid2d.empty : Grid2d Int).resize 3 2).size = 6 ∧
    (((Grid2d.empty : Grid2d Int).resize 3 2).get 2 1).isSome = true ∧
    (((Grid2d.empty : Grid2d Int).resize 3 2).get 3 1).isSome = false := by
  have h := C14_size_and_index_validity (Grid2d.empty : Grid2d Int) 3 2 (by norm_num)
  exact ⟨h.1, by decide, by decide, by decide⟩

/-- C15 (the code at a failing input): every mutator takes `calculationMutex` as its first
synchronising call and calls `abortIteration` only then. With the calculation thread inside
`iterateGrid` on a grid of two rows and one column (the lock held and the task count set; the
two workers have still to claim their rows, poll once each and find the queue empty, and the
final test is still to come), the first call of `zoomIn` on the control thread cannot be made:
it waits for the lock, and so it does after each of the nine calls for which the pass holds
the lock. The pass polls `false` three times, so it runs to completion and is counted, and
the queue is aborted only after the pass has released the lock. Whatever the queue, the grid
height, the calls of the workers, the mutator and the order in which the two threads make
their calls, no poll of the pass returns `true`. -/
theorem C15_pass_in_flight_is_not_aborted :
    (∀ m : Mutator, Sync.mutatorCalls m = [.lock, .abortIteration, .unlock]) ∧
    (∀ n : Nat, n < 9 →
      ((Sync.start ⟨2, 1, 2⟩ 2 [false, false, true, true, false, false] .zoomIn).run
        (List.replicate (n + 1) 0)).map (fun st => (st.owner, st.step 1))
        = some (some 0, none)) ∧
    ((Sync.start ⟨2, 1, 2⟩ 2 [false, false, true, true, false, false] .zoomIn).run
        [0, 0, 0, 0, 0, 0, 0, 0, 0, 0, 1, 1, 1]).map
        (fun st => (st.polled, st.queue.isAborted, st.calls))
      = some ([false, false, false], true, [[], []]) ∧
    (∀ (queue : WorkQueue) (height : Nat) (work : List Bool) (m : Mutator) (schedule : List Nat)
      (st : Sync.State), (Sync.start queue height work m).run schedule = some st →
      ∀ b ∈ st.polled, b = false) := by
  refine ⟨Sync.mutatorCalls_eq, by decide, by decide, ?_⟩
  intro queue height work m schedule st hrun
  exact (Sync.quiet_run schedule (Sync.quiet_start queue height work m) hrun).1

/-- C16 (the code at a failing input): after the start-up call
`initializeGrid(1, 2, -0.5, 0.0, 1.0)` and one pass of two workers whose steps alternate, both
pixels have escaped with iteration count `1` and the escape count is `2`, but bucket `0` of
the histogram holds `1`: it is not the number of escaped pixels with iteration count `1`. -/
theorem C16_bucket_below_pixel_count :
    ∃ s0 s : Solver ℚ,
      Solver.initializeGrid (Solver.init 0 ⟨0, 0, 0⟩) 1 2 (-(1 / 2)) 0 1 = some s0 ∧
      Solver.iterateGridScheduled 2 [0, 1, 0, 1, 0, 1, 0, 1, 0, 1] s0 = some s ∧
      s.m_iterationCount = 1 ∧ s.workQueue.isAborted = false ∧
      s.m_magnitudeSquaredGrid = ⟨1, 2, [17 / 4, 17 / 4]⟩ ∧ s.m_iterationGrid = ⟨1, 2, [1, 1]⟩ ∧
      s.m_escapeRadius * s.m_escapeRadius = 4 ∧
      ((Finset.range (s.m_width.toNat * s.m_height.toNat)).filter
        fun i => Solver.escapedAt s i = true ∧ Solver.iterationAt s i = ((0 : Nat) : Int) + 1).card
        = 2 ∧
      s.m_escapeCount = 2 ∧ s.escapeIterationCounter[0]? = some 1 ∧ ¬ Solver.Counted s := by
  obtain ⟨s0, s, h0, h1, c1, c2, -, c4, c5⟩ := Solver.alternating_pass
  obtain ⟨hdim, hcells⟩ := Solver.alternating_pass_cells
  rw [h0] at hdim hcells
  simp only [Option.some_bind, h1, Option.map_some', Option.some.injEq, Prod.mk.injEq]
    at hdim hcells
  obtain ⟨d1, d2, d3⟩ := hdim
  obtain ⟨-, g2, g3⟩ := hcells
  have hbucket : s.escapeIterationCounter[0]? = some 1 := by
    rw [c5, List.getElem?_cons_zero]
  have hcard : ((Finset.range (s.m_width.toNat * s.m_height.toNat)).filter
      fun i => Solver.escapedAt s i = true ∧
        Solver.iterationAt s i = ((0 : Nat) : Int) + 1).card = 2 := by
    have hall : ∀ i ∈ Finset.range (s.m_width.toNat * s.m_height.toNat),
        Solver.escapedAt s i = true ∧ Solver.iterationAt s i = ((0 : Nat) : Int) + 1 := by
      intro i hi
      rw [d1, d2] at hi
      have hi2 : i < 2 := Finset.mem_range.1 hi
      unfold Solver.escapedAt Solver.iterationAt
      rw [g2, g3, d3]
      interval_cases i <;> simp <;> norm_num
    rw [Finset.filter_true_of_mem hall, Finset.card_range, d1, d2]
    rfl
  refine ⟨s0, s, h0, h1, c1, c2, g2, g3, by rw [d3]; norm_num, hcard, c4, hbucket, ?_⟩
  intro hcounted
  have h := hcounted.2 0 1 hbucket
  rw [hcard] at h
  exact absurd h (by decide)

/-- C17 (as stated, refuted): the freshly constructed solver has `width = height = 1` and the
iteration maximum `8192`, but its three grids are `0 × 0` and its histogram is empty; a pass
with one worker started on it with the queue not aborted addresses the cell `(0, 0)` outside
the grid. -/
theorem C17_fresh_solver_counterexample :
    Solver.Operated false (Solver.init 0 ⟨0, 0, 0⟩ : Solver ℚ) ∧
    (Solver.init 0 ⟨0, 0, 0⟩ : Solver ℚ).m_width = 1 ∧
    (Solver.init 0 ⟨0, 0, 0⟩ : Solver ℚ).m_height = 1 ∧
    (Solver.init 0 ⟨0, 0, 0⟩ : Solver ℚ).m_iterationMaximum = 8192 ∧
    (Solver.init 0 ⟨0, 0, 0⟩ : Solver ℚ).m_grid.width = 0 ∧
    (Solver.init 0 ⟨0, 0, 0⟩ : Solver ℚ).m_grid.height = 0 ∧
    (Solver.init 0 ⟨0, 0, 0⟩ : Solver ℚ).m_iterationGrid.width = 0 ∧
    (Solver.init 0 ⟨0, 0, 0⟩ : Solver ℚ).m_magnitudeSquaredGrid.width = 0 ∧
    (Solver.init 0 ⟨0, 0, 0⟩ : Solver ℚ).escapeIterationCounter.length = 0 ∧
    Solver.iterateGrid 1 (Solver.init 0 ⟨0, 0, 0⟩ : Solver ℚ) = none :=
  ⟨Solver.Operated.init 0 ⟨0, 0, 0⟩, rfl, rfl, rfl, rfl, rfl, rfl, rfl, rfl,
    by with_unfolding_all decide⟩

/-- C17 (amended): in every state reached from the freshly constructed solver by at least one
mutating operation (`initializeGrid`, `resizeGrid`, `toggleJulia`, `zoomIn`, `zoomOut`,
`zoomOnPixel`, `move`, each of which runs `resetGrid`; dimensions asked for in `0 .. 2^31 - 1`)
and any number of further such operations and calls of `iterateGrid`, the complex, iteration
and squared-magnitude grids have the dimensions `(width, height)` and `width * height`
elements, the escape histogram has the length `iterationMaximum`, and every call of
`iterateGrid`, with any number of workers and the queue in any state, returns: no cell outside
a grid and no bucket outside the histogram is addressed. -/
theorem C17_grid_dimensions_after_first_mutation {K : Type} [LinearOrderedField K]
    (s : Solver K) (h : Solver.Operated true s) :
    ((s.m_grid.width : Int) = s.m_width ∧ (s.m_grid.height : Int) = s.m_height) ∧
    ((s.m_iterationGrid.width : Int) = s.m_width ∧
      (s.m_iterationGrid.height : Int) = s.m_height) ∧
    ((s.m_magnitudeSquaredGrid.width : Int) = s.m_width ∧
      (s.m_magnitudeSquaredGrid.height : Int) = s.m_height) ∧
    s.m_grid.WellSized ∧ s.m_iterationGrid.WellSized ∧ s.m_magnitudeSquaredGrid.WellSized ∧
    (s.escapeIterationCounter.length : Int) = s.m_iterationMaximum ∧
    ∀ (threadCount : Nat) (queue : WorkQueue),
      ∃ s', Solver.iterateGrid threadCount { s with workQueue := queue } = some s' ∧
        Solver.Operated true s' := by
  have hsound := h.isSound.2 rfl
  have hw := Int.toNat_of_nonneg hsound.width_nonneg
  have hh := Int.toNat_of_nonneg hsound.height_nonneg
  have dims : ∀ {T : Type} (g : Grid2d T), g.Shaped s.m_width.toNat s.m_height.toNat →
      (g.width : Int) = s.m_width ∧ (g.height : Int) = s.m_height := by
    intro T g hg
    unfold Grid2d.width Grid2d.height
    rw [hg.1, hg.2.1]
    exact ⟨hw, hh⟩
  refine ⟨dims _ hsound.grid_shaped, dims _ hsound.iteration_shaped,
    dims _ hsound.magnitude_shaped, hsound.grid_shaped.wellSized,
    hsound.iteration_shaped.wellSized, hsound.magnitude_shaped.wellSized,
    hsound.counter_length, ?_⟩
  intro threadCount queue
  obtain ⟨s', hrun, -⟩ := Solver.iterateGrid_sound (hsound.anyQueue queue) threadCount
  exact ⟨s', hrun, Solver.Operated.iterateGrid threadCount queue h hrun⟩

/-- Witness for C17: the constructed solver after `initializeGrid(3, 2, 0, 0, 1)`. -/
theorem C17_grid_dimensions_after_first_mutation_witness :
    ∃ s : Solver ℚ, (Solver.init 0 ⟨0, 0, 0⟩).initializeGrid 3 2 0 0 1 = some s ∧
      (s.m_grid.width : Int) = s.m_width ∧ (s.m_grid.height : Int) = s.m_height ∧
      (s.escapeIterationCounter.length : Int) = s.m_iterationMaximum ∧
      ∃ s', Solver.iterateGrid 2 s = some s' := by
  have hex : ∃ s : Solver ℚ,
      (Solver.init 0 ⟨0, 0, 0⟩).initializeGrid 3 2 0 0 1 = some s := by
    unfold Solver.initializeGrid Solver.resizeGrid
    refine (Solver.resetGrid_sound _ ?_ ?_ ?_ ?_ ?_ ?_).imp fun s hs => hs.1
    · show (0 : Int) ≤ 3
      decide
    · show (3 : Int) < 2 ^ 31
      decide
    · show (0 : Int) ≤ 2
      decide
    · show (2 : Int) < 2 ^ 31
      decide
    · show (0 : Int) ≤ 8192
      decide
    · show (8192 : Int) < 2 ^ 31
      decide
  obtain ⟨s, hrun⟩ := hex
  have hop : Solver.Operated true s :=
    Solver.Operated.mutation (Solver.Operated.init 0 ⟨0, 0, 0⟩)
      (Solver.Mutation.initializeGrid 3 2 0 0 1 (by decide) (by decide) (by decide)
        (by decide) hrun)
  obtain ⟨⟨a1, a2⟩, -, -, -, -, -, a3, a4⟩ := C17_grid_dimensions_after_first_mutation s hop
  obtain ⟨s', hs', -⟩ := a4 2 s.workQueue
  exact ⟨s, hrun, a1, a2, a3, s', hs'⟩

/-- C18: in every state reached from `resetGrid` by calls of `iterateGrid` (dimensions and
iteration maximum non-negative `int` values), no pixel's iteration count exceeds
`iterationCount`, which does not exceed `iterationMaximum`, the length of the histogram, and
every call of `iterateGrid` returns. While a pass is run (`iterationCount <
iterationMaximum`), whatever cells `V` have been visited, no pixel's iteration count exceeds
`iterationCount + 1`; at every cell not yet visited the bucket index `(count + 1) - 1`, taken
after the increment, satisfies `0 <= index < iterationMaximum` and lies inside the histogram,
and the row step at that cell returns. -/
theorem C18_histogram_index_safety {K : Type} [LinearOrderedField K] (s0 s : Solver K)
    (hw0 : 0 ≤ s0.m_width) (hw1 : s0.m_width < 2 ^ 31) (hh0 : 0 ≤ s0.m_height)
    (hh1 : s0.m_height < 2 ^ 31) (hm0 : 0 ≤ s0.m_iterationMaximum)
    (hm1 : s0.m_iterationMaximum < 2 ^ 31) (h : Solver.ReachedByIterations s0 s) :
    s.m_iterationCount ≤ s.m_iterationMaximum ∧
    (s.escapeIterationCounter.length : Int) = s.m_iterationMaximum ∧
    (∀ (i : Nat) (k : Int), s.m_iterationGrid.data[i]? = some k →
      0 ≤ k ∧ k ≤ s.m_iterationCount) ∧
    (∀ (threadCount : Nat) (queue : WorkQueue),
      ∃ s', Solver.iterateGrid threadCount { s with workQueue := queue } = some s' ∧
        Solver.ReachedByIterations s0 s') ∧
    (s.m_iterationCount < s.m_iterationMaximum →
      ∀ (V : Finset Nat) (t : Solver K), Solver.Visited s V t →
        (∀ (i : Nat) (k : Int), t.m_iterationGrid.data[i]? = some k →
          0 ≤ k ∧ k ≤ s.m_iterationCount + 1) ∧
        (t.escapeIterationCounter.length : Int) = s.m_iterationMaximum ∧
        ∀ x y : Nat, x < s.m_width.toNat → y < s.m_height.toNat →
          y * s.m_width.toNat + x ∉ V →
          (∃ k : Int, t.m_iterationGrid.get x y = some k ∧ 0 ≤ (k + 1) - 1 ∧
            (k + 1) - 1 < s.m_iterationMaximum ∧
            toSizeT ((k + 1) - 1) < t.escapeIterationCounter.length) ∧
          ∃ t', Solver.pixelStep t x (y : Int) = some t' ∧
            Solver.Visited s (insert (y * s.m_width.toNat + x) V) t') := by
  have hsound := h.staysSound hw0 hw1 hh0 hh1 hm0 hm1
  refine ⟨hsound.count_le, hsound.counter_length, hsound.iterations, ?_, ?_⟩
  · intro threadCount queue
    obtain ⟨s', hrun, -⟩ := Solver.iterateGrid_sound (hsound.anyQueue queue) threadCount
    exact ⟨s', hrun, Solver.ReachedByIterations.iterate threadCount queue h hrun⟩
  · intro hlt V t hvis
    have hready := hsound.passReady hlt
    have hlen : (t.escapeIterationCounter.length : Int) = s.m_iterationMaximum := by
      rw [hvis.counter_length]; exact hsound.counter_length
    have hcell : ∀ i, i < s.m_width.toNat * s.m_height.toNat →
        ∃ k0 : Int, 0 ≤ k0 ∧ k0 ≤ s.m_iterationCount ∧
          (t.m_iterationGrid.data[i]? = some k0 ∨
            (i ∈ V ∧ t.m_iterationGrid.data[i]? = some (k0 + 1))) := by
      intro i hi
      have hz := List.getElem?_eq_getElem (show i < s.m_grid.data.length by
        rw [hsound.grid_shaped.2.2.1]; exact hi)
      have hm := List.getElem?_eq_getElem (show i < s.m_magnitudeSquaredGrid.data.length by
        rw [hsound.magnitude_shaped.2.2.1]; exact hi)
      have hk0 := List.getElem?_eq_getElem (show i < s.m_iterationGrid.data.length by
        rw [hsound.iteration_shaped.2.2.1]; exact hi)
      obtain ⟨-, -, c3⟩ := hvis.cells i _ _ _ hz hm hk0
      obtain ⟨b0, b1⟩ := hsound.iterations i _ hk0
      refine ⟨_, b0, b1, ?_⟩
      rw [c3]
      split
      · rename_i hc
        exact Or.inr ⟨hc.1, rfl⟩
      · exact Or.inl rfl
    refine ⟨?_, hlen, ?_⟩
    · intro i k hk
      by_cases hi : i < s.m_width.toNat * s.m_height.toNat
      · obtain ⟨k0, b0, b1, hc | ⟨-, hc⟩⟩ := hcell i hi
        · rw [hc] at hk
          simp only [Option.some.injEq] at hk
          omega
        · rw [hc] at hk
          simp only [Option.some.injEq] at hk
          omega
      · rw [List.getElem?_eq_none (by rw [hvis.iteration_shaped.2.2.1]; omega)] at hk
        exact absurd hk (by simp)
    · intro x y hx hy hnew
      refine ⟨?_, ?_⟩
      · obtain ⟨k0, b0, b1, hc | ⟨hc, -⟩⟩ := hcell _ (Grid2d.flat_lt hx hy)
        · refine ⟨k0, by rw [hvis.iteration_shaped.get_eq hx hy]; exact hc, by omega,
            by omega, ?_⟩
          exact Mandelbrot.Solver.toSizeT_lt_of_nonneg (by omega) (by rw [hlen]; omega)
        · exact absurd hc hnew
      · obtain ⟨t', hstep, hvis', -⟩ := Solver.pixelStep_visited hready hx hy hnew hvis
        exact ⟨t', hstep, hvis'⟩

/-- Witness for C18: the sample solver (a `3 × 2` grid, at most `4` iterations) after
`resetGrid`. -/
theorem C18_histogram_index_safety_witness :
    ∃ s : Solver ℚ, Solver.sample.resetGrid = some s ∧
      s.m_iterationCount ≤ s.m_iterationMaximum ∧
      (s.escapeIterationCounter.length : Int) = s.m_iterationMaximum ∧
      ∃ s', Solver.iterateGrid 2 s = some s' := by
  obtain ⟨s, hrun, -⟩ := Solver.resetGrid_sound Solver.sample (by decide) (by decide)
    (by decide) (by decide) (by decide) (by decide)
  obtain ⟨a1, a2, -, a4, -⟩ := C18_histogram_index_safety Solver.sample s (by decide)
    (by decide) (by decide) (by decide) (by decide) (by decide)
    (Solver.ReachedByIterations.reset hrun)
  obtain ⟨s', hs', -⟩ := a4 2 s.workQueue
  exact ⟨s, hrun, a1, a2, s', hs'⟩

/-- C19 (the code at a failing input): from the state left by the start-up call
`initializeGrid(1, 2, -0.5, 0.0, 1.0)`, the pass in which the first of two workers takes both
rows and the pass in which each worker takes one row, their steps alternating, both complete
with the same three grids and the same escape count, but with different histograms: bucket
`0` holds `2` after the one and `1` after the other. -/
theorem C19_histogram_depends_on_interleaving :
    ∃ s0 s1 s2 : Solver ℚ,
      Solver.initializeGrid (Solver.init 0 ⟨0, 0, 0⟩) 1 2 (-(1 / 2)) 0 1 = some s0 ∧
      Solver.iterateGridScheduled 2 [0, 0, 0, 0, 0, 0, 0, 0, 0, 1] s0 = some s1 ∧
      Solver.iterateGridScheduled 2 [0, 1, 0, 1, 0, 1, 0, 1, 0, 1] s0 = some s2 ∧
      s1.m_iterationCount = 1 ∧ s2.m_iterationCount = 1 ∧
      s1.m_grid = s2.m_grid ∧ s1.m_magnitudeSquaredGrid = s2.m_magnitudeSquaredGrid ∧
      s1.m_iterationGrid = s2.m_iterationGrid ∧ s1.m_escapeCount = s2.m_escapeCount ∧
      s1.escapeIterationCounter[0]? = some 2 ∧ s2.escapeIterationCounter[0]? = some 1 ∧
      s1.escapeIterationCounter ≠ s2.escapeIterationCounter := by
  obtain ⟨s0, s2, h0, h2, c1, -, -, c4, c5⟩ := Solver.alternating_pass
  obtain ⟨-, hcells⟩ := Solver.alternating_pass_cells
  obtain ⟨hone, honecells⟩ := Solver.one_worker_pass
  rw [h0] at hcells hone honecells
  simp only [Option.some_bind, h2, Option.map_some', Option.some.injEq, Prod.mk.injEq]
    at hcells
  simp only [Option.some_bind, Option.map_eq_some', Prod.mk.injEq] at hone honecells
  obtain ⟨s1, h1, e1, e2, e3⟩ := hone
  obtain ⟨s1', h1', k1, k2, k3⟩ := honecells
  rw [h1] at h1'
  cases h1'
  obtain ⟨g1, g2, g3⟩ := hcells
  have hbucket : s2.escapeIterationCounter[0]? = some 1 := by
    rw [c5, List.getElem?_cons_zero]
  refine ⟨s0, s1, s2, h0, h1, h2, e1, c1, by rw [k1, g1], by rw [k2, g2], by rw [k3, g3],
    by rw [e2, c4], e3, hbucket, ?_⟩
  intro heq
  rw [heq, hbucket] at e3
  exact absurd e3 (by decide)

/-- C20 (the code at the failing input): with `8192` prefix sums and the argument `e = -2`
(iteration count `1`, squared magnitude `256`, so `log2(log2(256)) = 3`), the lookup takes the
branch `b <= a` and reads the vector at the truncated argument, the index `-2`, which lies
outside the vector. -/
theorem C20_lookup_reads_outside_at_failing_input :
    smoothReadIndices 8192 (-2 : ℚ) = [-2] ∧
    smoothEscapeIterationCounterSum (List.replicate 8192 1) (-2 : ℚ) = none := by
  have hfloor : Int.floor (-2 : ℚ) = -2 := by
    have : ((-2 : Int) : ℚ) = -2 := by norm_num
    rw [← this, Int.floor_intCast]
  have hceil : Int.ceil (-2 : ℚ) = -2 := by
    have : ((-2 : Int) : ℚ) = -2 := by norm_num
    rw [← this, Int.ceil_intCast]
  have htrunc : truncToInt (-2 : ℚ) = -2 := by
    unfold truncToInt
    rw [if_neg (by norm_num), hceil]
  constructor
  · unfold smoothReadIndices
    simp only [hfloor, hceil, htrunc]
    decide
  · unfold smoothEscapeIterationCounterSum
    simp only [hfloor, hceil, htrunc, List.length_replicate]
    rw [if_pos (by decide)]
    have hidx : toSizeT (-2) = 18446744073709551614 := by decide
    rw [hidx, List.getElem?_eq_none (by rw [List.length_replicate]; norm_num)]
    rfl

end Mandelbrot
